import Mathlib

/-!
# MCU_7960_USB: packet reception and command execution

A shallow embedding of `Core/Src/Comms_RX.c`, `Core/Src/Command.c`,
`Core/Src/Reboot.c` and the types of `Core/Inc/Comms_Defs.h`.

Conventions of the embedding:
* bytes and machine integers are `Nat`; a wrap-around is written `% 2^w` at the
  place where the C type forces it;
* a C array is a `List Nat`; a store is defined only inside the bounds of the
  array, and a function that would leave the defined behaviour of C
  (out-of-bounds store, read through a null pointer, unterminated string)
  returns `none`;
* a call through the `Packet_Ready` function pointer is recorded as one entry
  of an output list, holding the packet the callback is given;
* calls of the IO collaborator are recorded, in order, in a call log.
-/

namespace MCU7960

/-! ## Comms_Defs.h -/

/-- Start of packet identifier, the character `{`. -/
abbrev SOP_BYTE : Nat := 123
/-- End of packet identifier, the character `}`. -/
abbrev EOP_BYTE : Nat := 125
/-- Bytes of storage of a transmit or receive payload. -/
abbrev PAYLOAD_BUF_SIZE : Nat := 30
/-- Milliseconds between bytes before the other end is assumed dead. -/
abbrev BYTE_TIMEOUT_MS : Nat := 500

/-- Command `F`: read the firmware version. -/
abbrev COMMAND_FW_VER : Nat := 70
/-- Command `S`: read the status of the motors. -/
abbrev COMMAND_STATUS : Nat := 83
/-- Command `O`: set the PWM outputs. -/
abbrev COMMAND_SET_OUTPUTS : Nat := 79
/-- Command `R`: reboot the device. -/
abbrev COMMAND_REBOOT : Nat := 82

/-- Response code `A`. -/
abbrev RESP_ACK : Nat := 65
/-- Response code `P`. -/
abbrev RESP_INV_PAYLOAD : Nat := 80
/-- Response code `C`. -/
abbrev RESP_INV_COMMAND : Nat := 67

/-- The byte the receive state machine expects next. -/
inductive Comms_RX_Expect where
  | EXPECT_UNDEFINED
  | EXPECT_SOP
  | EXPECT_COMMAND
  | EXPECT_PAYLOAD
  | EXPECT_EOP
deriving DecidableEq, Repr

open Comms_RX_Expect

/-- Payload: `uint8_t Len` and `uint8_t Buf[PAYLOAD_BUF_SIZE]`. -/
structure Comms_Payload where
  Len : Nat
  Buf : List Nat
deriving DecidableEq, Repr

/-- Packet: `SOP`, `Command`, `Payload`, `EOP`. -/
structure Comms_Packet where
  SOP : Nat
  Command : Nat
  Payload : Comms_Payload
  EOP : Nat
deriving DecidableEq, Repr

/-- The receive object. `Packet_Ready` is `true` when the function pointer is
not null; `Running_Len` is a `uint16_t`, `Byte_Timer` a `uint8_t`. -/
structure Comms_RX_Typedef where
  Expect : Comms_RX_Expect
  Running_Len : Nat
  Packet_Ready : Bool
  Packet : Comms_Packet
  Byte_Timer : Nat
deriving DecidableEq, Repr

/-- Store `v` into cell `i` of a C array; outside the array the store is not
defined. -/
def store (mem : List Nat) (i v : Nat) : Option (List Nat) :=
  if i < mem.length then some (mem.set i v) else none

/-! ## Comms_RX.c -/

/-- One received byte through the receive state machine. The second component
lists the packets handed to the `Packet_Ready` callback by this call. -/
def Comms_RX_Receive_Byte (RX : Comms_RX_Typedef) (This_Byte : Nat) :
    Option (Comms_RX_Typedef × List Comms_Packet) :=
  if RX.Expect = EXPECT_SOP then
    if This_Byte = SOP_BYTE then
      some ({ RX with
                Expect := EXPECT_COMMAND
                Byte_Timer := 0
                Packet := { RX.Packet with SOP := This_Byte } }, [])
    else
      some (RX, [])
  else if RX.Expect = EXPECT_COMMAND then
    some ({ RX with
              Packet := { RX.Packet with Command := This_Byte }
              Expect := EXPECT_PAYLOAD
              Running_Len := 0
              Byte_Timer := 0 }, [])
  else if RX.Expect = EXPECT_PAYLOAD then
    if This_Byte = EOP_BYTE then
      if RX.Packet_Ready then
        let Pkt : Comms_Packet :=
          { RX.Packet with
              EOP := EOP_BYTE
              Payload := { RX.Packet.Payload with Len := RX.Running_Len % 256 } }
        some ({ RX with Packet := Pkt, Expect := EXPECT_SOP, Byte_Timer := 0 }, [Pkt])
      else
        some ({ RX with Expect := EXPECT_SOP, Byte_Timer := 0 }, [])
    else if RX.Running_Len < PAYLOAD_BUF_SIZE then
      match store RX.Packet.Payload.Buf RX.Running_Len This_Byte with
      | none => none
      | some Buf =>
        some ({ RX with
                  Packet := { RX.Packet with Payload := { RX.Packet.Payload with Buf := Buf } }
                  Running_Len := (RX.Running_Len + 1) % 65536
                  Byte_Timer := 0 }, [])
    else
      some ({ RX with Byte_Timer := 0 }, [])
  else
    some (RX, [])

/-- One timer interrupt. `Byte_Timeout_Ints` is the global `uint16_t` set by
`Comms_RX_Initialise`; the pre-increment of the `uint8_t Byte_Timer` wraps. -/
def Comms_RX_Timer (Byte_Timeout_Ints : Nat) (RX : Comms_RX_Typedef) : Comms_RX_Typedef :=
  if RX.Expect ≠ EXPECT_SOP ∧ RX.Expect ≠ EXPECT_UNDEFINED then
    let t := (RX.Byte_Timer + 1) % 256
    if t ≥ Byte_Timeout_Ints then
      { RX with Byte_Timer := t, Expect := EXPECT_SOP }
    else
      { RX with Byte_Timer := t }
  else
    RX

/-- What reaches the receive object: a byte from the host or a timer interrupt. -/
inductive Event where
  | byte (b : Nat)
  | tick
deriving DecidableEq, Repr

/-- One event applied to the receive object. -/
def step (Byte_Timeout_Ints : Nat) (RX : Comms_RX_Typedef) :
    Event → Option (Comms_RX_Typedef × List Comms_Packet)
  | Event.byte b => Comms_RX_Receive_Byte RX b
  | Event.tick => some (Comms_RX_Timer Byte_Timeout_Ints RX, [])

/-- A sequence of events applied in order; the callback invocations are
collected in order. -/
def run (Byte_Timeout_Ints : Nat) :
    Comms_RX_Typedef → List Event → Option (Comms_RX_Typedef × List Comms_Packet)
  | RX, [] => some (RX, [])
  | RX, e :: es =>
    match step Byte_Timeout_Ints RX e with
    | none => none
    | some (RX1, out1) =>
      match run Byte_Timeout_Ints RX1 es with
      | none => none
      | some (RX2, out2) => some (RX2, out1 ++ out2)

/-- The events `k` timer interrupts. -/
def ticks (k : Nat) : List Event := List.replicate k Event.tick

/-- The events of bytes that arrive one at a time, each after the given number
of timer interrupts: an entry `(k, b)` is `k` interrupts, then the byte `b`. -/
def feed : List (Nat × Nat) → List Event
  | [] => []
  | (k, b) :: rest => ticks k ++ Event.byte b :: feed rest

/-! ## Reboot.h, Reboot.c -/

/-- Type of reboot being requested. -/
inductive Reboot_Request_Type where
  | REBOOT_REQUEST_NONE
  | REBOOT_REQUEST_NORMAL
  | REBOOT_REQUEST_DFU
deriving DecidableEq, Repr

open Reboot_Request_Type

/-- The body of `Reboot_Request`: the global `R` becomes `req`. -/
def Reboot_Request (req : Reboot_Request_Type) (_R : Reboot_Request_Type) :
    Reboot_Request_Type :=
  req

/-- The body of `Reboot_Main`: the new value of the global `R`, and whether
`MX_WWDG_Init` was called. -/
def Reboot_Main (R : Reboot_Request_Type) : Reboot_Request_Type × Bool :=
  if R = REBOOT_REQUEST_NORMAL then (REBOOT_REQUEST_NONE, true) else (R, false)

/-! ## IO.h -/

/-- The PWM controlled pins. -/
inductive PWM_PIN where
  | ENA_L
  | ENA_R
  | PWM_L
  | PWM_R
deriving DecidableEq, Repr

open PWM_PIN

/-- A call that `Command_Execute` makes to a collaborator, with its arguments. -/
inductive Call where
  | IO_Set_PWM_Percent (Value_Percent : Nat) (pin : PWM_PIN)
  | IO_Get_PWM_Percent (pin : PWM_PIN)
  | Reboot_Request (req : Reboot_Request_Type)
deriving DecidableEq, Repr

/-! ## Firmware_Version.c -/

/-- The characters of `FW_Ver`, which is `MCU_7960_USBv0.1`. -/
def FW_Ver : List Nat :=
  [77, 67, 85, 95, 55, 57, 54, 48, 95, 85, 83, 66, 118, 48, 46, 49]

/-- The string `Firmware_Version_Get` returns. -/
def Firmware_Version_Get : List Nat := FW_Ver

/-! ## The C library functions that Command.c uses

A string is the list of its characters up to, and without, its terminating
zero. -/

/-- Store a block of bytes from cell `off` on; not defined when the block
leaves the array. -/
def storeAt (mem : List Nat) (off : Nat) (bytes : List Nat) : Option (List Nat) :=
  if off + bytes.length ≤ mem.length then
    some (mem.take off ++ bytes ++ mem.drop (off + bytes.length))
  else
    none

/-- Load cell `i` of a C array; not defined outside the array. -/
def load (mem : List Nat) (i : Nat) : Option Nat := mem[i]?

/-- The string that starts at cell `off` of `mem`. -/
def cstring (mem : List Nat) (off : Nat) : List Nat :=
  (mem.drop off).takeWhile (fun c => c ≠ 0)

/-- The call `strlen(&mem[off])`: not defined when no zero follows inside the array. -/
def strlen (mem : List Nat) (off : Nat) : Option Nat :=
  if 0 ∈ mem.drop off then some (cstring mem off).length else none

/-- The `n` bytes that `strncpy(dst, src, n)` writes: the characters of `src`
up to its first zero, at most `n` of them, then zeros up to `n` bytes. -/
def strncpy (src : List Nat) (n : Nat) : List Nat :=
  let s := (src.takeWhile (fun c => c ≠ 0)).take n
  s ++ List.replicate (n - s.length) 0

/-- One call of `strtok` with the delimiter `,` on the string `s` that starts
at the saved position: the token (`none` is the null pointer) and the string at
the new saved position. -/
def strtok (s : List Nat) : Option (List Nat) × List Nat :=
  let s1 := s.dropWhile (fun c => c = 44)
  if s1 = [] then
    (none, [])
  else
    (some (s1.takeWhile (fun c => c ≠ 44)), (s1.dropWhile (fun c => c ≠ 44)).drop 1)

/-- The C `isspace` in the C locale. -/
def isspace (c : Nat) : Bool := c = 32 || (9 ≤ c && c ≤ 13)

/-- The C `isdigit`. -/
def isdigit (c : Nat) : Bool := 48 ≤ c && c ≤ 57

/-- The value of a run of decimal digits. -/
def digitsValue (s : List Nat) : Nat :=
  s.foldl (fun acc c => acc * 10 + (c - 48)) 0

/-- The C `atoi`: white space, an optional sign, then decimal digits. -/
def atoi (s : List Nat) : Int :=
  match s.dropWhile isspace with
  | 45 :: t => - (digitsValue (t.takeWhile isdigit) : Int)
  | 43 :: t => (digitsValue (t.takeWhile isdigit) : Int)
  | t => (digitsValue (t.takeWhile isdigit) : Int)

/-- The characters of a number in decimal, without leading zeros. -/
def dec (n : Nat) : List Nat := (Nat.toDigits 10 n).map Char.toNat

/-- The call `sprintf(&mem[off], "%i,", val)` for a value that is not
negative: the digits, a comma and the terminating zero. -/
def sprintf_i_comma (mem : List Nat) (off : Nat) (val : Nat) : Option (List Nat) :=
  storeAt mem off (dec val ++ [44, 0])

/-! ## Command.c -/

/-- The loop of `Get_PWMs_From_Payload`: `n` iterations are left, `PWMs_Idx` is
the loop counter, `Token` the current token and `save` the string at the saved
position of `strtok`. A cell of `PWMs` is `none` until it is written. -/
def Get_PWMs_loop : Nat → Nat → Option (List Nat) → List Nat → List (Option Nat) →
    Option (Bool × List (Option Nat))
  | 0, _, _, _, PWMs => some (true, PWMs)
  | n + 1, PWMs_Idx, Token, save, PWMs =>
    match Token with
    | none => none
    | some tok =>
      if tok.length ≤ 3 then
        if tok.any (fun c => c < 48 || c > 57) then
          some (false, PWMs)
        else
          let num := atoi tok
          if 0 ≤ num ∧ num ≤ 100 then
            Get_PWMs_loop n (PWMs_Idx + 1) (strtok save).1 (strtok save).2
              (PWMs.set PWMs_Idx (some (num.toNat % 256)))
          else
            some (false, PWMs)
      else
        some (false, PWMs)

/-- Try to extract 4 PWM values from the payload. The result is `none` when the
function reads through the null pointer that `strtok` returns once the tokens
are used up. -/
def Get_PWMs_From_Payload (PWMs : List (Option Nat)) (Payload : Comms_Payload) :
    Option (Bool × List (Option Nat)) :=
  if Payload.Len < 7 ∨ Payload.Len > 15 then
    some (false, PWMs)
  else
    let StrPayload := strncpy Payload.Buf Payload.Len ++ [0]
    let first := strtok (cstring StrPayload 0)
    Get_PWMs_loop 4 0 first.1 first.2 PWMs

/-- Fill the payload with the acknowledge code and the four applied PWM values.
`Percent pin` is what `IO_Get_PWM_Percent(pin)` returns. The second component
lists the collaborator calls in order. -/
def Load_Buf_With_Status (Percent : PWM_PIN → Nat) (P : Comms_Payload) :
    Option (Comms_Payload × List Call) :=
  match store P.Buf 0 RESP_ACK with
  | none => none
  | some B0 =>
  match sprintf_i_comma B0 1 (Percent ENA_L % 256) with
  | none => none
  | some B1 =>
  let val := Percent ENA_R % 256
  match strlen B1 1 with
  | none => none
  | some n1 =>
  match sprintf_i_comma B1 (1 + n1) val with
  | none => none
  | some B2 =>
  let val := Percent PWM_L % 256
  match strlen B2 1 with
  | none => none
  | some n2 =>
  match sprintf_i_comma B2 (1 + n2) val with
  | none => none
  | some B3 =>
  let val := Percent PWM_R % 256
  match strlen B3 1 with
  | none => none
  | some n3 =>
  match sprintf_i_comma B3 (1 + n3) val with
  | none => none
  | some B4 =>
  match strlen B4 1 with
  | none => none
  | some n4 =>
    some ({ Len := (1 + n4) % 256, Buf := B4 },
      [Call.IO_Get_PWM_Percent ENA_L, Call.IO_Get_PWM_Percent ENA_R,
       Call.IO_Get_PWM_Percent PWM_L, Call.IO_Get_PWM_Percent PWM_R])

/-- What one call of `Command_Execute` leaves: the static reply payload `p`
that the returned pointer refers to, the global `R` of Reboot.c, and the
collaborator calls made, in order. -/
structure Command_Result where
  p : Comms_Payload
  R : Reboot_Request_Type
  calls : List Call
deriving DecidableEq, Repr

/-- Process the command and any included payload. `Percent` gives the values
`IO_Get_PWM_Percent` returns, `str` the string `Firmware_Version_Get` returns,
`p` the static reply payload before the call and `R` the pending reboot
request before the call. -/
def Command_Execute (Percent : PWM_PIN → Nat) (str : List Nat) (p : Comms_Payload)
    (R : Reboot_Request_Type) (Cmd : Nat) (Payload : Comms_Payload) : Option Command_Result :=
  if Cmd = COMMAND_FW_VER then
    match store p.Buf 0 RESP_ACK with
    | none => none
    | some B0 =>
    match storeAt B0 1 (strncpy str (PAYLOAD_BUF_SIZE - 2)) with
    | none => none
    | some B1 =>
    match strlen B1 1 with
    | none => none
    | some n => some { p := { Len := (n + 1) % 256, Buf := B1 }, R := R, calls := [] }
  else if Cmd = COMMAND_SET_OUTPUTS then
    match Get_PWMs_From_Payload [none, none, none, none] Payload with
    | none => none
    | some (true, PWMs) =>
      match PWMs with
      | [some v0, some v1, some v2, some v3] =>
        match store p.Buf 0 RESP_ACK with
        | none => none
        | some B0 =>
          some { p := { Len := 1, Buf := B0 }, R := R,
                 calls := [Call.IO_Set_PWM_Percent v0 ENA_L, Call.IO_Set_PWM_Percent v1 ENA_R,
                           Call.IO_Set_PWM_Percent v2 PWM_L, Call.IO_Set_PWM_Percent v3 PWM_R] }
      | _ => none
    | some (false, _) =>
      match store p.Buf 0 RESP_INV_PAYLOAD with
      | none => none
      | some B0 => some { p := { Len := 1, Buf := B0 }, R := R, calls := [] }
  else if Cmd = COMMAND_STATUS then
    match Load_Buf_With_Status Percent p with
    | none => none
    | some (p1, calls) => some { p := p1, R := R, calls := calls }
  else if Cmd = COMMAND_REBOOT then
    match load Payload.Buf 0 with
    | none => none
    | some b =>
      if b = 78 then
        match store p.Buf 0 RESP_ACK with
        | none => none
        | some B0 =>
          some { p := { Len := 1, Buf := B0 }, R := Reboot_Request REBOOT_REQUEST_NORMAL R,
                 calls := [Call.Reboot_Request REBOOT_REQUEST_NORMAL] }
      else
        match store p.Buf 0 RESP_INV_PAYLOAD with
        | none => none
        | some B0 => some { p := { Len := 1, Buf := B0 }, R := R, calls := [] }
  else
    match store p.Buf 0 RESP_INV_COMMAND with
    | none => none
    | some B0 => some { p := { Len := 1, Buf := B0 }, R := R, calls := [] }

/-! ## Vocabulary of the statements -/

/-- A payload as an array of `PAYLOAD_BUF_SIZE` cells holding the given bytes,
zero after them, with `Len` the number of bytes. -/
def payloadOf (bytes : List Nat) : Comms_Payload :=
  { Len := bytes.length, Buf := bytes ++ List.replicate (PAYLOAD_BUF_SIZE - bytes.length) 0 }

/-- The pieces of a byte sequence between its commas, empty pieces included. -/
def splitOnComma : List Nat → List (List Nat)
  | [] => [[]]
  | c :: cs =>
    if c = 44 then
      [] :: splitOnComma cs
    else
      match splitOnComma cs with
      | [] => [[c]]
      | t :: ts => (c :: t) :: ts

/-- The tokens that successive calls of `strtok` with the delimiter `,` find in
a string: the pieces between commas that are not empty. -/
def tokens (s : List Nat) : List (List Nat) :=
  (splitOnComma s).filter (fun t => !t.isEmpty)

/-- A token that `Get_PWMs_From_Payload` accepts: at most 3 characters, all
decimal digits, of value at most 100. -/
def validToken (t : List Nat) : Prop :=
  t.length ≤ 3 ∧ (∀ c ∈ t, 48 ≤ c ∧ c ≤ 57) ∧ digitsValue t ≤ 100

instance (t : List Nat) : Decidable (validToken t) := by
  unfold validToken; infer_instance

/-- The IO collaborator as a store of channel values, in which a channel holds
the value last passed to `IO_Set_PWM_Percent` for it: the effect of one call. -/
def applyCall (ch : PWM_PIN → Nat) : Call → PWM_PIN → Nat
  | Call.IO_Set_PWM_Percent v pin => fun q => if q = pin then v else ch q
  | _ => ch

/-- The channel values after a list of calls. -/
def channelsAfter (ch : PWM_PIN → Nat) (calls : List Call) : PWM_PIN → Nat :=
  calls.foldl applyCall ch

/-- The characters of a text, as bytes. -/
def bytesOf (s : String) : List Nat := s.toList.map Char.toNat


/-! ## Single-precision arithmetic -/

/-- The integer nearest to `y`, the even one of the two when `y` is halfway
between them: the rounding of IEEE 754 in its default mode. -/
def round_half_even (y : ℚ) : Int :=
  let f := ⌊y⌋
  let r := y - f
  if r < 1 / 2 then f else if 1 / 2 < r then f + 1 else if f % 2 = 0 then f else f + 1

/-- The exponent of a positive value in the `float` format (IEEE 754 binary32):
the `e` with `2^e ≤ x < 2^(e+1)`, and -126 for the values below `2^-126`, which
are subnormal. -/
def float_exponent (x : ℚ) : Int := max (Int.log 2 x) (-126)

/-- The `float` nearest to `x`: the significand has 24 bits, so the floats of
exponent `e` are the multiples of `2^(e-23)`. Overflow to infinity is left out:
a value beyond the largest float is rounded on the same grid, and every use
treats such a value as out of range. -/
def round_float (x : ℚ) : ℚ :=
  if x < 0 then
    -((round_half_even (-x / 2 ^ (float_exponent (-x) - 23)) : ℚ) *
        2 ^ (float_exponent (-x) - 23))
  else
    (round_half_even (x / 2 ^ (float_exponent x - 23)) : ℚ) * 2 ^ (float_exponent x - 23)

/-- The division `a / b` of two values of type `float`: the exact quotient,
rounded to the nearest `float`. -/
def float_div (a b : ℚ) : ℚ := round_float (a / b)

/-! ## Comms_RX.c: initialisation -/

/-- Initialise the receive object. `Packet_Ready_CB` is `true` for a callback
that is not null, `Timer_ms` is the `float` that `Clock_Get_Timer_ms` returns,
as the rational it stands for. The second component is the global
`Byte_Timeout_Ints`: the quotient of the division in `float`, converted to
`uint16_t`, which drops the fraction and is not defined when the quotient does
not fit. -/
def Comms_RX_Initialise (RX : Comms_RX_Typedef) (Packet_Ready_CB : Bool) (Timer_ms : ℚ) :
    Option (Comms_RX_Typedef × Nat) :=
  if Timer_ms = 0 then
    none
  else
    let q : ℚ := float_div (BYTE_TIMEOUT_MS : ℚ) Timer_ms
    if q ≤ -1 ∨ 65536 ≤ q then
      none
    else
      some ({ RX with Expect := EXPECT_SOP, Packet_Ready := Packet_Ready_CB }, ⌊q⌋.toNat)

/-! ## Comms_Controller.c -/

/-- What one call of `Send_Packet` leaves: its static buffer `Buf`, the payload
`Dat` it was given (its `Len` may have been cut), and the calls of
`CDC_Transmit_FS`, each with the bytes it is handed. -/
structure Send_Result where
  Buf : List Nat
  Dat : Comms_Payload
  sent : List (List Nat)
deriving DecidableEq, Repr

/-- Form a packet from the command and the payload and send it. `Buf` is the
static buffer of `PAYLOAD_BUF_SIZE + 5` cells before the call. The `memcpy`
reads the first `Len` cells of `Dat.Buf`. -/
def Send_Packet (Buf : List Nat) (Cmd : Nat) (Dat : Comms_Payload) : Option Send_Result :=
  match store Buf 0 SOP_BYTE with
  | none => none
  | some B0 =>
  match store B0 1 Cmd with
  | none => none
  | some B1 =>
  let Dat1 : Comms_Payload :=
    if Dat.Len > PAYLOAD_BUF_SIZE then { Dat with Len := PAYLOAD_BUF_SIZE } else Dat
  if Dat1.Len ≤ Dat1.Buf.length then
    match storeAt B1 2 (Dat1.Buf.take Dat1.Len) with
    | none => none
    | some B2 =>
    match store B2 (2 + Dat1.Len) EOP_BYTE with
    | none => none
    | some B3 =>
    match store B3 (3 + Dat1.Len) 10 with
    | none => none
    | some B4 =>
    match store B4 (4 + Dat1.Len) 13 with
    | none => none
    | some B5 =>
      some { Buf := B5, Dat := Dat1, sent := [B5.take ((Dat1.Len + 5) % 65536)] }
  else
    none

/-- The state of the communication channel: the receive object `RX`, the static
reply payload `p` of `Command_Execute`, the static buffer `Buf` of
`Send_Packet`, the pending reboot request `R`, and the IO collaborator as a
store `ch` of channel values. -/
structure Controller where
  RX : Comms_RX_Typedef
  p : Comms_Payload
  Buf : List Nat
  R : Reboot_Request_Type
  ch : PWM_PIN → Nat

/-- What the channel does that is seen from outside, in order: a call of
`Command_Execute` with its arguments, a call of `CDC_Transmit_FS` with its
bytes. -/
inductive Trace where
  | Command_Execute (Cmd : Nat) (Payload : Comms_Payload)
  | CDC_Transmit_FS (bytes : List Nat)
deriving DecidableEq, Repr

/-- Process a received packet: execute the command and send the reply. -/
def Packet_Received (c : Controller) (Pkt : Comms_Packet) : Option (Controller × List Trace) :=
  match Command_Execute c.ch Firmware_Version_Get c.p c.R Pkt.Command Pkt.Payload with
  | none => none
  | some r =>
    let Reply := r.p
    let c1 : Controller := { c with p := r.p, R := r.R, ch := channelsAfter c.ch r.calls }
    if Reply.Len > 0 then
      match Send_Packet c1.Buf Pkt.Command Reply with
      | none => none
      | some s =>
        some ({ c1 with Buf := s.Buf },
          Trace.Command_Execute Pkt.Command Pkt.Payload :: s.sent.map Trace.CDC_Transmit_FS)
    else
      some (c1, [Trace.Command_Execute Pkt.Command Pkt.Payload])

/-- The `Packet_Ready` callback, which is `Packet_Received`, run on the packets
that one call of `Comms_RX_Receive_Byte` hands to it. -/
def Packet_Ready_calls : Controller → List Comms_Packet → Option (Controller × List Trace)
  | c, [] => some (c, [])
  | c, Pkt :: rest =>
    match Packet_Received c Pkt with
    | none => none
    | some (c1, out1) =>
      match Packet_Ready_calls c1 rest with
      | none => none
      | some (c2, out2) => some (c2, out1 ++ out2)

/-- Initialise the comms controller: the receive object gets `Packet_Received`
as its callback. The second component is `Byte_Timeout_Ints`. -/
def Comms_Controller_Initialise (c : Controller) (Timer_ms : ℚ) : Option (Controller × Nat) :=
  match Comms_RX_Initialise c.RX true Timer_ms with
  | none => none
  | some (RX1, T) => some ({ c with RX := RX1 }, T)

/-- Process the received bytes of `Buf` one after the other. -/
def Comms_Controller_Bytes_Received : Controller → List Nat → Option (Controller × List Trace)
  | c, [] => some (c, [])
  | c, b :: bs =>
    match Comms_RX_Receive_Byte c.RX b with
    | none => none
    | some (RX1, Pkts) =>
      match Packet_Ready_calls { c with RX := RX1 } Pkts with
      | none => none
      | some (c1, out1) =>
        match Comms_Controller_Bytes_Received c1 bs with
        | none => none
        | some (c2, out2) => some (c2, out1 ++ out2)

/-- The channel at power-on: the statics are zero and `RX.Expect` is
`EXPECT_UNDEFINED`; `ch` gives the channel values. -/
def Controller_reset (ch : PWM_PIN → Nat) : Controller :=
  { RX := { Expect := EXPECT_UNDEFINED, Running_Len := 0, Packet_Ready := false,
            Packet := { SOP := 0, Command := 0,
                        Payload := { Len := 0, Buf := List.replicate PAYLOAD_BUF_SIZE 0 },
                        EOP := 0 },
            Byte_Timer := 0 },
    p := { Len := 0, Buf := List.replicate PAYLOAD_BUF_SIZE 0 },
    Buf := List.replicate (PAYLOAD_BUF_SIZE + 5) 0,
    R := REBOOT_REQUEST_NONE,
    ch := ch }

/-- The arguments of one call of `Command_Execute`, with the readings of the IO
collaborator at that call. -/
structure Command_Input where
  Percent : PWM_PIN → Nat
  Cmd : Nat
  Payload : Comms_Payload

/-- A sequence of calls of `Command_Execute` on the static reply payload `p`,
one after the other. -/
def Command_Execute_seq (str : List Nat) :
    Comms_Payload → Reboot_Request_Type → List Command_Input →
    Option (Comms_Payload × Reboot_Request_Type)
  | p, R, [] => some (p, R)
  | p, R, i :: rest =>
    match Command_Execute i.Percent str p R i.Cmd i.Payload with
    | none => none
    | some r => Command_Execute_seq str r.p r.R rest

/-! ## Comms_Controller.c: the check of the command -/

/-- The array of all commands. -/
def Active_Commands : List Nat :=
  [COMMAND_FW_VER, COMMAND_STATUS, COMMAND_SET_OUTPUTS, COMMAND_REBOOT]

/-- The value of `sizeof(Active_Commands)`: the elements are of a packed enum
type, one byte each. -/
def sizeof_Active_Commands : Nat := Active_Commands.length * 1

/-- The loop of `Is_Command_Valid`: `n` iterations are left and `c` is the loop
counter. -/
def Is_Command_Valid_loop (Cmd : Nat) : Nat → Nat → Bool
  | 0, _ => false
  | n + 1, c =>
    if Active_Commands.getD c 0 = Cmd then
      true
    else
      Is_Command_Valid_loop Cmd n (c + 1)

/-- Check whether the command is in the list of active commands. The loop runs
while `c < sizeof(Active_Commands)-1`. -/
def Is_Command_Valid (Cmd : Nat) : Bool :=
  Is_Command_Valid_loop Cmd (sizeof_Active_Commands - 1) 0

/-! ## The transition table of the specification (§4.1) -/

/-- The reception states of the specification. -/
inductive ReceptionState where
  | Uninitialized
  | AwaitingStart
  | AwaitingCommand
  | AwaitingPayloadOrEnd
deriving DecidableEq, Repr

/-- The byte framer of the specification: its state, the stored command, the
payload bytes stored so far and the byte-inactivity counter. -/
structure ByteFramer where
  state : ReceptionState
  command : Nat
  payload : List Nat
  inactivity : Nat
deriving DecidableEq, Repr

/-- The byte rows of the transition table of §4.1, in the words of the
specification: the next framer and the packet emitted, a command with its
payload. The start marker is `{`, the end marker `}` and the capacity 30. -/
def spec_on_byte (f : ByteFramer) (byte : Nat) : ByteFramer × Option (Nat × List Nat) :=
  match f.state with
  | ReceptionState.AwaitingStart =>
    if byte = SOP_BYTE then
      ({ f with state := ReceptionState.AwaitingCommand, inactivity := 0 }, none)
    else
      (f, none)
  | ReceptionState.AwaitingCommand =>
    ({ f with command := byte, payload := [], inactivity := 0,
              state := ReceptionState.AwaitingPayloadOrEnd }, none)
  | ReceptionState.AwaitingPayloadOrEnd =>
    if byte = EOP_BYTE then
      ({ f with state := ReceptionState.AwaitingStart, inactivity := 0 },
        some (f.command, f.payload))
    else if f.payload.length < PAYLOAD_BUF_SIZE then
      ({ f with payload := f.payload ++ [byte], inactivity := 0 }, none)
    else if f.payload.length = PAYLOAD_BUF_SIZE then
      ({ f with inactivity := 0 }, none)
    else
      (f, none)
  | ReceptionState.Uninitialized => (f, none)

/-- The reception state that a value of `Expect` stands for; `EXPECT_EOP`, which
the code never assigns, has none and is put with the uninitialised state. -/
def absState : Comms_RX_Expect → ReceptionState
  | EXPECT_UNDEFINED => ReceptionState.Uninitialized
  | EXPECT_SOP => ReceptionState.AwaitingStart
  | EXPECT_COMMAND => ReceptionState.AwaitingCommand
  | EXPECT_PAYLOAD => ReceptionState.AwaitingPayloadOrEnd
  | EXPECT_EOP => ReceptionState.Uninitialized

/-- The framer of the specification that a receive object stands for: the
stored payload is the first `Running_Len` cells of the buffer. -/
def absFramer (RX : Comms_RX_Typedef) : ByteFramer :=
  { state := absState RX.Expect,
    command := RX.Packet.Command,
    payload := RX.Packet.Payload.Buf.take RX.Running_Len,
    inactivity := RX.Byte_Timer }

/-- The packet of the specification that a packet given to the callback stands
for: its command and the first `Len` bytes of its payload buffer. -/
def absPacket (Pkt : Comms_Packet) : Nat × List Nat :=
  (Pkt.Command, Pkt.Payload.Buf.take Pkt.Payload.Len)

/-! ## Lists -/

theorem mem_takeWhile_true (q : Nat → Bool) (l : List Nat) (c : Nat)
    (h : c ∈ l.takeWhile q) : q c = true := by
  induction l with
  | nil => simp at h
  | cons d ds ih =>
    by_cases hq : q d = true
    · simp only [List.takeWhile_cons, hq, if_true] at h
      rcases List.mem_cons.1 h with h1 | h1
      · rw [h1]; exact hq
      · exact ih h1
    · simp [List.takeWhile_cons, hq] at h

theorem takeWhile_append_stop (q : Nat → Bool) (txt : List Nat) (x : Nat) (rest : List Nat)
    (h : ∀ c ∈ txt, q c = true) (hx : q x = false) :
    (txt ++ x :: rest).takeWhile q = txt := by
  induction txt with
  | nil => simp [List.takeWhile_cons, hx]
  | cons c cs ih =>
    have hc : q c = true := h c (List.mem_cons_self _ _)
    have hcs : ∀ d ∈ cs, q d = true := fun d hd => h d (List.mem_cons_of_mem _ hd)
    simp [List.takeWhile_cons, hc, ih hcs]

theorem dropWhile_append_stop (q : Nat → Bool) (txt : List Nat) (x : Nat) (rest : List Nat)
    (h : ∀ c ∈ txt, q c = true) (hx : q x = false) :
    (txt ++ x :: rest).dropWhile q = x :: rest := by
  induction txt with
  | nil => simp [List.dropWhile_cons, hx]
  | cons c cs ih =>
    have hc : q c = true := h c (List.mem_cons_self _ _)
    have hcs : ∀ d ∈ cs, q d = true := fun d hd => h d (List.mem_cons_of_mem _ hd)
    simp [List.dropWhile_cons, hc, ih hcs]

theorem takeWhile_all (q : Nat → Bool) (txt : List Nat) (h : ∀ c ∈ txt, q c = true) :
    txt.takeWhile q = txt := by
  induction txt with
  | nil => rfl
  | cons c cs ih =>
    have hc : q c = true := h c (List.mem_cons_self _ _)
    have hcs : ∀ d ∈ cs, q d = true := fun d hd => h d (List.mem_cons_of_mem _ hd)
    simp [List.takeWhile_cons, hc, ih hcs]

theorem dropWhile_all (q : Nat → Bool) (txt : List Nat) (h : ∀ c ∈ txt, q c = true) :
    txt.dropWhile q = [] := by
  induction txt with
  | nil => rfl
  | cons c cs ih =>
    have hc : q c = true := h c (List.mem_cons_self _ _)
    have hcs : ∀ d ∈ cs, q d = true := fun d hd => h d (List.mem_cons_of_mem _ hd)
    simp [List.dropWhile_cons, hc, ih hcs]


/-! ## The receive state machine -/

theorem take_set_same (l : List Nat) (n v : Nat) : (l.set n v).take n = l.take n := by
  induction l generalizing n with
  | nil => simp
  | cons a l ih =>
    cases n with
    | zero => simp
    | succ n => simp [ih]

theorem take_succ_set (l : List Nat) (n v : Nat) (h : n < l.length) :
    (l.set n v).take (n + 1) = l.take n ++ [v] := by
  rw [List.take_succ, take_set_same]
  simp [h]

theorem run_cons (T : Nat) (e : Event) (es : List Event) (RX : Comms_RX_Typedef) :
    run T RX (e :: es) =
      match step T RX e with
      | none => none
      | some (RX1, out1) =>
        match run T RX1 es with
        | none => none
        | some (RX2, out2) => some (RX2, out1 ++ out2) := rfl

theorem run_append (T : Nat) (a b : List Event) (RX : Comms_RX_Typedef) :
    run T RX (a ++ b) =
      match run T RX a with
      | none => none
      | some (RX1, out1) =>
        match run T RX1 b with
        | none => none
        | some (RX2, out2) => some (RX2, out1 ++ out2) := by
  induction a generalizing RX with
  | nil =>
    rw [List.nil_append]
    cases h : run T RX b with
    | none => simp [run, h]
    | some r => simp [run, h]
  | cons e es ih =>
    rw [List.cons_append, run_cons, run_cons]
    cases h1 : step T RX e with
    | none => rfl
    | some r =>
      obtain ⟨RX1, out1⟩ := r
      simp only []
      rw [ih]
      cases h2 : run T RX1 es with
      | none => rfl
      | some r2 =>
        obtain ⟨RX2, out2⟩ := r2
        simp only []
        cases h3 : run T RX2 b with
        | none => rfl
        | some r3 => simp [List.append_assoc]

theorem run_ticks_idle (T k : Nat) (RX : Comms_RX_Typedef) (hE : RX.Expect = EXPECT_SOP) :
    run T RX (ticks k) = some (RX, []) := by
  induction k with
  | zero => rfl
  | succ k ih =>
    have hstep : Comms_RX_Timer T RX = RX := by simp [Comms_RX_Timer, hE]
    simp only [ticks, List.replicate_succ, run, step, hstep]
    simp only [ticks] at ih
    simp [ih]

theorem run_idle (T : Nat) (RX : Comms_RX_Typedef) (evs : List Event)
    (hE : RX.Expect = EXPECT_SOP) (hno : Event.byte SOP_BYTE ∉ evs) :
    run T RX evs = some (RX, []) := by
  induction evs with
  | nil => rfl
  | cons e es ih =>
    have hes : Event.byte SOP_BYTE ∉ es := fun h => hno (List.mem_cons_of_mem _ h)
    cases e with
    | tick =>
      have hstep : Comms_RX_Timer T RX = RX := by simp [Comms_RX_Timer, hE]
      simp [run, step, hstep, ih hes]
    | byte b =>
      have hb : b ≠ SOP_BYTE := by
        intro h
        apply hno
        rw [h]
        exact List.mem_cons_self _ _
      have hstep : Comms_RX_Receive_Byte RX b = some (RX, []) := by
        simp [Comms_RX_Receive_Byte, hE, hb]
      simp [run, step, hstep, ih hes]

theorem run_ticks_live (T : Nat) (k : Nat) (RX : Comms_RX_Typedef)
    (hE : RX.Expect = EXPECT_COMMAND ∨ RX.Expect = EXPECT_PAYLOAD)
    (hk : RX.Byte_Timer + k < T) :
    ∃ t, run T RX (ticks k) = some ({ RX with Byte_Timer := t }, []) := by
  induction k generalizing RX with
  | zero => exact ⟨RX.Byte_Timer, rfl⟩
  | succ k ih =>
    have hlt : (RX.Byte_Timer + 1) % 256 < T :=
      lt_of_le_of_lt (Nat.mod_le _ _) (by omega)
    have hstep : Comms_RX_Timer T RX = { RX with Byte_Timer := (RX.Byte_Timer + 1) % 256 } := by
      rcases hE with h | h <;> simp [Comms_RX_Timer, h, hlt]
    have hk2 : ({ RX with Byte_Timer := (RX.Byte_Timer + 1) % 256 } : Comms_RX_Typedef).Byte_Timer
        + k < T := by
      have := Nat.mod_le (RX.Byte_Timer + 1) 256
      simp only
      omega
    obtain ⟨t, ht⟩ := ih { RX with Byte_Timer := (RX.Byte_Timer + 1) % 256 } hE hk2
    refine ⟨t, ?_⟩
    simp only [ticks, List.replicate_succ, run, step, hstep]
    simp only [ticks] at ht
    simp [ht]

/-- The payload bytes of a frame, received in `EXPECT_PAYLOAD`: each byte that
is not the end of packet is stored while there is room, and no callback is
invoked. -/
theorem run_payload (T : Nat) (pl : List (Nat × Nat)) (RX : Comms_RX_Typedef)
    (hE : RX.Expect = EXPECT_PAYLOAD) (hT : RX.Byte_Timer = 0)
    (hlen : RX.Packet.Payload.Buf.length = PAYLOAD_BUF_SIZE)
    (hrun : RX.Running_Len ≤ PAYLOAD_BUF_SIZE)
    (hpl : ∀ x ∈ pl, x.1 < T ∧ x.2 ≠ EOP_BYTE) :
    ∃ RX1, run T RX (feed pl) = some (RX1, []) ∧
      RX1.Expect = EXPECT_PAYLOAD ∧ RX1.Byte_Timer = 0 ∧
      RX1.Packet.Payload.Buf.length = PAYLOAD_BUF_SIZE ∧
      RX1.Running_Len = min (RX.Running_Len + pl.length) PAYLOAD_BUF_SIZE ∧
      RX1.Packet.Payload.Buf.take RX1.Running_Len =
        RX.Packet.Payload.Buf.take RX.Running_Len ++
          (pl.map Prod.snd).take (PAYLOAD_BUF_SIZE - RX.Running_Len) ∧
      RX1.Packet.Command = RX.Packet.Command ∧ RX1.Packet_Ready = RX.Packet_Ready := by
  induction pl generalizing RX with
  | nil =>
    refine ⟨RX, rfl, hE, hT, hlen, ?_, ?_, rfl, rfl⟩
    · simp [Nat.min_eq_left hrun]
    · simp
  | cons x rest ih =>
    obtain ⟨k, b⟩ := x
    have hx := hpl (k, b) (List.mem_cons_self _ _)
    have hrest : ∀ y ∈ rest, y.1 < T ∧ y.2 ≠ EOP_BYTE :=
      fun y hy => hpl y (List.mem_cons_of_mem _ hy)
    obtain ⟨t, ht⟩ := run_ticks_live T k RX (Or.inr hE) (by rw [hT]; simpa using hx.1)
    have hb : b ≠ EOP_BYTE := hx.2
    by_cases hroom : RX.Running_Len < PAYLOAD_BUF_SIZE
    · -- the byte is stored
      have hst : store RX.Packet.Payload.Buf RX.Running_Len b =
          some (RX.Packet.Payload.Buf.set RX.Running_Len b) := by
        simp only [store]
        rw [if_pos (by rw [hlen]; exact hroom)]
      let RX2 : Comms_RX_Typedef :=
        { RX with
            Packet := { RX.Packet with
              Payload := { RX.Packet.Payload with
                Buf := RX.Packet.Payload.Buf.set RX.Running_Len b } }
            Running_Len := (RX.Running_Len + 1) % 65536
            Byte_Timer := 0 }
      have hbyte : Comms_RX_Receive_Byte { RX with Byte_Timer := t } b = some (RX2, []) := by
        simp [Comms_RX_Receive_Byte, hE, hb, hroom, hst, RX2]
      have hmod : (RX.Running_Len + 1) % 65536 = RX.Running_Len + 1 := by
        apply Nat.mod_eq_of_lt
        simp only [PAYLOAD_BUF_SIZE] at hroom
        omega
      obtain ⟨RX1, h1, h2, h3, h4, h5, h6, h7, h8⟩ := ih RX2 hE rfl
        (by simp [RX2, hlen]) (by simp only [RX2, hmod]; omega) hrest
      refine ⟨RX1, ?_, h2, h3, h4, ?_, ?_, ?_, ?_⟩
      · simp only [feed]
        rw [run_append, ht]
        simp [run, step, hbyte, h1]
      · rw [h5]
        simp only [RX2, hmod, List.length_cons]
        congr 1
        omega
      · rw [h6]
        simp only [RX2, hmod, List.map_cons]
        have hsub : PAYLOAD_BUF_SIZE - RX.Running_Len = (PAYLOAD_BUF_SIZE - (RX.Running_Len + 1)) + 1 := by
          omega
        rw [hsub, List.take_succ_cons]
        have hlt : RX.Running_Len < RX.Packet.Payload.Buf.length := by rw [hlen]; exact hroom
        rw [take_succ_set _ _ _ hlt]
        simp
      · rw [h7]
      · rw [h8]
    · -- the buffer is full: the byte is dropped
      have hfull : RX.Running_Len = PAYLOAD_BUF_SIZE := by omega
      have hbyte : Comms_RX_Receive_Byte { RX with Byte_Timer := t } b =
          some ({ RX with Byte_Timer := 0 }, []) := by
        simp [Comms_RX_Receive_Byte, hE, hb, hroom]
      obtain ⟨RX1, h1, h2, h3, h4, h5, h6, h7, h8⟩ := ih { RX with Byte_Timer := 0 } hE rfl
        hlen hrun hrest
      refine ⟨RX1, ?_, h2, h3, h4, ?_, ?_, h7, h8⟩
      · simp only [feed]
        rw [run_append, ht]
        simp [run, step, hbyte, h1]
      · rw [h5]
        simp only [List.length_cons, hfull]
        omega
      · rw [h6]
        simp [hfull]

theorem feed_append (a b : List (Nat × Nat)) : feed (a ++ b) = feed a ++ feed b := by
  induction a with
  | nil => rfl
  | cons x rest ih =>
    obtain ⟨k, c⟩ := x
    simp [feed, ih]

theorem run_ticks_then (T k : Nat) (RX RXk : Comms_RX_Typedef) (es : List Event)
    (h : run T RX (ticks k) = some (RXk, [])) :
    run T RX (ticks k ++ es) = run T RXk es := by
  rw [run_append, h]
  show (match run T RXk es with
    | none => none
    | some (RX2, out2) => some (RX2, [] ++ out2)) = run T RXk es
  cases run T RXk es with
  | none => rfl
  | some r => rfl

/-- With a timeout of 256 interrupts or more, the 8 bit `Byte_Timer` never
reaches it: timer interrupts change no field but `Byte_Timer`. -/
theorem run_ticks_wide (d n : Nat) (RX : Comms_RX_Typedef) :
    ∃ t, run (256 + d) RX (ticks n) = some ({ RX with Byte_Timer := t }, []) := by
  induction n generalizing RX with
  | zero => exact ⟨RX.Byte_Timer, rfl⟩
  | succ n ih =>
    have hlt : ¬ (256 + d ≤ (RX.Byte_Timer + 1) % 256) := by
      have := Nat.mod_lt (RX.Byte_Timer + 1) (by decide : 256 > 0)
      omega
    have hstep : ∃ t, Comms_RX_Timer (256 + d) RX = { RX with Byte_Timer := t } := by
      by_cases h : RX.Expect ≠ EXPECT_SOP ∧ RX.Expect ≠ EXPECT_UNDEFINED
      · exact ⟨(RX.Byte_Timer + 1) % 256, by simp [Comms_RX_Timer, h, hlt]⟩
      · exact ⟨RX.Byte_Timer, by simp only [Comms_RX_Timer, if_neg h]⟩
    obtain ⟨t1, ht1⟩ := hstep
    obtain ⟨t, ht⟩ := ih { RX with Byte_Timer := t1 }
    refine ⟨t, ?_⟩
    simp only [ticks, List.replicate_succ, run_cons, step, ht1]
    simp only [ticks] at ht
    simp [ht]

/-- C1: from `EXPECT_SOP` with a registered callback, the bytes `{`, `cmd`, a
payload without `}` of any length and `}`, fed one at a time with fewer than
`Byte_Timeout_Ints` timer interrupts between consecutive bytes, invoke
`Packet_Ready` exactly once, with `Command = cmd`, `Payload.Len` the payload
length capped at `PAYLOAD_BUF_SIZE` and `Payload.Buf` holding that many leading
payload bytes, and leave `Expect = EXPECT_SOP`. -/
theorem frame_emits_one_packet (T : Nat) (RX : Comms_RX_Typedef) (k0 k1 kend cmd : Nat)
    (pl : List (Nat × Nat))
    (hE : RX.Expect = EXPECT_SOP) (hcb : RX.Packet_Ready = true)
    (hlen : RX.Packet.Payload.Buf.length = PAYLOAD_BUF_SIZE)
    (hk1 : k1 < T) (hpl : ∀ x ∈ pl, x.1 < T ∧ x.2 ≠ EOP_BYTE) (hkend : kend < T) :
    ∃ RX1 Pkt,
      run T RX (feed ((k0, SOP_BYTE) :: (k1, cmd) :: (pl ++ [(kend, EOP_BYTE)]))) =
        some (RX1, [Pkt]) ∧
      Pkt.Command = cmd ∧
      Pkt.Payload.Len = min pl.length PAYLOAD_BUF_SIZE ∧
      Pkt.Payload.Buf.take (min pl.length PAYLOAD_BUF_SIZE) =
        (pl.map Prod.snd).take PAYLOAD_BUF_SIZE ∧
      RX1.Expect = EXPECT_SOP := by
  -- the start of packet
  let RXa : Comms_RX_Typedef :=
    { RX with Expect := EXPECT_COMMAND, Byte_Timer := 0,
              Packet := { RX.Packet with SOP := SOP_BYTE } }
  have hsop : Comms_RX_Receive_Byte RX SOP_BYTE = some (RXa, []) := by
    simp [Comms_RX_Receive_Byte, hE, RXa]
  -- the command byte
  obtain ⟨t1, ht1⟩ := run_ticks_live T k1 RXa (Or.inl rfl) (by simpa [RXa] using hk1)
  let RXb : Comms_RX_Typedef :=
    { RXa with Packet := { RXa.Packet with Command := cmd }, Expect := EXPECT_PAYLOAD,
               Running_Len := 0, Byte_Timer := 0 }
  have hcmd : Comms_RX_Receive_Byte { RXa with Byte_Timer := t1 } cmd = some (RXb, []) := by
    simp [Comms_RX_Receive_Byte, RXa, RXb]
  -- the payload
  obtain ⟨RXc, hc1, hc2, hc3, hc4, hc5, hc6, hc7, hc8⟩ :=
    run_payload T pl RXb rfl rfl (by simpa [RXb, RXa] using hlen) (by simp [RXb]) hpl
  -- the end of packet
  obtain ⟨t2, ht2⟩ := run_ticks_live T kend RXc (Or.inr hc2) (by rw [hc3]; simpa using hkend)
  have hready : RXc.Packet_Ready = true := by rw [hc8]; exact hcb
  let Pkt : Comms_Packet :=
    { RXc.Packet with EOP := EOP_BYTE,
                      Payload := { RXc.Packet.Payload with Len := RXc.Running_Len % 256 } }
  have heop : Comms_RX_Receive_Byte { RXc with Byte_Timer := t2 } EOP_BYTE =
      some ({ RXc with Packet := Pkt, Expect := EXPECT_SOP, Byte_Timer := 0 }, [Pkt]) := by
    simp [Comms_RX_Receive_Byte, hc2, hready, Pkt]
  have hrl : RXc.Running_Len = min pl.length PAYLOAD_BUF_SIZE := by
    rw [hc5]; simp [RXb]
  have hle : min pl.length PAYLOAD_BUF_SIZE ≤ 30 := Nat.min_le_right _ _
  refine ⟨{ RXc with Packet := Pkt, Expect := EXPECT_SOP, Byte_Timer := 0 }, Pkt, ?_, ?_, ?_, ?_, rfl⟩
  · have hfeed : feed ((k0, SOP_BYTE) :: (k1, cmd) :: (pl ++ [(kend, EOP_BYTE)])) =
        ticks k0 ++ (Event.byte SOP_BYTE :: (ticks k1 ++ (Event.byte cmd ::
          (feed pl ++ (ticks kend ++ [Event.byte EOP_BYTE]))))) := by
      simp [feed, feed_append]
    rw [hfeed, run_ticks_then T k0 RX RX _ (run_ticks_idle T k0 RX hE), run_cons]
    simp only [step, hsop]
    rw [run_ticks_then T k1 RXa _ _ ht1, run_cons]
    simp only [step, hcmd]
    rw [run_append, hc1]
    simp only []
    rw [run_ticks_then T kend RXc _ _ ht2, run_cons]
    simp only [step, heop]
    simp [run]
  · simp only [Pkt]
    rw [hc7]
  · simp only [Pkt]
    rw [hrl]
    exact Nat.mod_eq_of_lt (by omega)
  · simp only [Pkt]
    rw [← hrl, hc6]
    simp [RXb]

/-- C1, at an instance: the frame `{O12}` with gaps of 0, 3, 1, 2 and 499 timer
interrupts under a timeout of 500. -/
theorem frame_emits_one_packet_witness :
    ∃ RX1 Pkt,
      run 500 ⟨EXPECT_SOP, 0, true, ⟨0, 0, payloadOf [], 0⟩, 0⟩
        (feed ((0, SOP_BYTE) :: (3, 79) :: ([(1, 49), (2, 50)] ++ [(499, EOP_BYTE)]))) =
        some (RX1, [Pkt]) ∧
      Pkt.Command = 79 ∧
      Pkt.Payload.Len = min [(1, 49), (2, 50)].length PAYLOAD_BUF_SIZE ∧
      Pkt.Payload.Buf.take (min [(1, 49), (2, 50)].length PAYLOAD_BUF_SIZE) =
        ([(1, 49), (2, 50)].map Prod.snd).take PAYLOAD_BUF_SIZE ∧
      RX1.Expect = EXPECT_SOP :=
  frame_emits_one_packet 500 ⟨EXPECT_SOP, 0, true, ⟨0, 0, payloadOf [], 0⟩, 0⟩ 0 3 499 79
    [(1, 49), (2, 50)] rfl rfl (by decide) (by decide) (by decide) (by decide)

/-- C2, the code at the reference timeout of 500 interrupts: from every state,
any number of timer interrupts changes no field but `Byte_Timer`, so `Expect`
never returns to `EXPECT_SOP` by time-out; and the frame `{O1}` whose `}`
arrives after any number `n` of interrupts (for instance 501) still invokes
`Packet_Ready`. -/
theorem timeout_500_never_fires :
    (∀ (n : Nat) (RX : Comms_RX_Typedef),
      ∃ t, run 500 RX (ticks n) = some ({ RX with Byte_Timer := t }, [])) ∧
    (∀ n : Nat, ∃ RX1 Pkt,
      run 500 ⟨EXPECT_SOP, 0, true, ⟨0, 0, payloadOf [], 0⟩, 0⟩
        (feed [(0, SOP_BYTE), (0, 79), (0, 49), (n, EOP_BYTE)]) = some (RX1, [Pkt]) ∧
      Pkt.Command = 79 ∧ Pkt.Payload.Len = 1) := by
  constructor
  · intro n RX
    exact run_ticks_wide 244 n RX
  · intro n
    obtain ⟨t, ht⟩ := run_ticks_wide 244 n
      ⟨EXPECT_PAYLOAD, 1, true, ⟨123, 79, ⟨0, 49 :: List.replicate 29 0⟩, 0⟩, 0⟩
    have hfeed : feed [(0, SOP_BYTE), (0, 79), (0, 49), (n, EOP_BYTE)] =
        [Event.byte SOP_BYTE, Event.byte 79, Event.byte 49] ++
          (ticks n ++ [Event.byte EOP_BYTE]) := by
      simp [feed, ticks]
    have h3 : run 500 ⟨EXPECT_SOP, 0, true, ⟨0, 0, payloadOf [], 0⟩, 0⟩
        [Event.byte SOP_BYTE, Event.byte 79, Event.byte 49] =
        some (⟨EXPECT_PAYLOAD, 1, true, ⟨123, 79, ⟨0, 49 :: List.replicate 29 0⟩, 0⟩, 0⟩, []) := by
      decide
    have hlast : run 500
        ⟨EXPECT_PAYLOAD, 1, true, ⟨123, 79, ⟨0, 49 :: List.replicate 29 0⟩, 0⟩, t⟩
        [Event.byte EOP_BYTE] =
        some (⟨EXPECT_SOP, 1, true, ⟨123, 79, ⟨1, 49 :: List.replicate 29 0⟩, 125⟩, 0⟩,
          [⟨123, 79, ⟨1, 49 :: List.replicate 29 0⟩, 125⟩]) := by
      simp [run, step, Comms_RX_Receive_Byte]
    refine ⟨⟨EXPECT_SOP, 1, true, ⟨123, 79, ⟨1, 49 :: List.replicate 29 0⟩, 125⟩, 0⟩,
      ⟨123, 79, ⟨1, 49 :: List.replicate 29 0⟩, 125⟩, ?_, rfl, rfl⟩
    rw [hfeed, run_append, h3]
    simp only []
    rw [run_ticks_then 500 n _ _ _ ht, hlast]
    simp

/-- C3: from `EXPECT_SOP`, events (bytes and timer interrupts) without the
byte `{` never invoke `Packet_Ready`, and after every one of them the receive
object is unchanged, so `Expect` is `EXPECT_SOP`. -/
theorem no_SOP_no_packet (T : Nat) (RX : Comms_RX_Typedef) (evs : List Event)
    (hE : RX.Expect = EXPECT_SOP) (hno : Event.byte SOP_BYTE ∉ evs) :
    ∀ n, ∃ RX1, run T RX (evs.take n) = some (RX1, []) ∧ RX1.Expect = EXPECT_SOP := by
  intro n
  exact ⟨RX, run_idle T RX (evs.take n) hE (fun h => hno (List.mem_of_mem_take h)), hE⟩

/-- C3, at an instance: the bytes `}`, `F`, `}` with timer interrupts between,
after the first three events and after all six. -/
theorem no_SOP_no_packet_witness :
    (∃ RX1,
      run 500 ⟨EXPECT_SOP, 0, true, ⟨0, 0, payloadOf [], 0⟩, 0⟩
        ([Event.byte 125, Event.tick, Event.byte 70, Event.tick, Event.tick, Event.byte 125].take 3)
        = some (RX1, []) ∧ RX1.Expect = EXPECT_SOP) ∧
    (∃ RX1,
      run 500 ⟨EXPECT_SOP, 0, true, ⟨0, 0, payloadOf [], 0⟩, 0⟩
        ([Event.byte 125, Event.tick, Event.byte 70, Event.tick, Event.tick, Event.byte 125].take 6)
        = some (RX1, []) ∧ RX1.Expect = EXPECT_SOP) :=
  ⟨no_SOP_no_packet 500 ⟨EXPECT_SOP, 0, true, ⟨0, 0, payloadOf [], 0⟩, 0⟩
      [Event.byte 125, Event.tick, Event.byte 70, Event.tick, Event.tick, Event.byte 125]
      rfl (by decide) 3,
   no_SOP_no_packet 500 ⟨EXPECT_SOP, 0, true, ⟨0, 0, payloadOf [], 0⟩, 0⟩
      [Event.byte 125, Event.tick, Event.byte 70, Event.tick, Event.tick, Event.byte 125]
      rfl (by decide) 6⟩

/-! ## Command execution: stores and the reply code -/

theorem store_eq (mem : List Nat) (i v : Nat) (h : i < mem.length) :
    store mem i v = some (mem.set i v) := by
  simp [store, h]

theorem store_zero (mem : List Nat) (v : Nat) (h : mem.length = PAYLOAD_BUF_SIZE) :
    store mem 0 v = some (mem.set 0 v) :=
  store_eq mem 0 v (by rw [h]; decide)

theorem store_head (mem m : List Nat) (v : Nat) (h : store mem 0 v = some m) :
    m[0]? = some v := by
  unfold store at h
  split at h
  · rename_i hlt
    cases h
    simp [List.getElem?_set, hlt]
  · cases h

theorem storeAt_head (mem m bytes : List Nat) (off : Nat) (hoff : 0 < off)
    (h : storeAt mem off bytes = some m) : m[0]? = mem[0]? := by
  unfold storeAt at h
  split at h
  · rename_i hle
    cases h
    cases mem with
    | nil => simp at hle; omega
    | cons a rest =>
      cases off with
      | zero => omega
      | succ k => simp
  · cases h

theorem Load_Buf_With_Status_head (Percent : PWM_PIN → Nat) (P P1 : Comms_Payload)
    (calls : List Call) (h : Load_Buf_With_Status Percent P = some (P1, calls)) :
    P1.Buf[0]? = some RESP_ACK ∧
    calls = [Call.IO_Get_PWM_Percent ENA_L, Call.IO_Get_PWM_Percent ENA_R,
             Call.IO_Get_PWM_Percent PWM_L, Call.IO_Get_PWM_Percent PWM_R] := by
  unfold Load_Buf_With_Status at h
  dsimp only at h
  split at h
  · cases h
  rename_i B0 h0
  split at h
  · cases h
  rename_i B1 h1
  split at h
  · cases h
  rename_i n1 hn1
  split at h
  · cases h
  rename_i B2 h2
  split at h
  · cases h
  rename_i n2 hn2
  split at h
  · cases h
  rename_i B3 h3
  split at h
  · cases h
  rename_i n3 hn3
  split at h
  · cases h
  rename_i B4 h4
  split at h
  · cases h
  rename_i n4 hn4
  simp only [Option.some.injEq, Prod.mk.injEq] at h
  obtain ⟨hP, hc⟩ := h
  refine ⟨?_, hc.symm⟩
  rw [← hP]
  simp only [sprintf_i_comma] at h1 h2 h3 h4
  show B4[0]? = some RESP_ACK
  rw [storeAt_head _ _ _ _ (by omega) h4, storeAt_head _ _ _ _ (by omega) h3,
    storeAt_head _ _ _ _ (by omega) h2, storeAt_head _ _ _ _ (by omega) h1]
  exact store_head _ _ _ h0

/-- The reply code of a recognised command is never the code for an invalid
command, and collaborators are called only along with an acknowledge. -/
theorem Command_Execute_code (Percent : PWM_PIN → Nat) (str : List Nat) (p : Comms_Payload)
    (R : Reboot_Request_Type) (Cmd : Nat) (Payload : Comms_Payload) (r : Command_Result)
    (h : Command_Execute Percent str p R Cmd Payload = some r) :
    (r.p.Buf[0]? = some RESP_ACK ∧
        (Cmd = COMMAND_FW_VER ∨ Cmd = COMMAND_SET_OUTPUTS ∨ Cmd = COMMAND_STATUS ∨
          Cmd = COMMAND_REBOOT)) ∨
    (r.p.Buf[0]? = some RESP_INV_PAYLOAD ∧ r.calls = [] ∧ r.R = R ∧ r.p.Len = 1 ∧
        (Cmd = COMMAND_SET_OUTPUTS ∨ Cmd = COMMAND_REBOOT)) ∨
    (r.p.Buf[0]? = some RESP_INV_COMMAND ∧ r.calls = [] ∧ r.R = R ∧ r.p.Len = 1 ∧
        Cmd ≠ COMMAND_FW_VER ∧ Cmd ≠ COMMAND_SET_OUTPUTS ∧ Cmd ≠ COMMAND_STATUS ∧
        Cmd ≠ COMMAND_REBOOT) := by
  unfold Command_Execute at h
  split at h
  · -- firmware version
    rename_i hc
    split at h
    · cases h
    rename_i B0 h0
    split at h
    · cases h
    rename_i B1 h1
    split at h
    · cases h
    rename_i n hn
    cases h
    left
    refine ⟨?_, Or.inl hc⟩
    show B1[0]? = some RESP_ACK
    rw [storeAt_head _ _ _ _ (by omega) h1]
    exact store_head _ _ _ h0
  split at h
  · -- set outputs
    rename_i hc
    split at h
    · cases h
    · split at h
      · split at h
        · cases h
        rename_i B0 h0
        cases h
        left
        exact ⟨store_head _ _ _ h0, Or.inr (Or.inl hc)⟩
      · cases h
    · split at h
      · cases h
      rename_i B0 h0
      cases h
      right; left
      exact ⟨store_head _ _ _ h0, rfl, rfl, rfl, Or.inl hc⟩
  split at h
  · -- status
    rename_i hc
    split at h
    · cases h
    rename_i p1 calls hl
    cases h
    left
    exact ⟨(Load_Buf_With_Status_head _ _ _ _ hl).1, Or.inr (Or.inr (Or.inl hc))⟩
  split at h
  · -- reboot
    rename_i hc
    split at h
    · cases h
    rename_i b hb
    split at h
    · split at h
      · cases h
      rename_i B0 h0
      cases h
      left
      exact ⟨store_head _ _ _ h0, Or.inr (Or.inr (Or.inr hc))⟩
    · split at h
      · cases h
      rename_i B0 h0
      cases h
      right; left
      exact ⟨store_head _ _ _ h0, rfl, rfl, rfl, Or.inr hc⟩
  · -- any other command
    rename_i hF hO hS hR
    split at h
    · cases h
    rename_i B0 h0
    cases h
    right; right
    exact ⟨store_head _ _ _ h0, rfl, rfl, rfl, hF, hO, hS, hR⟩

/-- C4: a command byte that is none of `F`, `S`, `O`, `R` gets the reply
`RESP_INV_COMMAND` with `Len = 1`, with no collaborator call (no
`IO_Set_PWM_Percent`, no `Reboot_Request`) and the reboot request unchanged;
for a command byte that is one of the four, the reply code is never
`RESP_INV_COMMAND`. -/
theorem invalid_command (Percent : PWM_PIN → Nat) (str : List Nat) (p : Comms_Payload)
    (R : Reboot_Request_Type) (Cmd : Nat) (Payload : Comms_Payload)
    (hp : p.Buf.length = PAYLOAD_BUF_SIZE) :
    ((Cmd ≠ COMMAND_FW_VER ∧ Cmd ≠ COMMAND_STATUS ∧ Cmd ≠ COMMAND_SET_OUTPUTS ∧
        Cmd ≠ COMMAND_REBOOT) →
      ∃ r, Command_Execute Percent str p R Cmd Payload = some r ∧
        r.p.Len = 1 ∧ r.p.Buf[0]? = some RESP_INV_COMMAND ∧ r.calls = [] ∧ r.R = R) ∧
    ((Cmd = COMMAND_FW_VER ∨ Cmd = COMMAND_STATUS ∨ Cmd = COMMAND_SET_OUTPUTS ∨
        Cmd = COMMAND_REBOOT) →
      ∀ r, Command_Execute Percent str p R Cmd Payload = some r →
        r.p.Buf[0]? ≠ some RESP_INV_COMMAND) := by
  constructor
  · rintro ⟨hF, hS, hO, hR⟩
    have h0 := store_zero p.Buf RESP_INV_COMMAND hp
    refine ⟨{ p := { Len := 1, Buf := p.Buf.set 0 RESP_INV_COMMAND }, R := R, calls := [] },
      ?_, rfl, ?_, rfl, rfl⟩
    · simp only [Command_Execute, if_neg hF, if_neg hS, if_neg hO, if_neg hR, h0]
    · exact store_head _ _ _ h0
  · intro hCmd r hr
    rcases Command_Execute_code Percent str p R Cmd Payload r hr with h | h | h
    · rw [h.1]; decide
    · rw [h.1]; decide
    · obtain ⟨_, _, _, _, hF, hO, hS, hR⟩ := h
      rcases hCmd with h | h | h | h <;> contradiction

/-- C4, at an instance: the command `X` gets `RESP_INV_COMMAND`, and the
command `R` with the payload `N` gets a reply whose code is another one. -/
theorem invalid_command_witness :
    (∃ r, Command_Execute (fun _ => 0) Firmware_Version_Get (payloadOf [])
        REBOOT_REQUEST_NONE 88 (payloadOf [78]) = some r ∧
        r.p.Len = 1 ∧ r.p.Buf[0]? = some RESP_INV_COMMAND ∧ r.calls = [] ∧
        r.R = REBOOT_REQUEST_NONE) ∧
    (∃ r, Command_Execute (fun _ => 0) Firmware_Version_Get (payloadOf [])
        REBOOT_REQUEST_NONE COMMAND_REBOOT (payloadOf [78]) = some r ∧
        r.p.Buf[0]? ≠ some RESP_INV_COMMAND) :=
  have h : Command_Execute (fun _ => 0) Firmware_Version_Get (payloadOf [])
      REBOOT_REQUEST_NONE COMMAND_REBOOT (payloadOf [78]) =
      some ⟨⟨1, RESP_ACK :: List.replicate 29 0⟩, REBOOT_REQUEST_NORMAL,
        [Call.Reboot_Request REBOOT_REQUEST_NORMAL]⟩ := by
    decide
  ⟨(invalid_command (fun _ => 0) Firmware_Version_Get (payloadOf []) REBOOT_REQUEST_NONE 88
      (payloadOf [78]) (by decide)).1 (by decide),
   ⟨_, h, (invalid_command (fun _ => 0) Firmware_Version_Get (payloadOf []) REBOOT_REQUEST_NONE
      COMMAND_REBOOT (payloadOf [78]) (by decide)).2 (by decide) _ h⟩⟩

/-- C6: a SetOutputs payload with `Len < 7` or `Len > 15`, whatever its bytes,
makes `Get_PWMs_From_Payload` return false with `PWMs` untouched, and
`Command_Execute` reply `RESP_INV_PAYLOAD` with `Len = 1` and no collaborator
call. -/
theorem set_outputs_length_check (Percent : PWM_PIN → Nat) (str : List Nat)
    (p : Comms_Payload) (R : Reboot_Request_Type) (Payload : Comms_Payload)
    (PWMs : List (Option Nat)) (hp : p.Buf.length = PAYLOAD_BUF_SIZE)
    (hLen : Payload.Len < 7 ∨ Payload.Len > 15) :
    Get_PWMs_From_Payload PWMs Payload = some (false, PWMs) ∧
    ∃ r, Command_Execute Percent str p R COMMAND_SET_OUTPUTS Payload = some r ∧
      r.p.Len = 1 ∧ r.p.Buf[0]? = some RESP_INV_PAYLOAD ∧ r.calls = [] ∧ r.R = R := by
  have hG : ∀ Q, Get_PWMs_From_Payload Q Payload = some (false, Q) := by
    intro Q
    simp only [Get_PWMs_From_Payload, if_pos hLen]
  have h0 := store_zero p.Buf RESP_INV_PAYLOAD hp
  refine ⟨hG PWMs, { p := { Len := 1, Buf := p.Buf.set 0 RESP_INV_PAYLOAD }, R := R, calls := [] },
    ?_, rfl, store_head _ _ _ h0, rfl, rfl⟩
  simp [Command_Execute, hG, h0]

/-- C6, at an instance: the payload `1,2,3,` of length 6 and the payload
`1,2,3,4,5,6,7,8,` of length 16. -/
theorem set_outputs_length_check_witness :
    (Get_PWMs_From_Payload [none, none, none, none] (payloadOf (bytesOf "1,2,3,")) =
      some (false, [none, none, none, none]) ∧
    ∃ r, Command_Execute (fun _ => 0) Firmware_Version_Get (payloadOf []) REBOOT_REQUEST_NONE
        COMMAND_SET_OUTPUTS (payloadOf (bytesOf "1,2,3,")) = some r ∧
      r.p.Len = 1 ∧ r.p.Buf[0]? = some RESP_INV_PAYLOAD ∧ r.calls = [] ∧
      r.R = REBOOT_REQUEST_NONE) ∧
    (Get_PWMs_From_Payload [none, none, none, none] (payloadOf (bytesOf "1,2,3,4,5,6,7,8,")) =
      some (false, [none, none, none, none]) ∧
    ∃ r, Command_Execute (fun _ => 0) Firmware_Version_Get (payloadOf []) REBOOT_REQUEST_NONE
        COMMAND_SET_OUTPUTS (payloadOf (bytesOf "1,2,3,4,5,6,7,8,")) = some r ∧
      r.p.Len = 1 ∧ r.p.Buf[0]? = some RESP_INV_PAYLOAD ∧ r.calls = [] ∧
      r.R = REBOOT_REQUEST_NONE) :=
  ⟨set_outputs_length_check (fun _ => 0) Firmware_Version_Get (payloadOf [])
      REBOOT_REQUEST_NONE (payloadOf (bytesOf "1,2,3,")) [none, none, none, none]
      (by decide) (by decide),
   set_outputs_length_check (fun _ => 0) Firmware_Version_Get (payloadOf [])
      REBOOT_REQUEST_NONE (payloadOf (bytesOf "1,2,3,4,5,6,7,8,")) [none, none, none, none]
      (by decide) (by decide)⟩

/-- C8: no command executes partially. When the reply code that
`Command_Execute` returns is not `RESP_ACK`, the call made no
`IO_Set_PWM_Percent` call and no `Reboot_Request` call, so every channel value
and the pending reboot request are as before. -/
theorem no_partial_execution (Percent : PWM_PIN → Nat) (str : List Nat) (p : Comms_Payload)
    (R : Reboot_Request_Type) (Cmd : Nat) (Payload : Comms_Payload) (r : Command_Result)
    (ch : PWM_PIN → Nat)
    (h : Command_Execute Percent str p R Cmd Payload = some r)
    (hcode : r.p.Buf[0]? ≠ some RESP_ACK) :
    (∀ v pin, Call.IO_Set_PWM_Percent v pin ∉ r.calls) ∧
    (∀ req, Call.Reboot_Request req ∉ r.calls) ∧
    channelsAfter ch r.calls = ch ∧ r.R = R := by
  rcases Command_Execute_code Percent str p R Cmd Payload r h with h1 | h1 | h1
  · exact absurd h1.1 hcode
  · obtain ⟨_, hc, hR, _⟩ := h1
    rw [hc]
    exact ⟨fun _ _ => List.not_mem_nil _, fun _ => List.not_mem_nil _, rfl, hR⟩
  · obtain ⟨_, hc, hR, _⟩ := h1
    rw [hc]
    exact ⟨fun _ _ => List.not_mem_nil _, fun _ => List.not_mem_nil _, rfl, hR⟩

/-- C8, at an instance: SetOutputs with the payload `101,50,50,50` replies
`RESP_INV_PAYLOAD`, makes no call, and leaves every channel and the reboot
request as before. -/
theorem no_partial_execution_witness :
    ∃ r, Command_Execute (fun _ => 7) Firmware_Version_Get (payloadOf []) REBOOT_REQUEST_NONE
        COMMAND_SET_OUTPUTS (payloadOf (bytesOf "101,50,50,50")) = some r ∧
      r.p.Buf[0]? = some RESP_INV_PAYLOAD ∧
      r.calls = [] ∧
      channelsAfter (fun _ => 7) r.calls = (fun _ => 7) ∧
      r.R = REBOOT_REQUEST_NONE :=
  have h : Command_Execute (fun _ => 7) Firmware_Version_Get (payloadOf []) REBOOT_REQUEST_NONE
        COMMAND_SET_OUTPUTS (payloadOf (bytesOf "101,50,50,50")) =
      some ⟨⟨1, RESP_INV_PAYLOAD :: List.replicate 29 0⟩, REBOOT_REQUEST_NONE, []⟩ := by
    decide
  have w := no_partial_execution (fun _ => 7) Firmware_Version_Get (payloadOf [])
    REBOOT_REQUEST_NONE COMMAND_SET_OUTPUTS (payloadOf (bytesOf "101,50,50,50")) _
    (fun _ => 7) h (by decide)
  ⟨_, h, rfl, rfl, w.2.2.1, w.2.2.2⟩

/-- C9: a Reboot payload whose first byte is `N` gets `RESP_ACK` with
`Len = 1`, and `REBOOT_REQUEST_NORMAL` is recorded through `Reboot_Request`; a
payload whose first byte is anything else gets `RESP_INV_PAYLOAD` with
`Len = 1`, no call, and the recorded reboot request unchanged. -/
theorem reboot_command (Percent : PWM_PIN → Nat) (str : List Nat) (p : Comms_Payload)
    (R : Reboot_Request_Type) (Payload : Comms_Payload)
    (hp : p.Buf.length = PAYLOAD_BUF_SIZE) (hP : Payload.Buf.length = PAYLOAD_BUF_SIZE) :
    (Payload.Buf[0]? = some 78 →
      ∃ r, Command_Execute Percent str p R COMMAND_REBOOT Payload = some r ∧
        r.p.Buf[0]? = some RESP_ACK ∧ r.p.Len = 1 ∧ r.R = REBOOT_REQUEST_NORMAL ∧
        r.calls = [Call.Reboot_Request REBOOT_REQUEST_NORMAL]) ∧
    (Payload.Buf[0]? ≠ some 78 →
      ∃ r, Command_Execute Percent str p R COMMAND_REBOOT Payload = some r ∧
        r.p.Buf[0]? = some RESP_INV_PAYLOAD ∧ r.p.Len = 1 ∧ r.R = R ∧ r.calls = []) := by
  have hlt : 0 < Payload.Buf.length := by rw [hP]; decide
  have hload : load Payload.Buf 0 = some (Payload.Buf[0]) := by
    simp [load, hlt]
  constructor
  · intro hN
    have hb : Payload.Buf[0] = 78 := by
      rw [List.getElem?_eq_getElem hlt] at hN
      exact Option.some.inj hN
    have h0 := store_zero p.Buf RESP_ACK hp
    refine ⟨{ p := { Len := 1, Buf := p.Buf.set 0 RESP_ACK }, R := REBOOT_REQUEST_NORMAL,
              calls := [Call.Reboot_Request REBOOT_REQUEST_NORMAL] },
      ?_, store_head _ _ _ h0, rfl, rfl, rfl⟩
    simp [Command_Execute, hload, hb, h0, Reboot_Request]
  · intro hN
    have hb : Payload.Buf[0] ≠ 78 := by
      intro hb
      apply hN
      rw [List.getElem?_eq_getElem hlt, hb]
    have h0 := store_zero p.Buf RESP_INV_PAYLOAD hp
    refine ⟨{ p := { Len := 1, Buf := p.Buf.set 0 RESP_INV_PAYLOAD }, R := R, calls := [] },
      ?_, store_head _ _ _ h0, rfl, rfl, rfl⟩
    simp [Command_Execute, hload, hb, h0]

/-- C9, at an instance: the payloads `N` and `Y`. -/
theorem reboot_command_witness :
    (∃ r, Command_Execute (fun _ => 0) Firmware_Version_Get (payloadOf [])
        REBOOT_REQUEST_NONE COMMAND_REBOOT (payloadOf (bytesOf "N")) = some r ∧
        r.p.Buf[0]? = some RESP_ACK ∧ r.p.Len = 1 ∧ r.R = REBOOT_REQUEST_NORMAL ∧
        r.calls = [Call.Reboot_Request REBOOT_REQUEST_NORMAL]) ∧
    (∃ r, Command_Execute (fun _ => 0) Firmware_Version_Get (payloadOf [])
        REBOOT_REQUEST_NONE COMMAND_REBOOT (payloadOf (bytesOf "Y")) = some r ∧
        r.p.Buf[0]? = some RESP_INV_PAYLOAD ∧ r.p.Len = 1 ∧ r.R = REBOOT_REQUEST_NONE ∧
        r.calls = []) :=
  ⟨(reboot_command (fun _ => 0) Firmware_Version_Get (payloadOf []) REBOOT_REQUEST_NONE
      (payloadOf (bytesOf "N")) (by decide) (by decide)).1 (by decide),
   (reboot_command (fun _ => 0) Firmware_Version_Get (payloadOf []) REBOOT_REQUEST_NONE
      (payloadOf (bytesOf "Y")) (by decide) (by decide)).2 (by decide)⟩

/-! ## The status reply -/

set_option maxRecDepth 100000 in
theorem dec_small : ∀ n, n < 256 → 0 ∉ dec n ∧ (dec n).length ≤ 3 := by
  decide

theorem strlen_text (a : Nat) (txt rest : List Nat) (h0 : 0 ∉ txt) :
    strlen (a :: (txt ++ 0 :: rest)) 1 = some txt.length := by
  have hmem : 0 ∈ txt ++ 0 :: rest := by simp
  have htw : List.takeWhile (fun c => decide (c ≠ 0)) (txt ++ 0 :: rest) = txt := by
    apply takeWhile_append_stop
    · intro c hc
      have : c ≠ 0 := fun h => h0 (h ▸ hc)
      simp [this]
    · simp
  simp only [strlen, cstring, List.drop_succ_cons, List.drop_zero, if_pos hmem, htw]

/-- One `sprintf` of `Load_Buf_With_Status`: the value and a comma are appended
to the text after `Buf[0]`, with the terminating zero behind. -/
theorem status_step (a : Nat) (txt rest : List Nat) (val : Nat)
    (hlen : (dec val).length + 2 ≤ rest.length) :
    sprintf_i_comma (a :: (txt ++ rest)) (1 + txt.length) val =
      some (a :: ((txt ++ dec val ++ [44]) ++ 0 :: rest.drop ((dec val).length + 2))) := by
  have hb : 1 + txt.length + (dec val ++ [44, 0]).length ≤ (a :: (txt ++ rest)).length := by
    simp only [List.length_append, List.length_cons, List.length_nil]
    omega
  simp only [sprintf_i_comma, storeAt, if_pos hb]
  congr 1
  have e1 : 1 + txt.length = txt.length + 1 := by omega
  have e2 : 1 + txt.length + (dec val ++ [44, 0]).length =
      (txt.length + ((dec val).length + 2)) + 1 := by
    simp only [List.length_append, List.length_cons, List.length_nil]
    omega
  rw [e2, e1, List.take_succ_cons, List.drop_succ_cons]
  simp [List.take_append_eq_append_take, List.drop_append_eq_append_drop]

/-- What `Load_Buf_With_Status` leaves for four readings below 256. -/
theorem Load_Buf_With_Status_eq (Percent : PWM_PIN → Nat) (P : Comms_Payload)
    (hp : P.Buf.length = PAYLOAD_BUF_SIZE) (hPc : ∀ pin, Percent pin < 256) :
    ∃ rest,
      Load_Buf_With_Status Percent P =
        some ({ Len := 1 + (dec (Percent ENA_L) ++ [44] ++ dec (Percent ENA_R) ++ [44] ++
                      dec (Percent PWM_L) ++ [44] ++ dec (Percent PWM_R) ++ [44]).length,
                Buf := RESP_ACK :: ((dec (Percent ENA_L) ++ [44] ++ dec (Percent ENA_R) ++ [44] ++
                      dec (Percent PWM_L) ++ [44] ++ dec (Percent PWM_R) ++ [44]) ++ 0 :: rest) },
          [Call.IO_Get_PWM_Percent ENA_L, Call.IO_Get_PWM_Percent ENA_R,
           Call.IO_Get_PWM_Percent PWM_L, Call.IO_Get_PWM_Percent PWM_R]) := by
  obtain ⟨za, la⟩ := dec_small _ (hPc ENA_L)
  obtain ⟨zb, lb⟩ := dec_small _ (hPc ENA_R)
  obtain ⟨zc, lc⟩ := dec_small _ (hPc PWM_L)
  obtain ⟨zd, ld⟩ := dec_small _ (hPc PWM_R)
  generalize hda : dec (Percent ENA_L) = da at za la
  generalize hdb : dec (Percent ENA_R) = db at zb lb
  generalize hdc : dec (Percent PWM_L) = dc at zc lc
  generalize hdd : dec (Percent PWM_R) = dd at zd ld
  have ma : Percent ENA_L % 256 = Percent ENA_L := Nat.mod_eq_of_lt (hPc _)
  have mb : Percent ENA_R % 256 = Percent ENA_R := Nat.mod_eq_of_lt (hPc _)
  have mc : Percent PWM_L % 256 = Percent PWM_L := Nat.mod_eq_of_lt (hPc _)
  have md : Percent PWM_R % 256 = Percent PWM_R := Nat.mod_eq_of_lt (hPc _)
  -- the buffer is its first cell and 29 more
  obtain ⟨c0, tail0, hB, ht0⟩ : ∃ c0 tail0, P.Buf = c0 :: tail0 ∧ tail0.length = 29 := by
    cases hb : P.Buf with
    | nil => rw [hb] at hp; simp at hp
    | cons c0 tail0 =>
      rw [hb] at hp
      exact ⟨c0, tail0, rfl, by simp only [List.length_cons, PAYLOAD_BUF_SIZE] at hp; omega⟩
  have h0 : store P.Buf 0 RESP_ACK = some (RESP_ACK :: ([] ++ tail0)) := by
    rw [store_zero _ _ hp, hB]; rfl
  -- first value
  have h1 := status_step RESP_ACK [] tail0 (Percent ENA_L) (by rw [hda]; omega)
  rw [hda] at h1
  simp only [List.length_nil, Nat.add_zero, List.nil_append] at h1
  have n1 := strlen_text RESP_ACK (da ++ [44]) (tail0.drop (da.length + 2)) (by simp [za])
  -- second value
  have h2 := status_step RESP_ACK (da ++ [44]) (0 :: tail0.drop (da.length + 2)) (Percent ENA_R)
    (by rw [hdb]; simp only [List.length_cons, List.length_drop]; omega)
  rw [hdb] at h2
  have n2 := strlen_text RESP_ACK (da ++ [44] ++ db ++ [44])
    ((0 :: tail0.drop (da.length + 2)).drop (db.length + 2)) (by simp [za, zb])
  -- third value
  have h3 := status_step RESP_ACK (da ++ [44] ++ db ++ [44])
    (0 :: (0 :: tail0.drop (da.length + 2)).drop (db.length + 2)) (Percent PWM_L)
    (by rw [hdc]; simp only [List.length_cons, List.length_drop]; omega)
  rw [hdc] at h3
  have n3 := strlen_text RESP_ACK (da ++ [44] ++ db ++ [44] ++ dc ++ [44])
    ((0 :: (0 :: tail0.drop (da.length + 2)).drop (db.length + 2)).drop (dc.length + 2))
    (by simp [za, zb, zc])
  -- fourth value
  have h4 := status_step RESP_ACK (da ++ [44] ++ db ++ [44] ++ dc ++ [44])
    (0 :: (0 :: (0 :: tail0.drop (da.length + 2)).drop (db.length + 2)).drop (dc.length + 2))
    (Percent PWM_R)
    (by rw [hdd]; simp only [List.length_cons, List.length_drop]; omega)
  rw [hdd] at h4
  have n4 := strlen_text RESP_ACK (da ++ [44] ++ db ++ [44] ++ dc ++ [44] ++ dd ++ [44])
    ((0 :: (0 :: (0 :: tail0.drop (da.length + 2)).drop (db.length + 2)).drop
      (dc.length + 2)).drop (dd.length + 2)) (by simp [za, zb, zc, zd])
  have hmod : (1 + (da ++ [44] ++ db ++ [44] ++ dc ++ [44] ++ dd ++ [44]).length) % 256 =
      1 + (da ++ [44] ++ db ++ [44] ++ dc ++ [44] ++ dd ++ [44]).length := by
    apply Nat.mod_eq_of_lt
    simp only [List.length_append, List.length_cons, List.length_nil]
    omega
  refine ⟨(0 :: (0 :: (0 :: tail0.drop (da.length + 2)).drop (db.length + 2)).drop
      (dc.length + 2)).drop (dd.length + 2), ?_⟩
  unfold Load_Buf_With_Status
  simp only [ma, mb, mc, md, h0, List.nil_append, h1, n1, h2, n2, h3, n3, h4, n4, hmod,
    hda, hdb, hdc, hdd]

/-- C10: whatever the received payload and the previous content of the reply
buffer, the Status command queries `ENA_L`, `ENA_R`, `PWM_L`, `PWM_R` in this
order and replies with the bytes `A`, then for each of the four values its
decimal digits and a comma (a comma after the last value too), with `Len` one
more than the length of that text. -/
theorem status_reply (Percent : PWM_PIN → Nat) (str : List Nat) (p : Comms_Payload)
    (R : Reboot_Request_Type) (Payload : Comms_Payload)
    (hp : p.Buf.length = PAYLOAD_BUF_SIZE) (hPc : ∀ pin, Percent pin < 256) :
    ∃ r, Command_Execute Percent str p R COMMAND_STATUS Payload = some r ∧
      r.calls = [Call.IO_Get_PWM_Percent ENA_L, Call.IO_Get_PWM_Percent ENA_R,
                 Call.IO_Get_PWM_Percent PWM_L, Call.IO_Get_PWM_Percent PWM_R] ∧
      r.p.Buf.take r.p.Len =
        RESP_ACK :: (dec (Percent ENA_L) ++ [44] ++ dec (Percent ENA_R) ++ [44] ++
          dec (Percent PWM_L) ++ [44] ++ dec (Percent PWM_R) ++ [44]) ∧
      r.p.Len = 1 + (dec (Percent ENA_L) ++ [44] ++ dec (Percent ENA_R) ++ [44] ++
          dec (Percent PWM_L) ++ [44] ++ dec (Percent PWM_R) ++ [44]).length ∧
      r.R = R := by
  obtain ⟨rest, hl⟩ := Load_Buf_With_Status_eq Percent p hp hPc
  have hCE : Command_Execute Percent str p R COMMAND_STATUS Payload =
      some { p := { Len := 1 + (dec (Percent ENA_L) ++ [44] ++ dec (Percent ENA_R) ++ [44] ++
                      dec (Percent PWM_L) ++ [44] ++ dec (Percent PWM_R) ++ [44]).length,
                    Buf := RESP_ACK :: ((dec (Percent ENA_L) ++ [44] ++ dec (Percent ENA_R) ++
                      [44] ++ dec (Percent PWM_L) ++ [44] ++ dec (Percent PWM_R) ++ [44]) ++
                      0 :: rest) },
             R := R,
             calls := [Call.IO_Get_PWM_Percent ENA_L, Call.IO_Get_PWM_Percent ENA_R,
                       Call.IO_Get_PWM_Percent PWM_L, Call.IO_Get_PWM_Percent PWM_R] } := by
    simp only [Command_Execute, hl]
    rfl
  refine ⟨_, hCE, rfl, ?_, rfl, rfl⟩
  simp only [Nat.add_comm 1, List.take_succ_cons]
  rw [List.take_append_of_le_length (le_refl _), List.take_length]

/-- C10, at an instance: the readings 50, 0, 100 and 7 give the reply
`A50,0,100,7,` with `Len = 12`. -/
theorem status_reply_witness :
    ∃ r, Command_Execute (fun pin => if pin = ENA_L then 50 else if pin = ENA_R then 0
            else if pin = PWM_L then 100 else 7)
          Firmware_Version_Get (payloadOf (bytesOf "stale")) REBOOT_REQUEST_NONE
          COMMAND_STATUS (payloadOf (bytesOf "ignored")) = some r ∧
      r.calls = [Call.IO_Get_PWM_Percent ENA_L, Call.IO_Get_PWM_Percent ENA_R,
                 Call.IO_Get_PWM_Percent PWM_L, Call.IO_Get_PWM_Percent PWM_R] ∧
      r.p.Buf.take r.p.Len = bytesOf "A50,0,100,7," ∧
      r.p.Len = 12 ∧
      r.R = REBOOT_REQUEST_NONE := by
  obtain ⟨r, h1, h2, h3, h4, h5⟩ :=
    status_reply (fun pin => if pin = ENA_L then 50 else if pin = ENA_R then 0
        else if pin = PWM_L then 100 else 7)
      Firmware_Version_Get (payloadOf (bytesOf "stale")) REBOOT_REQUEST_NONE
      (payloadOf (bytesOf "ignored")) (by decide) (by intro pin; cases pin <;> decide)
  refine ⟨r, h1, h2, ?_, ?_, h5⟩
  · rw [h3]; decide
  · rw [h4]; decide

/-! ## Tokens of the SetOutputs payload -/

theorem splitOnComma_ne_nil (s : List Nat) : splitOnComma s ≠ [] := by
  cases s with
  | nil => simp [splitOnComma]
  | cons c cs =>
    simp only [splitOnComma]
    split
    · simp
    · split <;> simp

theorem splitOnComma_cons_ne (c : Nat) (cs : List Nat) (hc : c ≠ 44) :
    ∃ t ts, splitOnComma cs = t :: ts ∧ splitOnComma (c :: cs) = (c :: t) :: ts := by
  cases h : splitOnComma cs with
  | nil => exact absurd h (splitOnComma_ne_nil cs)
  | cons t ts =>
    refine ⟨t, ts, rfl, ?_⟩
    simp [splitOnComma, hc, h]

theorem splitOnComma_append_comma (t r : List Nat) (ht : 44 ∉ t) :
    splitOnComma (t ++ 44 :: r) = t :: splitOnComma r := by
  induction t with
  | nil => simp [splitOnComma]
  | cons c cs ih =>
    have hc : c ≠ 44 := fun h => ht (h ▸ List.mem_cons_self _ _)
    have hcs : 44 ∉ cs := fun h => ht (List.mem_cons_of_mem _ h)
    obtain ⟨t1, ts1, h1, h2⟩ := splitOnComma_cons_ne c (cs ++ 44 :: r) hc
    rw [List.cons_append, h2]
    rw [ih hcs] at h1
    cases h1
    rfl

theorem splitOnComma_no_comma (t : List Nat) (ht : 44 ∉ t) : splitOnComma t = [t] := by
  induction t with
  | nil => rfl
  | cons c cs ih =>
    have hc : c ≠ 44 := fun h => ht (h ▸ List.mem_cons_self _ _)
    have hcs : 44 ∉ cs := fun h => ht (List.mem_cons_of_mem _ h)
    obtain ⟨t1, ts1, h1, h2⟩ := splitOnComma_cons_ne c cs hc
    rw [h2]
    rw [ih hcs] at h1
    cases h1
    rfl

/-- A byte sequence is its first piece, and when more pieces follow, a comma and
the sequence of the other pieces. -/
theorem splitOnComma_inv (s t : List Nat) (r : List (List Nat))
    (h : splitOnComma s = t :: r) :
    44 ∉ t ∧ ((r = [] ∧ s = t) ∨ ∃ s1, s = t ++ 44 :: s1 ∧ splitOnComma s1 = r) := by
  induction s generalizing t r with
  | nil =>
    simp only [splitOnComma] at h
    cases h
    exact ⟨List.not_mem_nil _, Or.inl ⟨rfl, rfl⟩⟩
  | cons c cs ih =>
    by_cases hc : c = 44
    · subst hc
      simp only [splitOnComma, if_true] at h
      cases h
      exact ⟨List.not_mem_nil _, Or.inr ⟨cs, rfl, rfl⟩⟩
    · obtain ⟨t1, ts1, h1, h2⟩ := splitOnComma_cons_ne c cs hc
      rw [h2] at h
      simp only [List.cons.injEq] at h
      obtain ⟨ht, hr⟩ := h
      subst ht hr
      obtain ⟨hm, hcase⟩ := ih t1 ts1 h1
      refine ⟨?_, ?_⟩
      · intro hmem
        rcases List.mem_cons.1 hmem with h44 | h44
        · exact hc h44.symm
        · exact hm h44
      · rcases hcase with ⟨hr, hs⟩ | ⟨s1, hs, hr⟩
        · exact Or.inl ⟨hr, by rw [hs]⟩
        · exact Or.inr ⟨s1, by rw [hs]; rfl, hr⟩

theorem tokens_nil : tokens [] = [] := rfl

theorem tokens_comma (s : List Nat) : tokens (44 :: s) = tokens s := by
  simp [tokens, splitOnComma]

theorem tokens_append_comma (t r : List Nat) (ht : 44 ∉ t) (hne : t ≠ []) :
    tokens (t ++ 44 :: r) = t :: tokens r := by
  simp only [tokens, splitOnComma_append_comma t r ht]
  rw [List.filter_cons_of_pos]
  cases t with
  | nil => exact absurd rfl hne
  | cons c cs => rfl

theorem tokens_no_comma (t : List Nat) (ht : 44 ∉ t) (hne : t ≠ []) : tokens t = [t] := by
  simp only [tokens, splitOnComma_no_comma t ht]
  rw [List.filter_cons_of_pos]
  · rfl
  · cases t with
    | nil => exact absurd rfl hne
    | cons c cs => rfl

theorem tokens_dropWhile_comma (s : List Nat) :
    tokens (s.dropWhile (fun c => decide (c = 44))) = tokens s := by
  induction s with
  | nil => rfl
  | cons c cs ih =>
    by_cases hc : c = 44
    · subst hc
      rw [tokens_comma]
      simpa [List.dropWhile_cons] using ih
    · simp [List.dropWhile_cons, hc]

/-- What `strtok` returns is the first token of the string, and the string at
its saved position holds the other tokens. -/
theorem strtok_tokens (s : List Nat) :
    (strtok s).1 = (tokens s).head? ∧ tokens (strtok s).2 = (tokens s).tail := by
  rw [← tokens_dropWhile_comma s]
  unfold strtok
  generalize hs1 : s.dropWhile (fun c => decide (c = 44)) = s1
  by_cases hnil : s1 = []
  · simp [hnil, tokens_nil]
  · simp only [if_neg hnil]
    -- the string starts with a character that is not a comma
    have hhead : ∀ c rest, s1 = c :: rest → c ≠ 44 := by
      intro c rest hc
      have := List.head_dropWhile_not (fun c => decide (c = 44)) s
        (by rw [hs1]; exact hnil)
      simp only [hs1, hc, List.head_cons] at this
      simpa using this
    have hsplit : s1 = s1.takeWhile (fun c => decide (c ≠ 44)) ++
        s1.dropWhile (fun c => decide (c ≠ 44)) := (List.takeWhile_append_dropWhile _ _).symm
    have htok : 44 ∉ s1.takeWhile (fun c => decide (c ≠ 44)) := by
      intro hmem
      have := List.mem_takeWhile_imp hmem
      simp at this
    have htne : s1.takeWhile (fun c => decide (c ≠ 44)) ≠ [] := by
      cases hc : s1 with
      | nil => exact absurd hc hnil
      | cons c rest =>
        have := hhead c rest hc
        simp [List.takeWhile_cons, this]
    cases hd : s1.dropWhile (fun c => decide (c ≠ 44)) with
    | nil =>
      rw [hd, List.append_nil] at hsplit
      have ht := tokens_no_comma _ htok htne
      rw [← hsplit] at ht
      simp only [List.drop_nil, ht, tokens_nil, List.head?_cons, List.tail_cons]
      rw [← hsplit]
      exact ⟨rfl, trivial⟩
    | cons d rest =>
      have hd44 : d = 44 := by
        have := List.head_dropWhile_not (fun c => decide (c ≠ 44)) s1
          (by rw [hd]; exact List.cons_ne_nil _ _)
        simp only [hd, List.head_cons] at this
        simpa using this
      subst hd44
      have ht := tokens_append_comma _ rest htok htne
      rw [hd] at hsplit
      rw [← hsplit] at ht
      simp [ht]

theorem takeWhile_take_comm (q : Nat → Bool) (l : List Nat) (n : Nat) :
    (l.takeWhile q).take n = (l.take n).takeWhile q := by
  induction l generalizing n with
  | nil => simp
  | cons c cs ih =>
    cases n with
    | zero => simp
    | succ n =>
      by_cases hq : q c = true
      · simp [List.takeWhile_cons, hq, ih]
      · simp [List.takeWhile_cons, hq]

theorem takeWhile_append_all (q : Nat → Bool) (t r : List Nat) (h : ∀ c ∈ t, q c = true) :
    (t ++ r).takeWhile q = t ++ r.takeWhile q := by
  induction t with
  | nil => rfl
  | cons c cs ih =>
    have hc : q c = true := h c (List.mem_cons_self _ _)
    have hcs : ∀ d ∈ cs, q d = true := fun d hd => h d (List.mem_cons_of_mem _ hd)
    simp [List.takeWhile_cons, hc, ih hcs]

/-- The string in `StrPayload` after the `strncpy` and the stored terminator:
the first `Len` payload bytes, up to the first zero among them. -/
theorem cstring_StrPayload (Buf : List Nat) (n : Nat) :
    cstring (strncpy Buf n ++ [0]) 0 = (Buf.take n).takeWhile (fun c => decide (c ≠ 0)) := by
  have hs : ∀ c ∈ (Buf.takeWhile (fun c => decide (c ≠ 0))).take n,
      (fun c => decide (c ≠ 0)) c = true := by
    intro c hc
    exact mem_takeWhile_true _ _ c (List.mem_of_mem_take hc)
  have hrep : ∀ k, List.replicate k 0 ++ [0] = 0 :: List.replicate k 0 := by
    intro k
    induction k with
    | zero => rfl
    | succ k ih => simp [List.replicate_succ, ih]
  simp only [cstring, strncpy, List.drop_zero, List.append_assoc, hrep]
  rw [takeWhile_append_stop _ _ _ _ hs (by simp), takeWhile_take_comm]

theorem atoi_digits (t : List Nat) (hd : ∀ c ∈ t, 48 ≤ c ∧ c ≤ 57) :
    atoi t = (digitsValue t : Int) := by
  have htw : t.takeWhile isdigit = t := by
    apply takeWhile_all
    intro c hc
    simp [isdigit, hd c hc]
  cases t with
  | nil => simp [atoi, digitsValue]
  | cons c cs =>
    have hc := hd c (List.mem_cons_self _ _)
    have hsp : isspace c = false := by
      simp only [isspace, Bool.or_eq_false_iff, Bool.and_eq_false_iff, decide_eq_false_iff_not]
      omega
    have hdrop : (c :: cs).dropWhile isspace = c :: cs := by
      simp [List.dropWhile_cons, hsp]
    unfold atoi
    rw [hdrop]
    split
    · rename_i heq
      simp only [List.cons.injEq] at heq
      omega
    · rename_i heq
      simp only [List.cons.injEq] at heq
      omega
    · rw [htw]

theorem any_nondigit_false (t : List Nat) (hd : ∀ c ∈ t, 48 ≤ c ∧ c ≤ 57) :
    t.any (fun c => decide (c < 48) || decide (c > 57)) = false := by
  rw [List.any_eq_false]
  intro c hc
  have := hd c hc
  simp only [Bool.or_eq_true, decide_eq_true_eq, not_or]
  omega

theorem any_nondigit_true (t : List Nat) (hd : ¬ ∀ c ∈ t, 48 ≤ c ∧ c ≤ 57) :
    t.any (fun c => decide (c < 48) || decide (c > 57)) = true := by
  rw [List.any_eq_true]
  simp only [not_forall] at hd
  obtain ⟨c, hc, hcd⟩ := hd
  refine ⟨c, hc, ?_⟩
  simp only [Bool.or_eq_true, decide_eq_true_eq]
  omega

/-- One iteration of the loop on a token it accepts. -/
theorem loop_valid (n idx : Nat) (s : List Nat) (P : List (Option Nat)) (t : List Nat)
    (ts : List (List Nat)) (h : tokens s = t :: ts) (hv : validToken t) :
    Get_PWMs_loop (n + 1) idx (strtok s).1 (strtok s).2 P =
      Get_PWMs_loop n (idx + 1) (strtok (strtok s).2).1 (strtok (strtok s).2).2
        (P.set idx (some (digitsValue t))) ∧
    tokens (strtok s).2 = ts := by
  obtain ⟨h1, h2⟩ := strtok_tokens s
  rw [h] at h1 h2
  simp only [List.head?_cons, List.tail_cons] at h1 h2
  refine ⟨?_, h2⟩
  obtain ⟨hl, hd, hval⟩ := hv
  have hnum : (0 : Int) ≤ (digitsValue t : Int) ∧ (digitsValue t : Int) ≤ 100 := by
    constructor
    · exact Int.ofNat_nonneg _
    · exact_mod_cast hval
  have hmod : digitsValue t % 256 = digitsValue t := Nat.mod_eq_of_lt (by omega)
  rw [h1]
  simp only [Get_PWMs_loop, if_pos hl, any_nondigit_false t hd, atoi_digits t hd, hnum,
    Int.toNat_ofNat, hmod]
  simp

/-- One iteration of the loop on a token it rejects. -/
theorem loop_invalid (n idx : Nat) (s : List Nat) (P : List (Option Nat)) (t : List Nat)
    (ts : List (List Nat)) (h : tokens s = t :: ts) (hv : ¬ validToken t) :
    Get_PWMs_loop (n + 1) idx (strtok s).1 (strtok s).2 P = some (false, P) := by
  obtain ⟨h1, _⟩ := strtok_tokens s
  rw [h] at h1
  simp only [List.head?_cons] at h1
  rw [h1]
  by_cases hl : t.length ≤ 3
  · by_cases hd : ∀ c ∈ t, 48 ≤ c ∧ c ≤ 57
    · have hval : ¬ digitsValue t ≤ 100 := fun hval => hv ⟨hl, hd, hval⟩
      have hnum : ¬ ((0 : Int) ≤ (digitsValue t : Int) ∧ (digitsValue t : Int) ≤ 100) := by
        intro hh
        apply hval
        exact_mod_cast hh.2
      simp only [Get_PWMs_loop, if_pos hl, any_nondigit_false t hd, atoi_digits t hd, hnum]
      simp
    · simp only [Get_PWMs_loop, if_pos hl, any_nondigit_true t hd]
      simp
  · simp only [Get_PWMs_loop, if_neg hl]

/-- The loop returns false as soon as one of the tokens it reaches is not
accepted. -/
theorem loop_rejects (n : Nat) : ∀ (s : List Nat) (idx : Nat) (P : List (Option Nat)),
    (∃ t ∈ (tokens s).take n, ¬ validToken t) →
    ∃ P1, Get_PWMs_loop n idx (strtok s).1 (strtok s).2 P = some (false, P1) := by
  induction n with
  | zero =>
    intro s idx P h
    obtain ⟨t, ht, _⟩ := h
    simp at ht
  | succ n ih =>
    intro s idx P h
    obtain ⟨t, ht, hbad⟩ := h
    cases htk : tokens s with
    | nil => rw [htk] at ht; simp at ht
    | cons t0 ts =>
      rw [htk, List.take_succ_cons] at ht
      by_cases hv : validToken t0
      · obtain ⟨e1, e2⟩ := loop_valid n idx s P t0 ts htk hv
        rw [e1]
        apply ih
        rw [e2]
        rcases List.mem_cons.1 ht with h0 | h0
        · rw [h0] at hbad; exact absurd hv hbad
        · exact ⟨t, h0, hbad⟩
      · exact ⟨P, loop_invalid n idx s P t0 ts htk hv⟩

/-- The pieces of the payload that are digits are tokens of the string in
`StrPayload`. -/
theorem tokens_of_split (ts : List (List Nat)) : ∀ (s : List Nat) (rest : List (List Nat)),
    splitOnComma s = ts ++ rest → (∀ t ∈ ts, t ≠ [] ∧ 0 ∉ t) →
    ∃ rest1, tokens (s.takeWhile (fun c => decide (c ≠ 0))) = ts ++ rest1 := by
  induction ts with
  | nil => intro s rest _ _; exact ⟨_, rfl⟩
  | cons t ts1 ih =>
    intro s rest hsp hts
    obtain ⟨hne, hz⟩ := hts t (List.mem_cons_self _ _)
    have hts1 : ∀ u ∈ ts1, u ≠ [] ∧ 0 ∉ u := fun u hu => hts u (List.mem_cons_of_mem _ hu)
    have hq : ∀ c ∈ t, (fun c => decide (c ≠ 0)) c = true := by
      intro c hc
      have : c ≠ 0 := fun h => hz (h ▸ hc)
      simp [this]
    rw [List.cons_append] at hsp
    obtain ⟨h44, hcase⟩ := splitOnComma_inv s t (ts1 ++ rest) hsp
    rcases hcase with ⟨hnil, hs⟩ | ⟨s1, hs, hr⟩
    · have : ts1 = [] := (List.append_eq_nil.1 hnil).1
      subst this
      rw [hs, takeWhile_all _ t hq, tokens_no_comma t h44 hne]
      exact ⟨[], rfl⟩
    · obtain ⟨rest1, h1⟩ := ih s1 rest hr hts1
      refine ⟨rest1, ?_⟩
      rw [hs, takeWhile_append_all _ t _ hq]
      have h2 : (44 :: s1).takeWhile (fun c => decide (c ≠ 0)) =
          44 :: s1.takeWhile (fun c => decide (c ≠ 0)) := by
        simp [List.takeWhile_cons]
      rw [h2, tokens_append_comma t _ h44 hne, h1]
      rfl

theorem digit_token_facts (t : List Nat) (hv : validToken t) : 0 ∉ t := by
  intro h
  have := hv.2.1 0 h
  omega

/-- `Get_PWMs_From_Payload` on a payload whose first four pieces are accepted
tokens: true, with the four values stored in order. -/
theorem Get_PWMs_From_Payload_accepts (Payload : Comms_Payload) (t1 t2 t3 t4 : List Nat)
    (rest : List (List Nat)) (hLen : 7 ≤ Payload.Len ∧ Payload.Len ≤ 15)
    (hsplit : splitOnComma (Payload.Buf.take Payload.Len) = t1 :: t2 :: t3 :: t4 :: rest)
    (h1 : t1 ≠ [] ∧ validToken t1) (h2 : t2 ≠ [] ∧ validToken t2)
    (h3 : t3 ≠ [] ∧ validToken t3) (h4 : t4 ≠ [] ∧ validToken t4) :
    Get_PWMs_From_Payload [none, none, none, none] Payload =
      some (true, [some (digitsValue t1), some (digitsValue t2), some (digitsValue t3),
                   some (digitsValue t4)]) := by
  have hts : ∀ t ∈ [t1, t2, t3, t4], t ≠ [] ∧ 0 ∉ t := by
    intro t ht
    simp only [List.mem_cons, List.mem_singleton, List.not_mem_nil, or_false] at ht
    rcases ht with h | h | h | h <;> subst h
    · exact ⟨h1.1, digit_token_facts _ h1.2⟩
    · exact ⟨h2.1, digit_token_facts _ h2.2⟩
    · exact ⟨h3.1, digit_token_facts _ h3.2⟩
    · exact ⟨h4.1, digit_token_facts _ h4.2⟩
  obtain ⟨rest1, htok⟩ := tokens_of_split [t1, t2, t3, t4] (Payload.Buf.take Payload.Len) rest
    hsplit hts
  have hnot : ¬ (Payload.Len < 7 ∨ Payload.Len > 15) := by omega
  simp only [Get_PWMs_From_Payload, if_neg hnot, cstring_StrPayload]
  generalize (Payload.Buf.take Payload.Len).takeWhile (fun c => decide (c ≠ 0)) = z at htok
  simp only [List.cons_append, List.nil_append] at htok
  obtain ⟨e1, k1⟩ := loop_valid 3 0 z [none, none, none, none] t1 _ htok h1.2
  obtain ⟨e2, k2⟩ := loop_valid 2 1 _ ([none, none, none, none].set 0 (some (digitsValue t1)))
    t2 _ k1 h2.2
  obtain ⟨e3, k3⟩ := loop_valid 1 2 _
    (([none, none, none, none].set 0 (some (digitsValue t1))).set 1 (some (digitsValue t2)))
    t3 _ k2 h3.2
  obtain ⟨e4, _⟩ := loop_valid 0 3 _
    ((([none, none, none, none].set 0 (some (digitsValue t1))).set 1
      (some (digitsValue t2))).set 2 (some (digitsValue t3)))
    t4 _ k3 h4.2
  rw [e1, e2, e3, e4]
  rfl

/-- C7: a SetOutputs payload of length 7 to 15 whose first four pieces between
commas are each 1 to 3 decimal digits of value at most 100 makes
`Command_Execute` call `IO_Set_PWM_Percent` exactly four times, with the four
values in order for `ENA_L`, `ENA_R`, `PWM_L`, `PWM_R`, and reply `RESP_ACK`
with `Len = 1`. -/
theorem set_outputs_applies (Percent : PWM_PIN → Nat) (str : List Nat) (p : Comms_Payload)
    (R : Reboot_Request_Type) (Payload : Comms_Payload) (t1 t2 t3 t4 : List Nat)
    (rest : List (List Nat)) (hp : p.Buf.length = PAYLOAD_BUF_SIZE)
    (hLen : 7 ≤ Payload.Len ∧ Payload.Len ≤ 15)
    (hsplit : splitOnComma (Payload.Buf.take Payload.Len) = t1 :: t2 :: t3 :: t4 :: rest)
    (h1 : t1 ≠ [] ∧ validToken t1) (h2 : t2 ≠ [] ∧ validToken t2)
    (h3 : t3 ≠ [] ∧ validToken t3) (h4 : t4 ≠ [] ∧ validToken t4) :
    ∃ r, Command_Execute Percent str p R COMMAND_SET_OUTPUTS Payload = some r ∧
      r.calls = [Call.IO_Set_PWM_Percent (digitsValue t1) ENA_L,
                 Call.IO_Set_PWM_Percent (digitsValue t2) ENA_R,
                 Call.IO_Set_PWM_Percent (digitsValue t3) PWM_L,
                 Call.IO_Set_PWM_Percent (digitsValue t4) PWM_R] ∧
      r.p.Buf[0]? = some RESP_ACK ∧ r.p.Len = 1 ∧ r.R = R := by
  have hG := Get_PWMs_From_Payload_accepts Payload t1 t2 t3 t4 rest hLen hsplit h1 h2 h3 h4
  have h0 := store_zero p.Buf RESP_ACK hp
  refine ⟨{ p := { Len := 1, Buf := p.Buf.set 0 RESP_ACK }, R := R,
            calls := [Call.IO_Set_PWM_Percent (digitsValue t1) ENA_L,
                      Call.IO_Set_PWM_Percent (digitsValue t2) ENA_R,
                      Call.IO_Set_PWM_Percent (digitsValue t3) PWM_L,
                      Call.IO_Set_PWM_Percent (digitsValue t4) PWM_R] },
    ?_, rfl, store_head _ _ _ h0, rfl, rfl⟩
  simp [Command_Execute, hG, h0]

/-- C7, at an instance: the payload `100,0,50,7`. -/
theorem set_outputs_applies_witness :
    ∃ r, Command_Execute (fun _ => 0) Firmware_Version_Get (payloadOf []) REBOOT_REQUEST_NONE
        COMMAND_SET_OUTPUTS (payloadOf (bytesOf "100,0,50,7")) = some r ∧
      r.calls = [Call.IO_Set_PWM_Percent 100 ENA_L, Call.IO_Set_PWM_Percent 0 ENA_R,
                 Call.IO_Set_PWM_Percent 50 PWM_L, Call.IO_Set_PWM_Percent 7 PWM_R] ∧
      r.p.Buf[0]? = some RESP_ACK ∧ r.p.Len = 1 ∧ r.R = REBOOT_REQUEST_NONE :=
  set_outputs_applies (fun _ => 0) Firmware_Version_Get (payloadOf []) REBOOT_REQUEST_NONE
    (payloadOf (bytesOf "100,0,50,7")) (bytesOf "100") (bytesOf "0") (bytesOf "50")
    (bytesOf "7") [] (by decide) (by decide) (by decide) (by decide) (by decide) (by decide)
    (by decide)

/-- C5 as stated fails: in the payload `1,,2,3,4` the second piece between
commas is empty, and in the payload `1,2,3,4` followed by a zero byte and `xx`
the fourth piece has 4 bytes, not all digits; both are of a length in 7 to 15,
and for both `Command_Execute` replies `RESP_ACK` and sets the four channels to
1, 2, 3, 4. -/
theorem set_outputs_accepts_empty_piece :
    ((payloadOf (bytesOf "1,,2,3,4")).Len = 8 ∧
      (splitOnComma ((payloadOf (bytesOf "1,,2,3,4")).Buf.take 8)).take 4 =
        [[49], [], [50], [51]] ∧
      Command_Execute (fun _ => 0) Firmware_Version_Get (payloadOf []) REBOOT_REQUEST_NONE
          COMMAND_SET_OUTPUTS (payloadOf (bytesOf "1,,2,3,4")) =
        some ⟨⟨1, RESP_ACK :: List.replicate 29 0⟩, REBOOT_REQUEST_NONE,
          [Call.IO_Set_PWM_Percent 1 ENA_L, Call.IO_Set_PWM_Percent 2 ENA_R,
           Call.IO_Set_PWM_Percent 3 PWM_L, Call.IO_Set_PWM_Percent 4 PWM_R]⟩) ∧
    ((payloadOf (bytesOf "1,2,3,4" ++ [0, 120, 120])).Len = 10 ∧
      (splitOnComma ((payloadOf (bytesOf "1,2,3,4" ++ [0, 120, 120])).Buf.take 10)).take 4 =
        [[49], [50], [51], [52, 0, 120, 120]] ∧
      Command_Execute (fun _ => 0) Firmware_Version_Get (payloadOf []) REBOOT_REQUEST_NONE
          COMMAND_SET_OUTPUTS (payloadOf (bytesOf "1,2,3,4" ++ [0, 120, 120])) =
        some ⟨⟨1, RESP_ACK :: List.replicate 29 0⟩, REBOOT_REQUEST_NONE,
          [Call.IO_Set_PWM_Percent 1 ENA_L, Call.IO_Set_PWM_Percent 2 ENA_R,
           Call.IO_Set_PWM_Percent 3 PWM_L, Call.IO_Set_PWM_Percent 4 PWM_R]⟩) := by
  decide

/-- C5, amended: for a SetOutputs payload of length 7 to 15, take the tokens
that `strtok` finds in the payload bytes up to the first zero byte (the pieces
between commas that are not empty). If one of the first four of them is longer
than 3 characters, holds a byte that is not a decimal digit, or has a value
above 100, `Command_Execute` replies `RESP_INV_PAYLOAD` with `Len = 1` and
sets no PWM channel. -/
theorem set_outputs_rejects_bad_token (Percent : PWM_PIN → Nat) (str : List Nat)
    (p : Comms_Payload) (R : Reboot_Request_Type) (Payload : Comms_Payload)
    (hp : p.Buf.length = PAYLOAD_BUF_SIZE) (hLen : 7 ≤ Payload.Len ∧ Payload.Len ≤ 15)
    (hbad : ∃ t ∈ (tokens ((Payload.Buf.take Payload.Len).takeWhile
                (fun c => decide (c ≠ 0)))).take 4,
        3 < t.length ∨ (∃ c ∈ t, c < 48 ∨ 57 < c) ∨ 100 < digitsValue t) :
    ∃ r, Command_Execute Percent str p R COMMAND_SET_OUTPUTS Payload = some r ∧
      r.p.Len = 1 ∧ r.p.Buf[0]? = some RESP_INV_PAYLOAD ∧ r.calls = [] ∧ r.R = R := by
  have hbad1 : ∃ t ∈ (tokens ((Payload.Buf.take Payload.Len).takeWhile
      (fun c => decide (c ≠ 0)))).take 4, ¬ validToken t := by
    obtain ⟨t, ht, hcase⟩ := hbad
    refine ⟨t, ht, ?_⟩
    rintro ⟨hl, hd, hval⟩
    rcases hcase with h | ⟨c, hc, h⟩ | h
    · omega
    · have := hd c hc
      omega
    · omega
  have hnot : ¬ (Payload.Len < 7 ∨ Payload.Len > 15) := by omega
  obtain ⟨P1, hloop⟩ := loop_rejects 4 _ 0 [none, none, none, none] hbad1
  have hG : Get_PWMs_From_Payload [none, none, none, none] Payload = some (false, P1) := by
    simp only [Get_PWMs_From_Payload, if_neg hnot, cstring_StrPayload]
    exact hloop
  have h0 := store_zero p.Buf RESP_INV_PAYLOAD hp
  refine ⟨{ p := { Len := 1, Buf := p.Buf.set 0 RESP_INV_PAYLOAD }, R := R, calls := [] },
    ?_, rfl, store_head _ _ _ h0, rfl, rfl⟩
  simp [Command_Execute, hG, h0]

/-- C5 amended, at an instance: the payload `50,5x,50,50`, whose second token
holds the byte `x`. -/
theorem set_outputs_rejects_bad_token_witness :
    ∃ r, Command_Execute (fun _ => 0) Firmware_Version_Get (payloadOf []) REBOOT_REQUEST_NONE
        COMMAND_SET_OUTPUTS (payloadOf (bytesOf "50,5x,50,50")) = some r ∧
      r.p.Len = 1 ∧ r.p.Buf[0]? = some RESP_INV_PAYLOAD ∧ r.calls = [] ∧
      r.R = REBOOT_REQUEST_NONE :=
  set_outputs_rejects_bad_token (fun _ => 0) Firmware_Version_Get (payloadOf [])
    REBOOT_REQUEST_NONE (payloadOf (bytesOf "50,5x,50,50")) (by decide) (by decide)
    ⟨bytesOf "5x", by decide, Or.inr (Or.inl ⟨120, by decide, by decide⟩)⟩

/-! ## Send_Packet -/

theorem store_after (pre rest : List Nat) (off v : Nat) (hoff : off = pre.length)
    (h : 0 < rest.length) :
    store (pre ++ rest) off v = some ((pre ++ [v]) ++ rest.drop 1) := by
  subst hoff
  have hlt : pre.length < (pre ++ rest).length := by
    rw [List.length_append]; omega
  rw [store_eq _ _ _ hlt]
  cases rest with
  | nil => simp at h
  | cons a r => simp

theorem storeAt_after (pre rest bytes : List Nat) (off : Nat) (hoff : off = pre.length)
    (h : bytes.length ≤ rest.length) :
    storeAt (pre ++ rest) off bytes = some ((pre ++ bytes) ++ rest.drop bytes.length) := by
  subst hoff
  have hle : pre.length + bytes.length ≤ (pre ++ rest).length := by
    rw [List.length_append]; omega
  simp only [storeAt, if_pos hle]
  simp [List.take_append_eq_append_take, List.drop_append_eq_append_drop]

/-- What `Send_Packet` does for a payload whose `Len`, after the cut, is `L`:
the frame is written at the start of the static buffer and handed to
`CDC_Transmit_FS` in one call. -/
theorem Send_Packet_eq (Buf : List Nat) (Cmd : Nat) (Dat : Comms_Payload)
    (hB : Buf.length = PAYLOAD_BUF_SIZE + 5) (hD : Dat.Buf.length = PAYLOAD_BUF_SIZE) :
    Send_Packet Buf Cmd Dat =
      some { Buf := ([SOP_BYTE, Cmd] ++ Dat.Buf.take (min Dat.Len PAYLOAD_BUF_SIZE) ++
                      [EOP_BYTE, 10, 13]) ++ Buf.drop (min Dat.Len PAYLOAD_BUF_SIZE + 5),
             Dat := { Dat with Len := min Dat.Len PAYLOAD_BUF_SIZE },
             sent := [[SOP_BYTE, Cmd] ++ Dat.Buf.take (min Dat.Len PAYLOAD_BUF_SIZE) ++
                      [EOP_BYTE, 10, 13]] } := by
  have hDat1 : (if Dat.Len > PAYLOAD_BUF_SIZE then { Dat with Len := PAYLOAD_BUF_SIZE } else Dat)
      = { Dat with Len := min Dat.Len PAYLOAD_BUF_SIZE } := by
    by_cases h : Dat.Len > PAYLOAD_BUF_SIZE
    · rw [if_pos h, Nat.min_eq_right (Nat.le_of_lt h)]
    · rw [if_neg h, Nat.min_eq_left (Nat.le_of_not_lt h)]
  generalize hL : min Dat.Len PAYLOAD_BUF_SIZE = L at hDat1 ⊢
  have hL30 : L ≤ 30 := by rw [← hL]; exact Nat.min_le_right _ _
  have hB35 : Buf.length = 35 := hB
  have hD30 : Dat.Buf.length = 30 := hD
  have hdata : (Dat.Buf.take L).length = L := by
    rw [List.length_take, hD30]; omega
  -- the five stores, one after the other
  have hlen : ∀ pre : List Nat, (pre ++ Dat.Buf.take L).length = pre.length + L := by
    intro pre; rw [List.length_append, hdata]
  have s0 := store_after [] Buf 0 SOP_BYTE rfl (by omega)
  rw [List.nil_append] at s0
  have s1 := store_after ([] ++ [SOP_BYTE]) (Buf.drop 1) 1 Cmd (by simp only [List.length_append, List.length_cons, List.length_nil, hdata])
    (by rw [List.length_drop]; omega)
  have s2 := storeAt_after ([] ++ [SOP_BYTE] ++ [Cmd]) ((Buf.drop 1).drop 1) (Dat.Buf.take L) 2
    (by simp only [List.length_append, List.length_cons, List.length_nil, hdata]) (by simp only [List.length_drop, hdata]; omega)
  have s3 := store_after ([] ++ [SOP_BYTE] ++ [Cmd] ++ Dat.Buf.take L)
    (((Buf.drop 1).drop 1).drop (Dat.Buf.take L).length) (2 + L) EOP_BYTE
    (by simp only [List.length_append, List.length_cons, List.length_nil, hdata])
    (by simp only [List.length_drop, hdata]; omega)
  have s4 := store_after ([] ++ [SOP_BYTE] ++ [Cmd] ++ Dat.Buf.take L ++ [EOP_BYTE])
    ((((Buf.drop 1).drop 1).drop (Dat.Buf.take L).length).drop 1) (3 + L) 10
    (by simp only [List.length_append, List.length_cons, List.length_nil, hdata]; omega)
    (by simp only [List.length_drop, hdata]; omega)
  have s5 := store_after ([] ++ [SOP_BYTE] ++ [Cmd] ++ Dat.Buf.take L ++ [EOP_BYTE] ++ [10])
    (((((Buf.drop 1).drop 1).drop (Dat.Buf.take L).length).drop 1).drop 1) (4 + L) 13
    (by simp only [List.length_append, List.length_cons, List.length_nil, hdata]; omega)
    (by simp only [List.length_drop, hdata]; omega)
  have hread : L ≤ Dat.Buf.length := by omega
  have hmod : (L + 5) % 65536 = L + 5 := Nat.mod_eq_of_lt (by omega)
  have hpre : ([] ++ [SOP_BYTE] ++ [Cmd] ++ Dat.Buf.take L ++ [EOP_BYTE] ++ [10] ++ [13]).length
      = L + 5 := by
    simp only [List.length_append, List.length_cons, List.length_nil, hdata]; omega
  unfold Send_Packet
  rw [s0]
  dsimp only
  rw [s1]
  dsimp only
  rw [hDat1]
  dsimp only
  rw [if_pos hread, s2]
  dsimp only
  rw [s3]
  dsimp only
  rw [s4]
  dsimp only
  rw [s5]
  dsimp only
  have htake : ∀ rest : List Nat,
      List.take (L + 5) (([] ++ [SOP_BYTE] ++ [Cmd] ++ Dat.Buf.take L ++ [EOP_BYTE] ++ [10] ++
        [13]) ++ rest) =
      [] ++ [SOP_BYTE] ++ [Cmd] ++ Dat.Buf.take L ++ [EOP_BYTE] ++ [10] ++ [13] := by
    intro rest
    rw [List.take_append_of_le_length (le_of_eq hpre.symm)]
    rw [← hpre, List.take_length]
  rw [hmod, htake]
  simp only [List.drop_drop, hdata, List.nil_append, List.append_assoc, List.cons_append,
    List.singleton_append, hpre]
  have hcnt : 1 + 1 + L + 1 + 1 + 1 = L + 5 := by omega
  rw [hcnt]

/-- C12: for a reply with `Len` at most `PAYLOAD_BUF_SIZE`, `Send_Packet` hands
`CDC_Transmit_FS`, in one call, the bytes `{`, `Cmd`, the first `Len` bytes of
`Dat.Buf`, `}`, `\n`, `\r` in this order, which are `Len + 5` bytes. -/
theorem Send_Packet_frame (Buf : List Nat) (Cmd : Nat) (Dat : Comms_Payload)
    (hB : Buf.length = PAYLOAD_BUF_SIZE + 5) (hD : Dat.Buf.length = PAYLOAD_BUF_SIZE)
    (hLen : Dat.Len ≤ PAYLOAD_BUF_SIZE) :
    ∃ r, Send_Packet Buf Cmd Dat = some r ∧
      r.sent = [[SOP_BYTE, Cmd] ++ Dat.Buf.take Dat.Len ++ [EOP_BYTE, 10, 13]] ∧
      ([SOP_BYTE, Cmd] ++ Dat.Buf.take Dat.Len ++ [EOP_BYTE, 10, 13]).length = Dat.Len + 5 := by
  have h := Send_Packet_eq Buf Cmd Dat hB hD
  rw [Nat.min_eq_left hLen] at h
  refine ⟨_, h, rfl, ?_⟩
  have hD30 : Dat.Buf.length = 30 := hD
  have hL30 : Dat.Len ≤ 30 := hLen
  simp only [List.length_append, List.length_cons, List.length_nil, List.length_take, hD30]
  omega

/-- C12, at an instance: the reply `A50,` to the command `S`. -/
theorem Send_Packet_frame_witness :
    ∃ r, Send_Packet (List.replicate 35 0) COMMAND_STATUS (payloadOf (bytesOf "A50,")) = some r ∧
      r.sent = [bytesOf "\x7bSA50,\x7d\n\r"] ∧ (bytesOf "\x7bSA50,\x7d\n\r").length = 4 + 5 :=
  Send_Packet_frame (List.replicate 35 0) COMMAND_STATUS (payloadOf (bytesOf "A50,"))
    (by decide) (by decide) (by decide)

/-- C13: for every reply `Send_Packet` stays inside its static buffer of
`PAYLOAD_BUF_SIZE + 5` cells (every store is defined), and for a reply with
`Len` above `PAYLOAD_BUF_SIZE` it transmits exactly 35 bytes: `{`, `Cmd`, the
first 30 bytes of `Dat.Buf`, `}`, `\n`, `\r`. -/
theorem Send_Packet_truncates (Buf : List Nat) (Cmd : Nat) (Dat : Comms_Payload)
    (hB : Buf.length = PAYLOAD_BUF_SIZE + 5) (hD : Dat.Buf.length = PAYLOAD_BUF_SIZE) :
    (∃ r, Send_Packet Buf Cmd Dat = some r ∧ r.Buf.length = PAYLOAD_BUF_SIZE + 5) ∧
    (Dat.Len > PAYLOAD_BUF_SIZE →
      ∃ r, Send_Packet Buf Cmd Dat = some r ∧
        r.sent = [[SOP_BYTE, Cmd] ++ Dat.Buf.take PAYLOAD_BUF_SIZE ++ [EOP_BYTE, 10, 13]] ∧
        ([SOP_BYTE, Cmd] ++ Dat.Buf.take PAYLOAD_BUF_SIZE ++ [EOP_BYTE, 10, 13]).length = 35) := by
  have h := Send_Packet_eq Buf Cmd Dat hB hD
  have hD30 : Dat.Buf.length = 30 := hD
  have hB35 : Buf.length = 35 := hB
  constructor
  · refine ⟨_, h, ?_⟩
    have hm : min Dat.Len PAYLOAD_BUF_SIZE ≤ 30 := Nat.min_le_right _ _
    simp only [List.length_append, List.length_cons, List.length_nil, List.length_take,
      List.length_drop, hD30, hB35]
    omega
  · intro hLen
    rw [Nat.min_eq_right (Nat.le_of_lt hLen)] at h
    refine ⟨_, h, rfl, ?_⟩
    simp only [List.length_append, List.length_cons, List.length_nil, List.length_take, hD30]
    rfl

/-- C13, at an instance: a reply with `Len = 200` whose buffer holds the bytes
0 to 29. -/
theorem Send_Packet_truncates_witness :
    ∃ r, Send_Packet (List.replicate 35 0) COMMAND_FW_VER ⟨200, List.range 30⟩ = some r ∧
      r.sent = [[SOP_BYTE, COMMAND_FW_VER] ++ List.range 30 ++ [EOP_BYTE, 10, 13]] ∧
      r.Buf.length = 35 := by
  obtain ⟨⟨r1, h1, hl⟩, h2⟩ :=
    Send_Packet_truncates (List.replicate 35 0) COMMAND_FW_VER ⟨200, List.range 30⟩
      (by decide) (by decide)
  obtain ⟨r, hr, hs, _⟩ := h2 (by decide)
  rw [h1] at hr
  cases hr
  exact ⟨r1, h1, by rw [hs]; decide, hl⟩

/-! ## The invariant of the receive object -/

/-- One event keeps the payload buffer at its size and the payload count within
it, every store is defined, and a packet handed to the callback has a `Len`
within the size. -/
theorem step_invariant (T : Nat) (RX : Comms_RX_Typedef) (e : Event)
    (hlen : RX.Packet.Payload.Buf.length = PAYLOAD_BUF_SIZE)
    (hrun : RX.Expect = EXPECT_PAYLOAD → RX.Running_Len ≤ PAYLOAD_BUF_SIZE) :
    ∃ RX1 out, step T RX e = some (RX1, out) ∧
      RX1.Packet.Payload.Buf.length = PAYLOAD_BUF_SIZE ∧
      (RX1.Expect = EXPECT_PAYLOAD → RX1.Running_Len ≤ PAYLOAD_BUF_SIZE) ∧
      ∀ Pkt ∈ out, Pkt.Payload.Len ≤ PAYLOAD_BUF_SIZE := by
  cases e with
  | tick =>
    refine ⟨Comms_RX_Timer T RX, [], rfl, ?_, ?_, fun _ h => absurd h (List.not_mem_nil _)⟩
    · unfold Comms_RX_Timer
      dsimp only
      split
      · split <;> exact hlen
      · exact hlen
    · unfold Comms_RX_Timer
      dsimp only
      split
      · split
        · intro h; cases h
        · exact hrun
      · exact hrun
  | byte b =>
    simp only [step, Comms_RX_Receive_Byte]
    by_cases h1 : RX.Expect = EXPECT_SOP
    · by_cases hb : b = SOP_BYTE
      · rw [if_pos h1, if_pos hb]
        refine ⟨_, _, rfl, hlen, ?_, fun _ h => absurd h (List.not_mem_nil _)⟩
        intro h; cases h
      · rw [if_pos h1, if_neg hb]
        exact ⟨_, _, rfl, hlen, hrun, fun _ h => absurd h (List.not_mem_nil _)⟩
    · by_cases h2 : RX.Expect = EXPECT_COMMAND
      · rw [if_neg h1, if_pos h2]
        refine ⟨_, _, rfl, hlen, ?_, fun _ h => absurd h (List.not_mem_nil _)⟩
        intro _
        exact Nat.zero_le _
      · by_cases h3 : RX.Expect = EXPECT_PAYLOAD
        · have hr := hrun h3
          have hr30 : RX.Running_Len ≤ 30 := hr
          by_cases hb : b = EOP_BYTE
          · by_cases hcb : RX.Packet_Ready = true
            · rw [if_neg h1, if_neg h2, if_pos h3, if_pos hb, if_pos hcb]
              refine ⟨_, _, rfl, hlen, ?_, ?_⟩
              · intro h; cases h
              · intro Pkt hP
                rw [List.mem_singleton] at hP
                rw [hP]
                show RX.Running_Len % 256 ≤ 30
                exact le_trans (Nat.mod_le _ _) hr30
            · rw [if_neg h1, if_neg h2, if_pos h3, if_pos hb, if_neg hcb]
              refine ⟨_, _, rfl, hlen, ?_, fun _ h => absurd h (List.not_mem_nil _)⟩
              intro h; cases h
          · by_cases hroom : RX.Running_Len < PAYLOAD_BUF_SIZE
            · have hst : store RX.Packet.Payload.Buf RX.Running_Len b =
                  some (RX.Packet.Payload.Buf.set RX.Running_Len b) :=
                store_eq _ _ _ (by rw [hlen]; exact hroom)
              have hroom30 : RX.Running_Len < 30 := hroom
              rw [if_neg h1, if_neg h2, if_pos h3, if_neg hb, if_pos hroom, hst]
              refine ⟨_, _, rfl, ?_, ?_, fun _ h => absurd h (List.not_mem_nil _)⟩
              · show (RX.Packet.Payload.Buf.set RX.Running_Len b).length = PAYLOAD_BUF_SIZE
                rw [List.length_set]; exact hlen
              · intro _
                show (RX.Running_Len + 1) % 65536 ≤ 30
                exact le_trans (Nat.mod_le _ _) (by omega)
            · rw [if_neg h1, if_neg h2, if_pos h3, if_neg hb, if_neg hroom]
              exact ⟨_, _, rfl, hlen, hrun, fun _ h => absurd h (List.not_mem_nil _)⟩
        · rw [if_neg h1, if_neg h2, if_neg h3]
          exact ⟨_, _, rfl, hlen, hrun, fun _ h => absurd h (List.not_mem_nil _)⟩

theorem run_invariant (T : Nat) (evs : List Event) : ∀ (RX : Comms_RX_Typedef),
    RX.Packet.Payload.Buf.length = PAYLOAD_BUF_SIZE →
    (RX.Expect = EXPECT_PAYLOAD → RX.Running_Len ≤ PAYLOAD_BUF_SIZE) →
    ∃ RX1 out, run T RX evs = some (RX1, out) ∧
      RX1.Packet.Payload.Buf.length = PAYLOAD_BUF_SIZE ∧
      (RX1.Expect = EXPECT_PAYLOAD → RX1.Running_Len ≤ PAYLOAD_BUF_SIZE) ∧
      ∀ Pkt ∈ out, Pkt.Payload.Len ≤ PAYLOAD_BUF_SIZE := by
  induction evs with
  | nil =>
    intro RX hlen hrun
    exact ⟨RX, [], rfl, hlen, hrun, fun _ h => absurd h (List.not_mem_nil _)⟩
  | cons e es ih =>
    intro RX hlen hrun
    obtain ⟨RX1, out1, h1, hl1, hr1, ho1⟩ := step_invariant T RX e hlen hrun
    obtain ⟨RX2, out2, h2, hl2, hr2, ho2⟩ := ih RX1 hl1 hr1
    refine ⟨RX2, out1 ++ out2, ?_, hl2, hr2, ?_⟩
    · rw [run_cons, h1]
      simp only [h2]
    · intro Pkt hP
      rcases List.mem_append.1 hP with h | h
      · exact ho1 Pkt h
      · exact ho2 Pkt h

/-- C17: in every state reached from `Comms_RX_Initialise` by bytes and timer
interrupts, in `EXPECT_PAYLOAD` the count `Running_Len` is at most
`PAYLOAD_BUF_SIZE`; every store into `Packet.Payload.Buf` is inside its
`PAYLOAD_BUF_SIZE` cells (the run is defined and the buffer keeps its size);
and every packet handed to `Packet_Ready` has `Payload.Len` at most
`PAYLOAD_BUF_SIZE`. -/
theorem payload_within_capacity (RX0 RXi : Comms_RX_Typedef) (cb : Bool) (Timer_ms : ℚ)
    (T : Nat) (evs : List Event)
    (hlen : RX0.Packet.Payload.Buf.length = PAYLOAD_BUF_SIZE)
    (hinit : Comms_RX_Initialise RX0 cb Timer_ms = some (RXi, T)) :
    ∃ RX1 out, run T RXi evs = some (RX1, out) ∧
      RX1.Packet.Payload.Buf.length = PAYLOAD_BUF_SIZE ∧
      (RX1.Expect = EXPECT_PAYLOAD → RX1.Running_Len ≤ PAYLOAD_BUF_SIZE) ∧
      ∀ Pkt ∈ out, Pkt.Payload.Len ≤ PAYLOAD_BUF_SIZE := by
  unfold Comms_RX_Initialise at hinit
  split at hinit
  · cases hinit
  · dsimp only at hinit
    split at hinit
    · cases hinit
    · simp only [Option.some.injEq, Prod.mk.injEq] at hinit
      obtain ⟨hRX, _⟩ := hinit
      subst hRX
      exact run_invariant T evs
        { RX0 with Expect := EXPECT_SOP, Packet_Ready := cb } hlen (fun h => by cases h)

/-! ## The division in single precision -/

/-- Rounding to the nearest integer gives the floor or the floor plus one. -/
theorem round_half_even_cases (y : ℚ) :
    (round_half_even y = ⌊y⌋ ∧ y - ⌊y⌋ ≤ 1 / 2) ∨
    (round_half_even y = ⌊y⌋ + 1 ∧ 1 / 2 ≤ y - ⌊y⌋) := by
  unfold round_half_even
  dsimp only
  by_cases h1 : y - (⌊y⌋ : ℚ) < 1 / 2
  · rw [if_pos h1]
    exact Or.inl ⟨rfl, le_of_lt h1⟩
  · rw [if_neg h1]
    by_cases h2 : 1 / 2 < y - (⌊y⌋ : ℚ)
    · rw [if_pos h2]
      exact Or.inr ⟨rfl, le_of_lt h2⟩
    · rw [if_neg h2]
      have he : y - (⌊y⌋ : ℚ) = 1 / 2 := le_antisymm (not_lt.mp h2) (not_lt.mp h1)
      by_cases h3 : ⌊y⌋ % 2 = 0
      · rw [if_pos h3]
        exact Or.inl ⟨rfl, le_of_eq he⟩
      · rw [if_neg h3]
        exact Or.inr ⟨rfl, le_of_eq he.symm⟩

/-- Rounding to the nearest integer does not go below an integer under the value. -/
theorem round_half_even_ge (y : ℚ) (m : ℤ) (h : (m : ℚ) ≤ y) : m ≤ round_half_even y := by
  have hf : m ≤ ⌊y⌋ := Int.le_floor.mpr h
  rcases round_half_even_cases y with ⟨e, _⟩ | ⟨e, _⟩ <;> rw [e] <;> omega

/-- Rounding to the nearest integer does not go above an integer over the value. -/
theorem round_half_even_le (y : ℚ) (m : ℤ) (h : y ≤ (m : ℚ)) : round_half_even y ≤ m := by
  have hf : ⌊y⌋ ≤ m := Int.cast_le.mp (le_trans (Int.floor_le y) h)
  rcases round_half_even_cases y with ⟨e, _⟩ | ⟨e, hr⟩
  · rw [e]; exact hf
  · rw [e]
    by_contra hc
    have hm : ⌊y⌋ = m := by omega
    rw [hm] at hr
    linarith

/-- The nearest integer, when the value is less than a half away from it. -/
theorem round_half_even_eq (y : ℚ) (m : ℤ) (h1 : (m : ℚ) - 1 / 2 < y) (h2 : y < (m : ℚ) + 1 / 2) :
    round_half_even y = m := by
  have hfl := Int.floor_le y
  have hlt := Int.lt_floor_add_one y
  rcases round_half_even_cases y with ⟨e, hr⟩ | ⟨e, hr⟩
  · rw [e]
    have a : (⌊y⌋ : ℚ) < (m : ℚ) + 1 := by linarith
    have b : (m : ℚ) - 1 < (⌊y⌋ : ℚ) := by linarith
    have a' : ⌊y⌋ < m + 1 := by exact_mod_cast a
    have b' : m - 1 < ⌊y⌋ := by exact_mod_cast b
    omega
  · rw [e]
    have a : (⌊y⌋ : ℚ) + 1 < (m : ℚ) + 1 := by linarith
    have b : (m : ℚ) - 1 < (⌊y⌋ : ℚ) + 1 := by linarith
    have a' : ⌊y⌋ + 1 < m + 1 := by exact_mod_cast a
    have b' : m - 1 < ⌊y⌋ + 1 := by exact_mod_cast b
    omega

/-- The exponent of a value in a binade of the normal range. -/
theorem float_exponent_eq (x : ℚ) (e : ℤ) (hx : 0 < x) (h1 : (2 : ℚ) ^ e ≤ x)
    (h2 : x < (2 : ℚ) ^ (e + 1)) (he : -126 ≤ e) : float_exponent x = e := by
  have a : e ≤ Int.log 2 x := (Int.zpow_le_iff_le_log (by decide) hx).mp (by exact_mod_cast h1)
  have b : Int.log 2 x < e + 1 := (Int.lt_zpow_iff_log_lt (by decide) hx).mp (by exact_mod_cast h2)
  unfold float_exponent
  omega

/-- The float nearest to a value in a binade, from the nearest multiple of the
spacing. -/
theorem round_float_eq (x : ℚ) (e m : ℤ) (hx : 0 < x) (h1 : (2 : ℚ) ^ e ≤ x)
    (h2 : x < (2 : ℚ) ^ (e + 1)) (he : -126 ≤ e)
    (h3 : (m : ℚ) - 1 / 2 < x / 2 ^ (e - 23)) (h4 : x / 2 ^ (e - 23) < (m : ℚ) + 1 / 2) :
    round_float x = (m : ℚ) * 2 ^ (e - 23) := by
  unfold round_float
  rw [if_neg (not_lt.mpr (le_of_lt hx)), float_exponent_eq x e hx h1 h2 he,
    round_half_even_eq _ m h3 h4]

/-- An integer under the value stays under the float nearest to it, and an
integer over the value stays over it, while the spacing of the floats is at most
one. -/
theorem round_float_bracket (x : ℚ) (k : ℤ) (hx : 0 ≤ x) (hE : float_exponent x ≤ 23) :
    ((k : ℚ) ≤ x → (k : ℚ) ≤ round_float x) ∧ (x ≤ (k : ℚ) → round_float x ≤ (k : ℚ)) := by
  obtain ⟨d, hd⟩ : ∃ d : ℕ, float_exponent x - 23 = -(d : ℤ) :=
    ⟨(23 - float_exponent x).toNat, by omega⟩
  have hu : (2 : ℚ) ^ (float_exponent x - 23) = ((2 : ℚ) ^ d)⁻¹ := by
    rw [hd, zpow_neg, zpow_natCast]
  have hpos : (0 : ℚ) < (2 : ℚ) ^ d := by positivity
  have hdiv : x / ((2 : ℚ) ^ d)⁻¹ = x * 2 ^ d := by rw [div_inv_eq_mul]
  have hcast : ((k * 2 ^ d : ℤ) : ℚ) = (k : ℚ) * 2 ^ d := by push_cast; ring
  unfold round_float
  rw [if_neg (not_lt.mpr hx), hu, hdiv]
  constructor
  · intro h
    have hk : ((k * 2 ^ d : ℤ) : ℚ) ≤ x * 2 ^ d := by
      rw [hcast]
      exact mul_le_mul_of_nonneg_right h (le_of_lt hpos)
    have hr := round_half_even_ge _ _ hk
    have hr' : ((k * 2 ^ d : ℤ) : ℚ) ≤ (round_half_even (x * 2 ^ d) : ℚ) := by exact_mod_cast hr
    rw [hcast] at hr'
    rw [le_mul_inv_iff₀ hpos]
    exact hr'
  · intro h
    have hk : x * 2 ^ d ≤ ((k * 2 ^ d : ℤ) : ℚ) := by
      rw [hcast]
      exact mul_le_mul_of_nonneg_right h (le_of_lt hpos)
    have hr := round_half_even_le _ _ hk
    have hr' : (round_half_even (x * 2 ^ d) : ℚ) ≤ ((k * 2 ^ d : ℤ) : ℚ) := by exact_mod_cast hr
    rw [hcast] at hr'
    rw [mul_inv_le_iff₀ hpos]
    exact hr'

/-- The float nearest to a positive value is not below the power of two at the
start of its binade. -/
theorem round_float_ge_pow (x : ℚ) (hx : 0 < x) (hn : -126 ≤ Int.log 2 x) :
    (2 : ℚ) ^ float_exponent x ≤ round_float x := by
  have hE : float_exponent x = Int.log 2 x := by unfold float_exponent; omega
  have h1 : (2 : ℚ) ^ Int.log 2 x ≤ x := by
    have := @Int.zpow_log_le_self ℚ _ _ 2 x (by decide) hx
    exact_mod_cast this
  have hu : (0 : ℚ) < (2 : ℚ) ^ (Int.log 2 x - 23) := by positivity
  have hsplit : (2 : ℚ) ^ Int.log 2 x = ((2 ^ 23 : ℤ) : ℚ) * 2 ^ (Int.log 2 x - 23) := by
    rw [zpow_sub₀ (by norm_num : (2 : ℚ) ≠ 0)]
    push_cast
    field_simp
    ring
  unfold round_float
  rw [if_neg (not_lt.mpr (le_of_lt hx)), hE]
  have hk : ((2 ^ 23 : ℤ) : ℚ) ≤ x / 2 ^ (Int.log 2 x - 23) := by
    rw [le_div_iff₀ hu, ← hsplit]
    exact h1
  have hr := round_half_even_ge _ _ hk
  have hr' : ((2 ^ 23 : ℤ) : ℚ) ≤ (round_half_even (x / 2 ^ (Int.log 2 x - 23)) : ℚ) := by
    exact_mod_cast hr
  rw [hsplit]
  exact mul_le_mul_of_nonneg_right hr' (le_of_lt hu)

/-- A positive value whose nearest float is below 65536 lies in a binade where
the floats are spaced at most one apart. -/
theorem float_exponent_small (x : ℚ) (hx : 0 < x) (hfit : round_float x < 65536) :
    float_exponent x ≤ 23 := by
  by_cases hn : -126 ≤ Int.log 2 x
  · have h := round_float_ge_pow x hx hn
    by_contra hc
    have h24 : (24 : ℤ) ≤ float_exponent x := by omega
    have hp : (2 : ℚ) ^ (24 : ℤ) ≤ (2 : ℚ) ^ float_exponent x :=
      zpow_le_zpow_right₀ (by norm_num) h24
    have : (2 : ℚ) ^ (24 : ℤ) = 16777216 := by norm_num
    linarith
  · unfold float_exponent
    omega

theorem float_div_one : float_div 500 1 = 500 := by
  unfold float_div
  rw [round_float_eq (500 / 1) 8 16384000 (by norm_num) (by norm_num) (by norm_num)
    (by norm_num) (by norm_num) (by norm_num)]
  norm_num

theorem float_div_three : float_div 500 3 = 10922667 / 65536 := by
  unfold float_div
  rw [round_float_eq (500 / 3) 7 10922667 (by norm_num) (by norm_num) (by norm_num)
    (by norm_num) (by norm_num) (by norm_num)]
  norm_num

theorem float_div_tenth : float_div 500 (13421773 / 134217728) = 5000 := by
  unfold float_div
  rw [round_float_eq (500 / (13421773 / 134217728)) 12 10240000 (by norm_num) (by norm_num)
    (by norm_num) (by norm_num) (by norm_num) (by norm_num)]
  norm_num

/-- The value of `Byte_Timeout_Ints` from the quotient in `float`. -/
theorem Comms_RX_Initialise_eq (RX : Comms_RX_Typedef) (cb : Bool) (t q : ℚ) (n : Nat)
    (ht : t ≠ 0) (hq : float_div 500 t = q) (h1 : (n : ℚ) ≤ q) (h2 : q < (n : ℚ) + 1)
    (hn : n < 65536) :
    Comms_RX_Initialise RX cb t =
      some ({ RX with Expect := EXPECT_SOP, Packet_Ready := cb }, n) := by
  have h500 : ((BYTE_TIMEOUT_MS : Nat) : ℚ) = 500 := by norm_num
  have h0 : (0 : ℚ) ≤ (n : ℚ) := Nat.cast_nonneg n
  have hn' : (n : ℚ) + 1 ≤ 65536 := by exact_mod_cast hn
  have hfl : ⌊q⌋ = (n : ℤ) := by
    rw [Int.floor_eq_iff]
    exact ⟨by exact_mod_cast h1, by exact_mod_cast h2⟩
  unfold Comms_RX_Initialise
  rw [if_neg ht, h500, hq]
  dsimp only
  rw [if_neg (by push_neg; constructor <;> linarith), hfl, Int.toNat_natCast]

/-- At 1 ms per timer interrupt `Byte_Timeout_Ints` is 500. -/
theorem Comms_RX_Initialise_one (RX : Comms_RX_Typedef) (cb : Bool) :
    Comms_RX_Initialise RX cb 1 =
      some ({ RX with Expect := EXPECT_SOP, Packet_Ready := cb }, 500) :=
  Comms_RX_Initialise_eq RX cb 1 500 500 (by norm_num) float_div_one (by norm_num)
    (by norm_num) (by norm_num)

/-- C17, at an instance: after initialisation at 1 ms per interrupt, the frame
`{F` with 32 payload bytes `x`, then `}`. -/
theorem payload_within_capacity_witness :
    ∃ RX1 out,
      run 500 ⟨EXPECT_SOP, 0, true, ⟨0, 0, ⟨0, List.replicate 30 0⟩, 0⟩, 0⟩
        (List.map Event.byte ([123, 70] ++ List.replicate 32 120 ++ [125])) = some (RX1, out) ∧
      RX1.Packet.Payload.Buf.length = PAYLOAD_BUF_SIZE ∧
      (RX1.Expect = EXPECT_PAYLOAD → RX1.Running_Len ≤ PAYLOAD_BUF_SIZE) ∧
      ∀ Pkt ∈ out, Pkt.Payload.Len ≤ PAYLOAD_BUF_SIZE :=
  payload_within_capacity ⟨EXPECT_UNDEFINED, 0, false, ⟨0, 0, ⟨0, List.replicate 30 0⟩, 0⟩, 0⟩
    ⟨EXPECT_SOP, 0, true, ⟨0, 0, ⟨0, List.replicate 30 0⟩, 0⟩, 0⟩ true 1 500
    (List.map Event.byte ([123, 70] ++ List.replicate 32 120 ++ [125])) (by decide)
    (Comms_RX_Initialise_one _ true)

/-! ## The static reply buffer across calls -/

theorem store_length (mem m : List Nat) (i v : Nat) (h : store mem i v = some m) :
    m.length = mem.length := by
  unfold store at h
  split at h
  · cases h; exact List.length_set _ _ _
  · cases h

theorem store_zero_getLast (mem m : List Nat) (v : Nat) (h : store mem 0 v = some m)
    (hlen : 1 < mem.length) : m.getLast? = mem.getLast? := by
  unfold store at h
  split at h
  · cases h
    cases mem with
    | nil => simp at hlen
    | cons a rest =>
      cases rest with
      | nil => simp at hlen
      | cons b rest2 => simp [List.getLast?_cons_cons]
  · cases h

theorem storeAt_length (mem m bytes : List Nat) (off : Nat)
    (h : storeAt mem off bytes = some m) : m.length = mem.length := by
  unfold storeAt at h
  split at h
  · rename_i hle
    cases h
    simp only [List.length_append, List.length_take, List.length_drop]
    omega
  · cases h

/-- A block that ends in a zero, stored into an array whose last cell is zero,
leaves the last cell zero. -/
theorem storeAt_getLast_zero (mem m bs : List Nat) (off : Nat)
    (h : storeAt mem off (bs ++ [0]) = some m) (hlast : mem.getLast? = some 0) :
    m.getLast? = some 0 := by
  unfold storeAt at h
  split at h
  · cases h
    cases hd : mem.drop (off + (bs ++ [0]).length) with
    | nil => simp [List.getLast?_append]
    | cons a rest =>
      have hsplit := List.take_append_drop (off + (bs ++ [0]).length) mem
      rw [hd] at hsplit
      have : mem.getLast? = (a :: rest).getLast? := by
        rw [← hsplit, List.getLast?_append]
        simp [List.getLast?_cons]
      rw [List.getLast?_append, ← this, hlast]
      rfl
  · cases h

/-- A block stored before the last cell of an array leaves the last cell. -/
theorem storeAt_getLast (mem m bytes : List Nat) (off : Nat)
    (h : storeAt mem off bytes = some m) (hlt : off + bytes.length < mem.length) :
    m.getLast? = mem.getLast? := by
  unfold storeAt at h
  split at h
  · cases h
    cases hd : mem.drop (off + bytes.length) with
    | nil =>
      have := List.drop_eq_nil_iff.1 hd
      omega
    | cons a rest =>
      have hsplit := List.take_append_drop (off + bytes.length) mem
      rw [hd] at hsplit
      have : mem.getLast? = (a :: rest).getLast? := by
        rw [← hsplit, List.getLast?_append]
        simp [List.getLast?_cons]
      rw [List.getLast?_append, ← this]
      cases hm : mem.getLast? with
      | none => rw [hm] at this; simp [List.getLast?_cons] at this
      | some z => rfl
  · cases h

theorem strncpy_length (src : List Nat) (n : Nat) : (strncpy src n).length = n := by
  simp only [strncpy, List.length_append, List.length_replicate, List.length_take]
  omega

theorem Load_Buf_With_Status_invariant (Percent : PWM_PIN → Nat) (P P1 : Comms_Payload)
    (calls : List Call) (h : Load_Buf_With_Status Percent P = some (P1, calls))
    (hlen : P.Buf.length = PAYLOAD_BUF_SIZE) (hlast : P.Buf.getLast? = some 0) :
    P1.Buf.length = PAYLOAD_BUF_SIZE ∧ P1.Buf.getLast? = some 0 := by
  unfold Load_Buf_With_Status at h
  dsimp only at h
  split at h
  · cases h
  rename_i B0 h0
  split at h
  · cases h
  rename_i B1 h1
  split at h
  · cases h
  rename_i n1 hn1
  split at h
  · cases h
  rename_i B2 h2
  split at h
  · cases h
  rename_i n2 hn2
  split at h
  · cases h
  rename_i B3 h3
  split at h
  · cases h
  rename_i n3 hn3
  split at h
  · cases h
  rename_i B4 h4
  split at h
  · cases h
  rename_i n4 hn4
  simp only [Option.some.injEq, Prod.mk.injEq] at h
  obtain ⟨hP, _⟩ := h
  rw [← hP]
  have hblock : ∀ val : Nat, dec val ++ [44, 0] = (dec val ++ [44]) ++ [0] := by
    intro val; simp
  simp only [sprintf_i_comma, hblock] at h1 h2 h3 h4
  have l0 := store_length _ _ _ _ h0
  have g0 := store_zero_getLast _ _ _ h0 (by rw [hlen]; decide)
  refine ⟨?_, ?_⟩
  · show B4.length = PAYLOAD_BUF_SIZE
    rw [storeAt_length _ _ _ _ h4, storeAt_length _ _ _ _ h3, storeAt_length _ _ _ _ h2,
      storeAt_length _ _ _ _ h1, l0, hlen]
  · show B4.getLast? = some 0
    apply storeAt_getLast_zero _ _ _ _ h4
    apply storeAt_getLast_zero _ _ _ _ h3
    apply storeAt_getLast_zero _ _ _ _ h2
    apply storeAt_getLast_zero _ _ _ _ h1
    rw [g0, hlast]

/-- Every call of `Command_Execute` keeps the static reply buffer at its size
and its last cell zero. -/
theorem Command_Execute_invariant (Percent : PWM_PIN → Nat) (str : List Nat)
    (p : Comms_Payload) (R : Reboot_Request_Type) (Cmd : Nat) (Payload : Comms_Payload)
    (r : Command_Result) (h : Command_Execute Percent str p R Cmd Payload = some r)
    (hlen : p.Buf.length = PAYLOAD_BUF_SIZE) (hlast : p.Buf.getLast? = some 0) :
    r.p.Buf.length = PAYLOAD_BUF_SIZE ∧ r.p.Buf.getLast? = some 0 := by
  have hone : 1 < p.Buf.length := by rw [hlen]; decide
  have hstore : ∀ v B0, store p.Buf 0 v = some B0 →
      B0.length = PAYLOAD_BUF_SIZE ∧ B0.getLast? = some 0 := by
    intro v B0 h0
    exact ⟨by rw [store_length _ _ _ _ h0, hlen], by rw [store_zero_getLast _ _ _ h0 hone, hlast]⟩
  unfold Command_Execute at h
  split at h
  · split at h
    · cases h
    rename_i B0 h0
    split at h
    · cases h
    rename_i B1 h1
    split at h
    · cases h
    cases h
    obtain ⟨l0, g0⟩ := hstore _ _ h0
    refine ⟨?_, ?_⟩
    · show B1.length = PAYLOAD_BUF_SIZE
      rw [storeAt_length _ _ _ _ h1, l0]
    · show B1.getLast? = some 0
      rw [storeAt_getLast _ _ _ _ h1 (by rw [strncpy_length, l0]; decide), g0]
  split at h
  · split at h
    · cases h
    · split at h
      · split at h
        · cases h
        rename_i B0 h0
        cases h
        exact hstore _ _ h0
      · cases h
    · split at h
      · cases h
      rename_i B0 h0
      cases h
      exact hstore _ _ h0
  split at h
  · split at h
    · cases h
    rename_i p1 calls hl
    cases h
    exact Load_Buf_With_Status_invariant Percent p p1 calls hl hlen hlast
  split at h
  · split at h
    · cases h
    split at h
    · split at h
      · cases h
      rename_i B0 h0
      cases h
      exact hstore _ _ h0
    · split at h
      · cases h
      rename_i B0 h0
      cases h
      exact hstore _ _ h0
  · split at h
    · cases h
    rename_i B0 h0
    cases h
    exact hstore _ _ h0

theorem Command_Execute_seq_invariant (str : List Nat) (prior : List Command_Input) :
    ∀ (p : Comms_Payload) (R : Reboot_Request_Type) (p1 : Comms_Payload)
      (R1 : Reboot_Request_Type),
    Command_Execute_seq str p R prior = some (p1, R1) →
    p.Buf.length = PAYLOAD_BUF_SIZE → p.Buf.getLast? = some 0 →
    p1.Buf.length = PAYLOAD_BUF_SIZE ∧ p1.Buf.getLast? = some 0 := by
  induction prior with
  | nil =>
    intro p R p1 R1 h hlen hlast
    simp only [Command_Execute_seq, Option.some.injEq, Prod.mk.injEq] at h
    rw [← h.1]
    exact ⟨hlen, hlast⟩
  | cons i rest ih =>
    intro p R p1 R1 h hlen hlast
    simp only [Command_Execute_seq] at h
    split at h
    · cases h
    rename_i r hr
    obtain ⟨l1, g1⟩ := Command_Execute_invariant _ _ _ _ _ _ r hr hlen hlast
    exact ih r.p r.R p1 R1 h l1 g1

/-- The firmware version reply on a static buffer whose last cell is zero. -/
theorem Command_Execute_fw (Percent : PWM_PIN → Nat) (str : List Nat) (p : Comms_Payload)
    (R : Reboot_Request_Type) (Payload : Comms_Payload)
    (hlen : p.Buf.length = PAYLOAD_BUF_SIZE) (hlast : p.Buf.getLast? = some 0)
    (h0 : 0 ∉ str) :
    Command_Execute Percent str p R COMMAND_FW_VER Payload =
      some { p := { Len := 1 + min str.length 28,
                    Buf := RESP_ACK :: (str.take 28 ++
                      0 :: List.replicate (28 - min str.length 28) 0) },
             R := R, calls := [] } := by
  obtain ⟨c0, tail0, hB⟩ : ∃ c0 tail0, p.Buf = c0 :: tail0 := by
    cases hb : p.Buf with
    | nil => rw [hb] at hlen; simp at hlen
    | cons c0 tail0 => exact ⟨c0, tail0, rfl⟩
  have ht0 : tail0.length = 29 := by
    rw [hB] at hlen
    simp only [List.length_cons, PAYLOAD_BUF_SIZE] at hlen
    omega
  have hdrop : tail0.drop 28 = [0] := by
    have hl : tail0.getLast? = some 0 := by
      rw [hB] at hlast
      cases tail0 with
      | nil => simp at ht0
      | cons a r => simpa [List.getLast?_cons_cons] using hlast
    have h1 : (tail0.drop 28).length = 1 := by rw [List.length_drop, ht0]
    have h2 : (tail0.drop 28).getLast? = some 0 := by
      rw [List.getLast?_drop, if_neg (by omega), hl]
    cases hd : tail0.drop 28 with
    | nil => rw [hd] at h1; simp at h1
    | cons a r =>
      rw [hd] at h1 h2
      cases r with
      | nil => simp at h2; rw [h2]
      | cons b r2 => simp at h1
  have hs : (str.takeWhile (fun c => decide (c ≠ 0))).take 28 = str.take 28 := by
    rw [takeWhile_all]
    intro c hc
    have : c ≠ 0 := fun h => h0 (h ▸ hc)
    simp [this]
  have hsl : (str.take 28).length = min str.length 28 := by
    rw [List.length_take, Nat.min_comm]
  have hzero : 0 ∉ str.take 28 := fun h => h0 (List.mem_of_mem_take h)
  have hst0 : store p.Buf 0 RESP_ACK = some ([RESP_ACK] ++ tail0) := by
    rw [store_zero _ _ hlen, hB]; rfl
  have hbytes : strncpy str (PAYLOAD_BUF_SIZE - 2) =
      str.take 28 ++ List.replicate (28 - min str.length 28) 0 := by
    have h28 : PAYLOAD_BUF_SIZE - 2 = 28 := rfl
    simp only [strncpy, h28, hs, hsl]
  have hst1 := storeAt_after [RESP_ACK] tail0 (strncpy str (PAYLOAD_BUF_SIZE - 2)) 1 rfl
    (by rw [strncpy_length, ht0]; decide)
  rw [strncpy_length] at hst1
  have hdrop2 : List.drop (PAYLOAD_BUF_SIZE - 2) tail0 = [0] := hdrop
  rw [hdrop2, hbytes] at hst1
  have hrep : ∀ k, List.replicate k 0 ++ [0] = 0 :: List.replicate k 0 := by
    intro k
    induction k with
    | zero => rfl
    | succ k ih => simp [List.replicate_succ, ih]
  have hshape : [RESP_ACK] ++ (str.take 28 ++ List.replicate (28 - min str.length 28) 0) ++ [0] =
      RESP_ACK :: (str.take 28 ++ 0 :: List.replicate (28 - min str.length 28) 0) := by
    simp only [List.cons_append, List.nil_append, List.append_assoc, hrep]
  rw [hshape] at hst1
  have hn := strlen_text RESP_ACK (str.take 28) (List.replicate (28 - min str.length 28) 0) hzero
  have hmod : ((str.take 28).length + 1) % 256 = 1 + min str.length 28 := by
    rw [hsl, Nat.add_comm]
    apply Nat.mod_eq_of_lt
    have := Nat.min_le_right str.length 28
    omega
  unfold Command_Execute
  rw [if_pos rfl, hst0]
  dsimp only
  rw [hbytes] at *
  rw [hst1]
  dsimp only
  rw [hn]
  dsimp only
  rw [hmod]

/-- C11: after any sequence of earlier `Command_Execute` calls on the static
reply buffer (zero at power-on), and whatever the received payload, the
firmware version command replies `RESP_ACK` followed by the first
`min(|s|, PAYLOAD_BUF_SIZE - 2)` characters of the version string `s`, with
`Len = 1 + min(|s|, 28)`. -/
theorem firmware_version_reply (str : List Nat) (prior : List Command_Input)
    (R0 R1 : Reboot_Request_Type) (p1 : Comms_Payload) (Percent : PWM_PIN → Nat)
    (Payload : Comms_Payload) (h0 : 0 ∉ str)
    (hseq : Command_Execute_seq str ⟨0, List.replicate PAYLOAD_BUF_SIZE 0⟩ R0 prior =
      some (p1, R1)) :
    ∃ r, Command_Execute Percent str p1 R1 COMMAND_FW_VER Payload = some r ∧
      r.p.Buf.take r.p.Len = RESP_ACK :: str.take (PAYLOAD_BUF_SIZE - 2) ∧
      r.p.Len = 1 + min str.length 28 ∧ r.calls = [] ∧ r.R = R1 := by
  obtain ⟨hlen, hlast⟩ := Command_Execute_seq_invariant str prior _ R0 p1 R1 hseq
    (by decide) (by decide)
  refine ⟨_, Command_Execute_fw Percent str p1 R1 Payload hlen hlast h0, ?_, rfl, rfl, rfl⟩
  have hsl : (str.take 28).length = min str.length 28 := by
    rw [List.length_take, Nat.min_comm]
  show List.take (1 + min str.length 28)
      (RESP_ACK :: (str.take 28 ++ 0 :: List.replicate (28 - min str.length 28) 0)) =
    RESP_ACK :: str.take 28
  rw [Nat.add_comm, List.take_succ_cons, ← hsl, List.take_append_of_le_length (le_refl _),
    List.take_length]

/-- C11, at an instance: the build's string `MCU_7960_USBv0.1`, after a Status
command that left `A255,255,255,255,` in the static buffer: the reply is `A`
and the 16 characters, with `Len = 17`. -/
theorem firmware_version_reply_witness :
    ∃ r, Command_Execute (fun _ => 0) Firmware_Version_Get
        ⟨17, bytesOf "A255,255,255,255," ++ List.replicate 13 0⟩ REBOOT_REQUEST_NONE
        COMMAND_FW_VER (payloadOf (bytesOf "ignored")) = some r ∧
      r.p.Buf.take r.p.Len = bytesOf "AMCU_7960_USBv0.1" ∧
      r.p.Len = 17 ∧ r.calls = [] ∧ r.R = REBOOT_REQUEST_NONE :=
  firmware_version_reply Firmware_Version_Get
    [⟨fun _ => 255, COMMAND_STATUS, payloadOf []⟩] REBOOT_REQUEST_NONE REBOOT_REQUEST_NONE
    ⟨17, bytesOf "A255,255,255,255," ++ List.replicate 13 0⟩ (fun _ => 0)
    (payloadOf (bytesOf "ignored")) (by decide) (by decide)

/-! ## SetOutputs and Status on the IO collaborator as a store -/

set_option maxRecDepth 100000 in
theorem dec_percent : ∀ v, v < 101 →
    dec v ≠ [] ∧ validToken (dec v) ∧ digitsValue (dec v) = v ∧ 1 ≤ (dec v).length := by
  decide

theorem valid_no_comma (t : List Nat) (hv : validToken t) : 44 ∉ t := by
  intro h
  have := hv.2.1 44 h
  omega

theorem payloadOf_bytes (bytes : List Nat) :
    (payloadOf bytes).Buf.take (payloadOf bytes).Len = bytes := by
  simp only [payloadOf]
  rw [List.take_append_of_le_length (le_refl _), List.take_length]

/-- What `Command_Execute` does with a SetOutputs payload whose first four
pieces are accepted tokens. -/
theorem Command_Execute_set_outputs (Percent : PWM_PIN → Nat) (str : List Nat)
    (p : Comms_Payload) (R : Reboot_Request_Type) (Payload : Comms_Payload)
    (t1 t2 t3 t4 : List Nat) (rest : List (List Nat)) (hp : p.Buf.length = PAYLOAD_BUF_SIZE)
    (hLen : 7 ≤ Payload.Len ∧ Payload.Len ≤ 15)
    (hsplit : splitOnComma (Payload.Buf.take Payload.Len) = t1 :: t2 :: t3 :: t4 :: rest)
    (h1 : t1 ≠ [] ∧ validToken t1) (h2 : t2 ≠ [] ∧ validToken t2)
    (h3 : t3 ≠ [] ∧ validToken t3) (h4 : t4 ≠ [] ∧ validToken t4) :
    Command_Execute Percent str p R COMMAND_SET_OUTPUTS Payload =
      some { p := { Len := 1, Buf := p.Buf.set 0 RESP_ACK }, R := R,
             calls := [Call.IO_Set_PWM_Percent (digitsValue t1) ENA_L,
                       Call.IO_Set_PWM_Percent (digitsValue t2) ENA_R,
                       Call.IO_Set_PWM_Percent (digitsValue t3) PWM_L,
                       Call.IO_Set_PWM_Percent (digitsValue t4) PWM_R] } := by
  have hG := Get_PWMs_From_Payload_accepts Payload t1 t2 t3 t4 rest hLen hsplit h1 h2 h3 h4
  have h0 := store_zero p.Buf RESP_ACK hp
  simp [Command_Execute, hG, h0]

theorem channelsAfter_set_four (ch : PWM_PIN → Nat) (v1 v2 v3 v4 : Nat) :
    channelsAfter ch [Call.IO_Set_PWM_Percent v1 ENA_L, Call.IO_Set_PWM_Percent v2 ENA_R,
        Call.IO_Set_PWM_Percent v3 PWM_L, Call.IO_Set_PWM_Percent v4 PWM_R] =
      fun pin => match pin with
        | ENA_L => v1
        | ENA_R => v2
        | PWM_L => v3
        | PWM_R => v4 := by
  funext pin
  cases pin <;> simp [channelsAfter, applyCall]

/-- The payload made of four values in decimal with commas between is of a
length from 7 to 15 and splits into the four. -/
theorem split_four_dec (v1 v2 v3 v4 : Nat) (h1 : v1 < 101) (h2 : v2 < 101) (h3 : v3 < 101)
    (h4 : v4 < 101) :
    7 ≤ (dec v1 ++ 44 :: (dec v2 ++ 44 :: (dec v3 ++ 44 :: dec v4))).length ∧
    (dec v1 ++ 44 :: (dec v2 ++ 44 :: (dec v3 ++ 44 :: dec v4))).length ≤ 15 ∧
    splitOnComma (dec v1 ++ 44 :: (dec v2 ++ 44 :: (dec v3 ++ 44 :: dec v4))) =
      [dec v1, dec v2, dec v3, dec v4] := by
  obtain ⟨_, a2, _, a4⟩ := dec_percent v1 h1
  obtain ⟨_, b2, _, b4⟩ := dec_percent v2 h2
  obtain ⟨_, c2, _, c4⟩ := dec_percent v3 h3
  obtain ⟨_, d2, _, d4⟩ := dec_percent v4 h4
  have la := a2.1
  have lb := b2.1
  have lc := c2.1
  have ld := d2.1
  refine ⟨?_, ?_, ?_⟩
  · simp only [List.length_append, List.length_cons]; omega
  · simp only [List.length_append, List.length_cons]; omega
  · rw [splitOnComma_append_comma _ _ (valid_no_comma _ a2),
      splitOnComma_append_comma _ _ (valid_no_comma _ b2),
      splitOnComma_append_comma _ _ (valid_no_comma _ c2),
      splitOnComma_no_comma _ (valid_no_comma _ d2)]

/-- C15: with the IO collaborator as a store, SetOutputs with the payload made
of four values from 0 to 100 in decimal, with commas between, replies
`RESP_ACK` with `Len = 1`, and a Status command after it replies `A` followed
by the four values in decimal, each followed by a comma. -/
theorem set_outputs_then_status (ch : PWM_PIN → Nat) (str : List Nat) (p : Comms_Payload)
    (R : Reboot_Request_Type) (Payload2 : Comms_Payload) (v1 v2 v3 v4 : Nat)
    (hp : p.Buf.length = PAYLOAD_BUF_SIZE)
    (h1 : v1 ≤ 100) (h2 : v2 ≤ 100) (h3 : v3 ≤ 100) (h4 : v4 ≤ 100) :
    ∃ r1, Command_Execute ch str p R COMMAND_SET_OUTPUTS
        (payloadOf (dec v1 ++ 44 :: (dec v2 ++ 44 :: (dec v3 ++ 44 :: dec v4)))) = some r1 ∧
      r1.p.Buf[0]? = some RESP_ACK ∧ r1.p.Len = 1 ∧
      ∃ r2, Command_Execute (channelsAfter ch r1.calls) str r1.p r1.R COMMAND_STATUS Payload2 =
          some r2 ∧
        r2.p.Buf.take r2.p.Len =
          RESP_ACK :: (dec v1 ++ [44] ++ dec v2 ++ [44] ++ dec v3 ++ [44] ++ dec v4 ++ [44]) := by
  obtain ⟨a1, a2, a3, _⟩ := dec_percent v1 (by omega)
  obtain ⟨b1, b2, b3, _⟩ := dec_percent v2 (by omega)
  obtain ⟨c1, c2, c3, _⟩ := dec_percent v3 (by omega)
  obtain ⟨d1, d2, d3, _⟩ := dec_percent v4 (by omega)
  obtain ⟨hl7, hl15, hsp⟩ := split_four_dec v1 v2 v3 v4 (by omega) (by omega) (by omega)
    (by omega)
  have hset := Command_Execute_set_outputs ch str p R
    (payloadOf (dec v1 ++ 44 :: (dec v2 ++ 44 :: (dec v3 ++ 44 :: dec v4))))
    (dec v1) (dec v2) (dec v3) (dec v4) [] hp ⟨hl7, hl15⟩
    (by rw [payloadOf_bytes]; exact hsp) ⟨a1, a2⟩ ⟨b1, b2⟩ ⟨c1, c2⟩ ⟨d1, d2⟩
  rw [a3, b3, c3, d3] at hset
  have h0 := store_zero p.Buf RESP_ACK hp
  refine ⟨_, hset, store_head _ _ _ h0, rfl, ?_⟩
  have hp1 : (p.Buf.set 0 RESP_ACK).length = PAYLOAD_BUF_SIZE := by
    rw [List.length_set]; exact hp
  obtain ⟨rest, hl⟩ := Load_Buf_With_Status_eq
    (fun pin => match pin with
      | ENA_L => v1
      | ENA_R => v2
      | PWM_L => v3
      | PWM_R => v4)
    ⟨1, p.Buf.set 0 RESP_ACK⟩ hp1 (by intro pin; cases pin <;> simp only <;> omega)
  dsimp only at hl
  have hCE2 : Command_Execute
      (channelsAfter ch [Call.IO_Set_PWM_Percent v1 ENA_L, Call.IO_Set_PWM_Percent v2 ENA_R,
        Call.IO_Set_PWM_Percent v3 PWM_L, Call.IO_Set_PWM_Percent v4 PWM_R])
      str ⟨1, p.Buf.set 0 RESP_ACK⟩ R COMMAND_STATUS Payload2 =
      some ⟨⟨1 + (dec v1 ++ [44] ++ dec v2 ++ [44] ++ dec v3 ++ [44] ++ dec v4 ++ [44]).length,
             RESP_ACK :: ((dec v1 ++ [44] ++ dec v2 ++ [44] ++ dec v3 ++ [44] ++ dec v4 ++ [44])
               ++ 0 :: rest)⟩, R,
            [Call.IO_Get_PWM_Percent ENA_L, Call.IO_Get_PWM_Percent ENA_R,
             Call.IO_Get_PWM_Percent PWM_L, Call.IO_Get_PWM_Percent PWM_R]⟩ := by
    rw [channelsAfter_set_four]
    unfold Command_Execute
    rw [if_neg (by decide), if_neg (by decide), if_pos rfl, hl]
  refine ⟨_, hCE2, ?_⟩
  dsimp only
  rw [Nat.add_comm 1, List.take_succ_cons, List.take_append_of_le_length (le_refl _),
    List.take_length]

/-- C15, at an instance: SetOutputs with `50,50,50,50`, then Status, which
replies `A50,50,50,50,`. -/
theorem set_outputs_then_status_witness :
    ∃ r1, Command_Execute (fun _ => 0) Firmware_Version_Get (payloadOf []) REBOOT_REQUEST_NONE
        COMMAND_SET_OUTPUTS (payloadOf (bytesOf "50,50,50,50")) = some r1 ∧
      r1.p.Buf[0]? = some RESP_ACK ∧ r1.p.Len = 1 ∧
      ∃ r2, Command_Execute (channelsAfter (fun _ => 0) r1.calls) Firmware_Version_Get r1.p r1.R
          COMMAND_STATUS (payloadOf []) = some r2 ∧
        r2.p.Buf.take r2.p.Len = bytesOf "A50,50,50,50," :=
  set_outputs_then_status (fun _ => 0) Firmware_Version_Get (payloadOf []) REBOOT_REQUEST_NONE
    (payloadOf []) 50 50 50 50 (by decide) (by decide) (by decide) (by decide) (by decide)

/-- C20: with the IO collaborator as a store, a valid SetOutputs payload
executed twice in a row leaves after the second call the channel values that
the first call left, and both calls return the same reply, `RESP_ACK` with
`Len = 1`. -/
theorem set_outputs_idempotent (ch : PWM_PIN → Nat) (str : List Nat) (p : Comms_Payload)
    (R : Reboot_Request_Type) (Payload : Comms_Payload) (t1 t2 t3 t4 : List Nat)
    (rest : List (List Nat)) (hp : p.Buf.length = PAYLOAD_BUF_SIZE)
    (hLen : 7 ≤ Payload.Len ∧ Payload.Len ≤ 15)
    (hsplit : splitOnComma (Payload.Buf.take Payload.Len) = t1 :: t2 :: t3 :: t4 :: rest)
    (h1 : t1 ≠ [] ∧ validToken t1) (h2 : t2 ≠ [] ∧ validToken t2)
    (h3 : t3 ≠ [] ∧ validToken t3) (h4 : t4 ≠ [] ∧ validToken t4) :
    ∃ r1 r2, Command_Execute ch str p R COMMAND_SET_OUTPUTS Payload = some r1 ∧
      Command_Execute (channelsAfter ch r1.calls) str r1.p r1.R COMMAND_SET_OUTPUTS Payload =
        some r2 ∧
      channelsAfter (channelsAfter ch r1.calls) r2.calls = channelsAfter ch r1.calls ∧
      r2.p = r1.p ∧ r1.p.Buf[0]? = some RESP_ACK ∧ r1.p.Len = 1 ∧ r2.R = r1.R := by
  have e1 := Command_Execute_set_outputs ch str p R Payload t1 t2 t3 t4 rest hp hLen hsplit
    h1 h2 h3 h4
  have hp1 : (p.Buf.set 0 RESP_ACK).length = PAYLOAD_BUF_SIZE := by
    rw [List.length_set]; exact hp
  have e2 := Command_Execute_set_outputs
    (channelsAfter ch [Call.IO_Set_PWM_Percent (digitsValue t1) ENA_L,
      Call.IO_Set_PWM_Percent (digitsValue t2) ENA_R,
      Call.IO_Set_PWM_Percent (digitsValue t3) PWM_L,
      Call.IO_Set_PWM_Percent (digitsValue t4) PWM_R])
    str ⟨1, p.Buf.set 0 RESP_ACK⟩ R Payload t1 t2 t3 t4 rest hp1 hLen hsplit h1 h2 h3 h4
  have h0 := store_zero p.Buf RESP_ACK hp
  refine ⟨_, _, e1, e2, ?_, ?_, store_head _ _ _ h0, rfl, rfl⟩
  · dsimp only
    rw [channelsAfter_set_four, channelsAfter_set_four]
  · show (⟨1, (p.Buf.set 0 RESP_ACK).set 0 RESP_ACK⟩ : Comms_Payload) = ⟨1, p.Buf.set 0 RESP_ACK⟩
    rw [List.set_set]

/-- C20, at an instance: the payload `100,0,50,7` twice, from channels all at 9. -/
theorem set_outputs_idempotent_witness :
    ∃ r1 r2, Command_Execute (fun _ => 9) Firmware_Version_Get (payloadOf [])
        REBOOT_REQUEST_NONE COMMAND_SET_OUTPUTS (payloadOf (bytesOf "100,0,50,7")) = some r1 ∧
      Command_Execute (channelsAfter (fun _ => 9) r1.calls) Firmware_Version_Get r1.p r1.R
        COMMAND_SET_OUTPUTS (payloadOf (bytesOf "100,0,50,7")) = some r2 ∧
      channelsAfter (channelsAfter (fun _ => 9) r1.calls) r2.calls =
        channelsAfter (fun _ => 9) r1.calls ∧
      r2.p = r1.p ∧ r1.p.Buf[0]? = some RESP_ACK ∧ r1.p.Len = 1 ∧ r2.R = r1.R :=
  set_outputs_idempotent (fun _ => 9) Firmware_Version_Get (payloadOf []) REBOOT_REQUEST_NONE
    (payloadOf (bytesOf "100,0,50,7")) (bytesOf "100") (bytesOf "0") (bytesOf "50")
    (bytesOf "7") [] (by decide) (by decide) (by decide) (by decide) (by decide) (by decide)
    (by decide)

/-- C19: for SetOutputs payloads of length 7 to 15 whose first four pieces
between commas are the same accepted tokens, `Get_PWMs_From_Payload` returns
true with the four values stored, whatever follows the fourth piece: two
payloads that differ only after it get the same result. -/
theorem later_tokens_ignored (P Q : Comms_Payload) (t1 t2 t3 t4 : List Nat)
    (restP restQ : List (List Nat))
    (hP : 7 ≤ P.Len ∧ P.Len ≤ 15) (hQ : 7 ≤ Q.Len ∧ Q.Len ≤ 15)
    (hsP : splitOnComma (P.Buf.take P.Len) = t1 :: t2 :: t3 :: t4 :: restP)
    (hsQ : splitOnComma (Q.Buf.take Q.Len) = t1 :: t2 :: t3 :: t4 :: restQ)
    (h1 : t1 ≠ [] ∧ validToken t1) (h2 : t2 ≠ [] ∧ validToken t2)
    (h3 : t3 ≠ [] ∧ validToken t3) (h4 : t4 ≠ [] ∧ validToken t4) :
    Get_PWMs_From_Payload [none, none, none, none] P =
      some (true, [some (digitsValue t1), some (digitsValue t2), some (digitsValue t3),
                   some (digitsValue t4)]) ∧
    Get_PWMs_From_Payload [none, none, none, none] Q =
      Get_PWMs_From_Payload [none, none, none, none] P := by
  have eP := Get_PWMs_From_Payload_accepts P t1 t2 t3 t4 restP hP hsP h1 h2 h3 h4
  have eQ := Get_PWMs_From_Payload_accepts Q t1 t2 t3 t4 restQ hQ hsQ h1 h2 h3 h4
  exact ⟨eP, by rw [eP, eQ]⟩

/-- C19, at an instance: the payloads `1,2,3,4,5,x` and `1,2,3,4` both give
true with the values 1, 2, 3, 4. -/
theorem later_tokens_ignored_witness :
    Get_PWMs_From_Payload [none, none, none, none] (payloadOf (bytesOf "1,2,3,4,5,x")) =
      some (true, [some 1, some 2, some 3, some 4]) ∧
    Get_PWMs_From_Payload [none, none, none, none] (payloadOf (bytesOf "1,2,3,4")) =
      Get_PWMs_From_Payload [none, none, none, none] (payloadOf (bytesOf "1,2,3,4,5,x")) :=
  later_tokens_ignored (payloadOf (bytesOf "1,2,3,4,5,x")) (payloadOf (bytesOf "1,2,3,4"))
    (bytesOf "1") (bytesOf "2") (bytesOf "3") (bytesOf "4") [bytesOf "5", bytesOf "x"] []
    (by decide) (by decide) (by decide) (by decide) (by decide) (by decide) (by decide)
    (by decide)

/-! ## A payload that runs out of tokens -/

/-- C18, the code at the payload `100,100`: after the two tokens `strtok`
returns the null pointer, and the third iteration of the loop passes it to
`strlen`; `Get_PWMs_From_Payload` and `Command_Execute` leave the defined
behaviour of C instead of returning false and `RESP_INV_PAYLOAD`. -/
theorem missing_token_dereferenced :
    tokens ((payloadOf (bytesOf "100,100")).Buf.take 7) = [bytesOf "100", bytesOf "100"] ∧
    Get_PWMs_From_Payload [none, none, none, none] (payloadOf (bytesOf "100,100")) = none ∧
    Command_Execute (fun _ => 0) Firmware_Version_Get (payloadOf []) REBOOT_REQUEST_NONE
      COMMAND_SET_OUTPUTS (payloadOf (bytesOf "100,100")) = none := by
  decide

theorem strlen_le (mem : List Nat) (off n : Nat) (h : strlen mem off = some n) :
    n ≤ mem.length := by
  unfold strlen at h
  split at h
  · simp only [Option.some.injEq] at h
    rw [← h]
    unfold cstring
    have h1 := (@List.takeWhile_sublist _ (mem.drop off) (fun c => decide (c ≠ 0))).length_le
    rw [List.length_drop] at h1
    omega
  · cases h

/-- The `Len` of a reply that `Command_Execute` returns is at least 1. -/
theorem Command_Execute_Len_pos (Percent : PWM_PIN → Nat) (str : List Nat)
    (p : Comms_Payload) (R : Reboot_Request_Type) (Cmd : Nat) (Payload : Comms_Payload)
    (r : Command_Result) (h : Command_Execute Percent str p R Cmd Payload = some r)
    (hlen : p.Buf.length = PAYLOAD_BUF_SIZE) : 1 ≤ r.p.Len := by
  have hmod : ∀ B : List Nat, B.length = PAYLOAD_BUF_SIZE → ∀ n, strlen B 1 = some n →
      1 ≤ (n + 1) % 256 := by
    intro B hB n hn
    have := strlen_le B 1 n hn
    rw [hB] at this
    have h30 : n ≤ 30 := this
    rw [Nat.mod_eq_of_lt (by omega)]
    omega
  unfold Command_Execute at h
  split at h
  · split at h
    · cases h
    rename_i B0 h0
    split at h
    · cases h
    rename_i B1 h1
    split at h
    · cases h
    rename_i n hn
    cases h
    exact hmod B1 (by rw [storeAt_length _ _ _ _ h1, store_length _ _ _ _ h0, hlen]) n hn
  split at h
  · split at h
    · cases h
    · split at h
      · split at h
        · cases h
        cases h
        exact le_refl _
      · cases h
    · split at h
      · cases h
      cases h
      exact le_refl _
  split at h
  · split at h
    · cases h
    rename_i p1 calls hl
    cases h
    show 1 ≤ p1.Len
    unfold Load_Buf_With_Status at hl
    dsimp only at hl
    split at hl
    · cases hl
    rename_i B0 h0
    split at hl
    · cases hl
    rename_i B1 h1
    split at hl
    · cases hl
    split at hl
    · cases hl
    rename_i B2 h2
    split at hl
    · cases hl
    split at hl
    · cases hl
    rename_i B3 h3
    split at hl
    · cases hl
    split at hl
    · cases hl
    rename_i B4 h4
    split at hl
    · cases hl
    rename_i n4 hn4
    simp only [Option.some.injEq, Prod.mk.injEq] at hl
    rw [← hl.1]
    simp only [sprintf_i_comma] at h1 h2 h3 h4
    show 1 ≤ (1 + n4) % 256
    rw [Nat.add_comm]
    exact hmod B4 (by rw [storeAt_length _ _ _ _ h4, storeAt_length _ _ _ _ h3,
      storeAt_length _ _ _ _ h2, storeAt_length _ _ _ _ h1, store_length _ _ _ _ h0, hlen]) n4 hn4
  split at h
  · split at h
    · cases h
    split at h
    · split at h
      · cases h
      cases h
      exact le_refl _
    · split at h
      · cases h
      cases h
      exact le_refl _
  · split at h
    · cases h
    cases h
    exact le_refl _

/-- C14, the code: a reply that `Command_Execute` returns has `Len` at least 1
and one of the three codes in `Buf[0]`, and for the packet `{S}`
`Packet_Received` transmits the framed reply; but for the packet `{O100,100}`
`Command_Execute` returns no reply, because it leaves the defined behaviour of
C in `Get_PWMs_From_Payload`, so `Packet_Received` transmits nothing that is
defined. -/
theorem Packet_Received_without_reply :
    (∀ (Percent : PWM_PIN → Nat) (str : List Nat) (p : Comms_Payload)
        (R : Reboot_Request_Type) (Cmd : Nat) (Payload : Comms_Payload) (r : Command_Result),
      p.Buf.length = PAYLOAD_BUF_SIZE →
      Command_Execute Percent str p R Cmd Payload = some r →
      1 ≤ r.p.Len ∧ (r.p.Buf[0]? = some RESP_ACK ∨ r.p.Buf[0]? = some RESP_INV_PAYLOAD ∨
        r.p.Buf[0]? = some RESP_INV_COMMAND)) ∧
    (Packet_Received (Controller_reset (fun _ => 0))
        ⟨SOP_BYTE, COMMAND_STATUS, payloadOf [], EOP_BYTE⟩).map Prod.snd =
      some [Trace.Command_Execute COMMAND_STATUS (payloadOf []),
            Trace.CDC_Transmit_FS (bytesOf "\x7bSA0,0,0,0,\x7d\n\r")] ∧
    Packet_Received (Controller_reset (fun _ => 0))
      ⟨SOP_BYTE, COMMAND_SET_OUTPUTS, payloadOf (bytesOf "100,100"), EOP_BYTE⟩ = none := by
  refine ⟨?_, by decide, rfl⟩
  intro Percent str p R Cmd Payload r hlen h
  refine ⟨Command_Execute_Len_pos Percent str p R Cmd Payload r h hlen, ?_⟩
  rcases Command_Execute_code Percent str p R Cmd Payload r h with h1 | h1 | h1
  · exact Or.inl h1.1
  · exact Or.inr (Or.inl h1.1)
  · exact Or.inr (Or.inr h1.1)

/-- C16, the code at two buffers, after `Comms_Controller_Initialise` at 1 ms
per timer interrupt. The two frames `{O50,50,50,50}{S}` are executed and
answered in order. The frame `{O100,100}` is dispatched, but
`Command_Execute` leaves the defined behaviour of C in `Get_PWMs_From_Payload`
and no framed response is defined. -/
theorem Bytes_Received_undefined_frame :
    ∃ c, Comms_Controller_Initialise (Controller_reset (fun _ => 0)) 1 = some (c, 500) ∧
      c.RX.Expect = EXPECT_SOP ∧ c.RX.Packet_Ready = true ∧
      (Comms_Controller_Bytes_Received c (bytesOf "\x7bO50,50,50,50\x7d\x7bS\x7d")).map Prod.snd =
        some [Trace.Command_Execute COMMAND_SET_OUTPUTS (payloadOf (bytesOf "50,50,50,50")),
              Trace.CDC_Transmit_FS (bytesOf "\x7bOA\x7d\n\r"),
              Trace.Command_Execute COMMAND_STATUS
                ⟨0, bytesOf "50,50,50,50" ++ List.replicate 19 0⟩,
              Trace.CDC_Transmit_FS (bytesOf "\x7bSA50,50,50,50,\x7d\n\r")] ∧
      Comms_Controller_Bytes_Received c (bytesOf "\x7bO100,100\x7d") = none := by
  refine ⟨{ Controller_reset (fun _ => 0) with
            RX := { (Controller_reset (fun _ => 0)).RX with
                    Expect := EXPECT_SOP, Packet_Ready := true } }, ?_, rfl, rfl, ?_, ?_⟩
  · simp only [Comms_Controller_Initialise, Comms_RX_Initialise_one]
  · decide
  · rfl

/-! ## The timeout in timer interrupts -/

/-- C21, refuted as stated: with 3 ms per tick the quotient in `float` is
10922667 / 65536, a little above 166.6, and `Comms_RX_Initialise` sets the
timeout to 166 ticks, whereas the ceiling of 500 / 3 is 167. -/
theorem timeout_ticks_not_ceil :
    Comms_RX_Initialise ⟨EXPECT_UNDEFINED, 0, false, ⟨0, 0, ⟨0, List.replicate 30 0⟩, 0⟩, 0⟩
        true 3 =
      some (⟨EXPECT_SOP, 0, true, ⟨0, 0, ⟨0, List.replicate 30 0⟩, 0⟩, 0⟩, 166) ∧
    ⌈(BYTE_TIMEOUT_MS : ℚ) / 3⌉₊ = 167 := by
  constructor
  · exact Comms_RX_Initialise_eq _ true 3 (10922667 / 65536) 166 (by norm_num)
      float_div_three (by norm_num) (by norm_num) (by norm_num)
  · rw [Nat.ceil_eq_iff (by norm_num)]
    norm_num

/-- C21, amended: for every positive `float` `t` of milliseconds per tick for
which the quotient of the division in `float` is below 65536,
`Comms_RX_Initialise` returns, sets `Expect` to `EXPECT_SOP`, registers the
callback and sets `Byte_Timeout_Ints` to that quotient with its fraction
dropped; the value lies between the floor and the ceiling of the exact
500 / t. -/
theorem timeout_ticks_truncated_quotient (RX : Comms_RX_Typedef) (cb : Bool) (t : ℚ)
    (ht : 0 < t) (hfit : float_div (BYTE_TIMEOUT_MS : ℚ) t < 65536) :
    Comms_RX_Initialise RX cb t =
      some ({ RX with Expect := EXPECT_SOP, Packet_Ready := cb },
        ⌊float_div (BYTE_TIMEOUT_MS : ℚ) t⌋₊) ∧
    ⌊(BYTE_TIMEOUT_MS : ℚ) / t⌋₊ ≤ ⌊float_div (BYTE_TIMEOUT_MS : ℚ) t⌋₊ ∧
    ⌊float_div (BYTE_TIMEOUT_MS : ℚ) t⌋₊ ≤ ⌈(BYTE_TIMEOUT_MS : ℚ) / t⌉₊ := by
  have hx : (0 : ℚ) < (BYTE_TIMEOUT_MS : ℚ) / t := by
    have : (0 : ℚ) < (BYTE_TIMEOUT_MS : ℚ) := by norm_num
    positivity
  have hE := float_exponent_small _ hx hfit
  have lo : ((⌊(BYTE_TIMEOUT_MS : ℚ) / t⌋ : ℤ) : ℚ) ≤ float_div (BYTE_TIMEOUT_MS : ℚ) t :=
    (round_float_bracket _ _ (le_of_lt hx) hE).1 (Int.floor_le _)
  have hi : float_div (BYTE_TIMEOUT_MS : ℚ) t ≤ ((⌈(BYTE_TIMEOUT_MS : ℚ) / t⌉ : ℤ) : ℚ) :=
    (round_float_bracket _ _ (le_of_lt hx) hE).2 (Int.le_ceil _)
  have hfl0 : (0 : ℤ) ≤ ⌊(BYTE_TIMEOUT_MS : ℚ) / t⌋ := Int.floor_nonneg.mpr (le_of_lt hx)
  have hq0 : (0 : ℚ) ≤ float_div (BYTE_TIMEOUT_MS : ℚ) t :=
    le_trans (by exact_mod_cast hfl0) lo
  refine ⟨?_, ?_, ?_⟩
  · unfold Comms_RX_Initialise
    rw [if_neg (ne_of_gt ht)]
    dsimp only
    rw [if_neg (by push_neg; constructor <;> linarith), Int.floor_toNat]
  · rw [← Int.floor_toNat, ← Int.floor_toNat]
    exact Int.toNat_le_toNat (Int.le_floor.mpr lo)
  · rw [← Int.floor_toNat, ← Int.ceil_toNat]
    exact Int.toNat_le_toNat (Int.cast_le.mp (le_trans (Int.floor_le _) hi))

/-- C21, at an instance: the `float` nearest to 0.1, which is
13421773 / 134217728. The exact quotient is a little below 5000, the quotient
in `float` is 5000, and the timeout is 5000 ticks. -/
theorem timeout_ticks_truncated_quotient_witness :
    (Comms_RX_Initialise ⟨EXPECT_UNDEFINED, 0, false, ⟨0, 0, ⟨0, List.replicate 30 0⟩, 0⟩, 0⟩
        true (13421773 / 134217728) =
      some ({ (⟨EXPECT_UNDEFINED, 0, false, ⟨0, 0, ⟨0, List.replicate 30 0⟩, 0⟩, 0⟩ :
                Comms_RX_Typedef) with Expect := EXPECT_SOP, Packet_Ready := true },
        ⌊float_div (BYTE_TIMEOUT_MS : ℚ) (13421773 / 134217728)⌋₊) ∧
      ⌊(BYTE_TIMEOUT_MS : ℚ) / (13421773 / 134217728)⌋₊ ≤
        ⌊float_div (BYTE_TIMEOUT_MS : ℚ) (13421773 / 134217728)⌋₊ ∧
      ⌊float_div (BYTE_TIMEOUT_MS : ℚ) (13421773 / 134217728)⌋₊ ≤
        ⌈(BYTE_TIMEOUT_MS : ℚ) / (13421773 / 134217728)⌉₊) ∧
    ⌊float_div (BYTE_TIMEOUT_MS : ℚ) (13421773 / 134217728)⌋₊ = 5000 ∧
    ⌊(BYTE_TIMEOUT_MS : ℚ) / (13421773 / 134217728)⌋₊ = 4999 := by
  have h500 : ((BYTE_TIMEOUT_MS : Nat) : ℚ) = 500 := by norm_num
  have hq : float_div (BYTE_TIMEOUT_MS : ℚ) (13421773 / 134217728) = 5000 := by
    rw [h500]
    exact float_div_tenth
  refine ⟨timeout_ticks_truncated_quotient _ true (13421773 / 134217728) (by norm_num)
    (by rw [hq]; norm_num), ?_, ?_⟩
  · rw [hq]
    exact Nat.floor_ofNat 5000
  · rw [Nat.floor_eq_iff (by norm_num)]
    norm_num

/-! ## The receive function against the transition table -/

/-- C22, refuted as stated: in `EXPECT_PAYLOAD` with no callback registered
(`Packet_Ready` null) the byte `}` moves to `EXPECT_SOP` without a packet being
handed over, whereas the transition table emits the packet. -/
theorem end_marker_without_callback :
    Comms_RX_Receive_Byte
        ⟨EXPECT_PAYLOAD, 1, false, ⟨SOP_BYTE, COMMAND_STATUS, ⟨0, 7 :: List.replicate 29 0⟩, 0⟩, 0⟩
        EOP_BYTE =
      some (⟨EXPECT_SOP, 1, false, ⟨SOP_BYTE, COMMAND_STATUS, ⟨0, 7 :: List.replicate 29 0⟩, 0⟩,
        0⟩, []) ∧
    (spec_on_byte (absFramer
        ⟨EXPECT_PAYLOAD, 1, false, ⟨SOP_BYTE, COMMAND_STATUS, ⟨0, 7 :: List.replicate 29 0⟩, 0⟩,
          0⟩) EOP_BYTE).2 = some (COMMAND_STATUS, [7]) := by
  decide

/-- C22, amended: for every receive object with `Expect` at `EXPECT_SOP`,
`EXPECT_COMMAND` or `EXPECT_PAYLOAD`, a payload buffer of `PAYLOAD_BUF_SIZE`
cells and, in `EXPECT_PAYLOAD`, `Running_Len` up to `PAYLOAD_BUF_SIZE`, and for
every byte, `Comms_RX_Receive_Byte` returns, its next state is the one the
transition table of §4.1 gives (state, command, stored payload and inactivity
counter), and the packets handed to the callback are the packet the table
emits when a callback is registered, and none when `Packet_Ready` is null. -/
theorem Receive_Byte_refines_table (RX : Comms_RX_Typedef) (This_Byte : Nat)
    (hE : RX.Expect = EXPECT_SOP ∨ RX.Expect = EXPECT_COMMAND ∨ RX.Expect = EXPECT_PAYLOAD)
    (hlen : RX.Packet.Payload.Buf.length = PAYLOAD_BUF_SIZE)
    (hrun : RX.Expect = EXPECT_PAYLOAD → RX.Running_Len ≤ PAYLOAD_BUF_SIZE) :
    ∃ RX1 out, Comms_RX_Receive_Byte RX This_Byte = some (RX1, out) ∧
      absFramer RX1 = (spec_on_byte (absFramer RX) This_Byte).1 ∧
      out.map absPacket =
        (if RX.Packet_Ready then (spec_on_byte (absFramer RX) This_Byte).2.toList else []) ∧
      (RX.Expect = EXPECT_SOP → This_Byte ≠ SOP_BYTE → RX1 = RX) ∧
      (∀ Pkt ∈ out, Pkt.Payload.Len = RX.Running_Len) := by
  have h30 : RX.Packet.Payload.Buf.length = 30 := hlen
  rcases hE with h | h | h
  · by_cases hb : This_Byte = SOP_BYTE
    · have e : Comms_RX_Receive_Byte RX This_Byte =
          some ({ RX with Expect := EXPECT_COMMAND, Byte_Timer := 0,
                          Packet := { RX.Packet with SOP := This_Byte } }, []) := by
        unfold Comms_RX_Receive_Byte
        rw [if_pos h, if_pos hb]
      refine ⟨_, _, e, ?_, ?_, ?_, ?_⟩
      · simp [spec_on_byte, absFramer, absState, h, hb]
      · simp [spec_on_byte, absFramer, absState, h, hb]
      · intro h1 h2
        exact absurd hb h2
      · intro Pkt hP
        exact absurd hP (List.not_mem_nil _)
    · have e : Comms_RX_Receive_Byte RX This_Byte = some (RX, []) := by
        unfold Comms_RX_Receive_Byte
        rw [if_pos h, if_neg hb]
      refine ⟨_, _, e, ?_, ?_, ?_, ?_⟩
      · simp [spec_on_byte, absFramer, absState, h, hb]
      · simp [spec_on_byte, absFramer, absState, h, hb]
      · intro h1 h2
        rfl
      · intro Pkt hP
        exact absurd hP (List.not_mem_nil _)
  · have e : Comms_RX_Receive_Byte RX This_Byte =
        some ({ RX with Packet := { RX.Packet with Command := This_Byte },
                        Expect := EXPECT_PAYLOAD, Running_Len := 0, Byte_Timer := 0 }, []) := by
      unfold Comms_RX_Receive_Byte
      rw [h, if_neg (by decide), if_pos rfl]
    refine ⟨_, _, e, ?_, ?_, ?_, ?_⟩
    · simp [spec_on_byte, absFramer, absState, h]
    · simp [spec_on_byte, absFramer, absState, h]
    · intro h1 h2
      rw [h] at h1
      cases h1
    · intro Pkt hP
      exact absurd hP (List.not_mem_nil _)
  · have hr : RX.Running_Len ≤ 30 := hrun h
    have htl : (RX.Packet.Payload.Buf.take RX.Running_Len).length = RX.Running_Len := by
      rw [List.length_take, h30]
      omega
    by_cases hb : This_Byte = EOP_BYTE
    · by_cases hcb : RX.Packet_Ready = true
      · have e : Comms_RX_Receive_Byte RX This_Byte =
            some ({ RX with
                      Packet := { RX.Packet with
                                    EOP := EOP_BYTE,
                                    Payload := { RX.Packet.Payload with
                                                   Len := RX.Running_Len % 256 } },
                      Expect := EXPECT_SOP, Byte_Timer := 0 },
              [{ RX.Packet with
                   EOP := EOP_BYTE,
                   Payload := { RX.Packet.Payload with Len := RX.Running_Len % 256 } }]) := by
          unfold Comms_RX_Receive_Byte
          rw [h, if_neg (by decide), if_neg (by decide), if_pos rfl, if_pos hb, if_pos hcb]
        refine ⟨_, _, e, ?_, ?_, ?_, ?_⟩
        · simp [spec_on_byte, absFramer, absState, h, hb]
        · have hm : RX.Running_Len % 256 = RX.Running_Len := Nat.mod_eq_of_lt (by omega)
          simp [spec_on_byte, absFramer, absState, absPacket, h, hb, hcb, hm]
        · intro h1 h2
          rw [h] at h1
          cases h1
        · intro Pkt hP
          rw [List.mem_singleton] at hP
          subst hP
          exact Nat.mod_eq_of_lt (by omega)
      · have e : Comms_RX_Receive_Byte RX This_Byte =
            some ({ RX with Expect := EXPECT_SOP, Byte_Timer := 0 }, []) := by
          unfold Comms_RX_Receive_Byte
          rw [h, if_neg (by decide), if_neg (by decide), if_pos rfl, if_pos hb, if_neg hcb]
        refine ⟨_, _, e, ?_, ?_, ?_, ?_⟩
        · simp [spec_on_byte, absFramer, absState, h, hb]
        · simp [hcb]
        · intro h1 h2
          rw [h] at h1
          cases h1
        · intro Pkt hP
          exact absurd hP (List.not_mem_nil _)
    · by_cases hlt : RX.Running_Len < PAYLOAD_BUF_SIZE
      · have hlt30 : RX.Running_Len < 30 := hlt
        have e : Comms_RX_Receive_Byte RX This_Byte =
            some ({ RX with
                      Packet := { RX.Packet with
                                    Payload := { RX.Packet.Payload with
                                                   Buf := RX.Packet.Payload.Buf.set
                                                     RX.Running_Len This_Byte } },
                      Running_Len := (RX.Running_Len + 1) % 65536, Byte_Timer := 0 }, []) := by
          unfold Comms_RX_Receive_Byte
          rw [h, if_neg (by decide), if_neg (by decide), if_pos rfl, if_neg hb, if_pos hlt,
            store_eq _ _ _ (by omega)]
        refine ⟨_, _, e, ?_, ?_, ?_, ?_⟩
        · have hm : (RX.Running_Len + 1) % 65536 = RX.Running_Len + 1 :=
            Nat.mod_eq_of_lt (by omega)
          have ht := take_succ_set RX.Packet.Payload.Buf RX.Running_Len This_Byte (by omega)
          simp [spec_on_byte, absFramer, absState, h, hb, hm, ht, htl, hlt30]
        · simp [spec_on_byte, absFramer, absState, h, hb, htl, hlt30]
        · intro h1 h2
          rw [h] at h1
          cases h1
        · intro Pkt hP
          exact absurd hP (List.not_mem_nil _)
      · have heq : RX.Running_Len = 30 := by
          have : ¬ RX.Running_Len < 30 := hlt
          omega
        have e : Comms_RX_Receive_Byte RX This_Byte =
            some ({ RX with Byte_Timer := 0 }, []) := by
          unfold Comms_RX_Receive_Byte
          rw [h, if_neg (by decide), if_neg (by decide), if_pos rfl, if_neg hb, if_neg hlt]
        refine ⟨_, _, e, ?_, ?_, ?_, ?_⟩
        · simp [spec_on_byte, absFramer, absState, h, hb, heq, h30]
        · simp [spec_on_byte, absFramer, absState, h, hb, heq, h30]
        · intro h1 h2
          rw [h] at h1
          cases h1
        · intro Pkt hP
          exact absurd hP (List.not_mem_nil _)

/-- C22, at an instance: the byte `}` in `EXPECT_PAYLOAD` with one byte stored
and a callback registered. -/
theorem Receive_Byte_refines_table_witness :
    ∃ RX1 out,
      Comms_RX_Receive_Byte
        ⟨EXPECT_PAYLOAD, 1, true, ⟨SOP_BYTE, COMMAND_STATUS, ⟨0, 7 :: List.replicate 29 0⟩, 0⟩, 0⟩
        EOP_BYTE = some (RX1, out) ∧
      absFramer RX1 = (spec_on_byte (absFramer
        ⟨EXPECT_PAYLOAD, 1, true, ⟨SOP_BYTE, COMMAND_STATUS, ⟨0, 7 :: List.replicate 29 0⟩, 0⟩,
          0⟩) EOP_BYTE).1 ∧
      out.map absPacket = [(COMMAND_STATUS, [7])] ∧
      (∀ Pkt ∈ out, Pkt.Payload.Len = 1) := by
  obtain ⟨RX1, out, h1, h2, h3, _, h5⟩ := Receive_Byte_refines_table
    ⟨EXPECT_PAYLOAD, 1, true, ⟨SOP_BYTE, COMMAND_STATUS, ⟨0, 7 :: List.replicate 29 0⟩, 0⟩, 0⟩
    EOP_BYTE (Or.inr (Or.inr rfl)) (by decide) (fun _ => by decide)
  exact ⟨RX1, out, h1, h2, h3, h5⟩

/-! ## The idle states -/

/-- C23: in a state with `Expect` at `EXPECT_SOP` or `EXPECT_UNDEFINED`,
`Comms_RX_Timer` returns the receive object with every field as it was,
whatever the timeout; and in a state with `Expect` at `EXPECT_UNDEFINED`,
`Comms_RX_Receive_Byte` returns on every byte, with every field as it was and
without a call of the callback. -/
theorem idle_states_unchanged (T : Nat) (RX : Comms_RX_Typedef) (This_Byte : Nat) :
    ((RX.Expect = EXPECT_SOP ∨ RX.Expect = EXPECT_UNDEFINED) → Comms_RX_Timer T RX = RX) ∧
    (RX.Expect = EXPECT_UNDEFINED → Comms_RX_Receive_Byte RX This_Byte = some (RX, [])) := by
  constructor
  · intro h
    unfold Comms_RX_Timer
    rw [if_neg]
    rintro ⟨h1, h2⟩
    rcases h with h | h
    · exact h1 h
    · exact h2 h
  · intro h
    unfold Comms_RX_Receive_Byte
    rw [h]
    rfl

/-- C23, at instances: a tick in `EXPECT_SOP` with the timer at 7, a tick and
the byte `{` in `EXPECT_UNDEFINED`. -/
theorem idle_states_unchanged_witness :
    Comms_RX_Timer 1 ⟨EXPECT_SOP, 3, true, ⟨0, 0, ⟨0, List.replicate 30 0⟩, 0⟩, 7⟩ =
      ⟨EXPECT_SOP, 3, true, ⟨0, 0, ⟨0, List.replicate 30 0⟩, 0⟩, 7⟩ ∧
    Comms_RX_Timer 1 ⟨EXPECT_UNDEFINED, 3, true, ⟨0, 0, ⟨0, List.replicate 30 0⟩, 0⟩, 7⟩ =
      ⟨EXPECT_UNDEFINED, 3, true, ⟨0, 0, ⟨0, List.replicate 30 0⟩, 0⟩, 7⟩ ∧
    Comms_RX_Receive_Byte
        ⟨EXPECT_UNDEFINED, 3, true, ⟨0, 0, ⟨0, List.replicate 30 0⟩, 0⟩, 7⟩ SOP_BYTE =
      some (⟨EXPECT_UNDEFINED, 3, true, ⟨0, 0, ⟨0, List.replicate 30 0⟩, 0⟩, 7⟩, []) :=
  ⟨(idle_states_unchanged 1 ⟨EXPECT_SOP, 3, true, ⟨0, 0, ⟨0, List.replicate 30 0⟩, 0⟩, 7⟩
      0).1 (Or.inl rfl),
   (idle_states_unchanged 1 ⟨EXPECT_UNDEFINED, 3, true, ⟨0, 0, ⟨0, List.replicate 30 0⟩, 0⟩, 7⟩
      SOP_BYTE).1 (Or.inr rfl),
   (idle_states_unchanged 1 ⟨EXPECT_UNDEFINED, 3, true, ⟨0, 0, ⟨0, List.replicate 30 0⟩, 0⟩, 7⟩
      SOP_BYTE).2 rfl⟩

/-! ## Reboot requests -/

/-- C24, at the failing input: with `REBOOT_REQUEST_NORMAL` pending,
`Reboot_Main` starts the watchdog and clears the request; after
`Reboot_Request(REBOOT_REQUEST_DFU)` it does not start the watchdog and the
request stays at `REBOOT_REQUEST_DFU`. For every other pending value the
watchdog is started neither with nor without the DFU request. -/
theorem dfu_request_cancels_pending_reboot :
    Reboot_Main REBOOT_REQUEST_NORMAL = (REBOOT_REQUEST_NONE, true) ∧
    Reboot_Main (Reboot_Request REBOOT_REQUEST_DFU REBOOT_REQUEST_NORMAL) =
      (REBOOT_REQUEST_DFU, false) ∧
    ∀ R, R ≠ REBOOT_REQUEST_NORMAL →
      (Reboot_Main (Reboot_Request REBOOT_REQUEST_DFU R)).2 = (Reboot_Main R).2 := by
  refine ⟨rfl, rfl, ?_⟩
  intro R hR
  cases R
  · rfl
  · exact absurd rfl hR
  · rfl

/-! ## The values handed to the IO collaborator -/

/-- A run of the loop of `Get_PWMs_From_Payload` that ends with true has
written a value up to 100 to each cell it went over and has left the cells
before them as they were. -/
theorem loop_true_cells (n : Nat) : ∀ (idx : Nat) (tok : Option (List Nat)) (save : List Nat)
    (P Q : List (Option Nat)),
    Get_PWMs_loop n idx tok save P = some (true, Q) →
    Q.length = P.length ∧ (∀ i, i < idx → Q[i]? = P[i]?) ∧
    (∀ i, idx ≤ i → i < idx + n → i < P.length → ∃ v, v ≤ 100 ∧ Q[i]? = some (some v)) := by
  induction n with
  | zero =>
    intro idx tok save P Q h
    simp only [Get_PWMs_loop, Option.some.injEq, Prod.mk.injEq, true_and] at h
    subst h
    exact ⟨rfl, fun _ _ => rfl, fun i h1 h2 _ => by omega⟩
  | succ n ih =>
    intro idx tok save P Q h
    cases tok with
    | none => simp [Get_PWMs_loop] at h
    | some t =>
      simp only [Get_PWMs_loop] at h
      split at h
      · split at h
        · simp at h
        · split at h
          · rename_i hnum
            obtain ⟨e1, e2, e3⟩ := ih _ _ _ _ _ h
            rw [List.length_set] at e1 e3
            refine ⟨e1, ?_, ?_⟩
            · intro i hi
              rw [e2 i (by omega), List.getElem?_set_ne (by omega)]
            · intro i h1 h2 h3
              by_cases hi : i = idx
              · subst hi
                refine ⟨(atoi t).toNat % 256, ?_, ?_⟩
                · have : (atoi t).toNat ≤ 100 := by omega
                  omega
                · rw [e2 i (by omega), List.getElem?_set_self h3]
              · exact e3 i (by omega) (by omega) h3
          · simp at h
      · simp at h

/-- When `Get_PWMs_From_Payload` returns true on an array of four cells, each of
the four cells has been written and holds a value up to 100. -/
theorem Get_PWMs_true_cells (PWMs Q : List (Option Nat)) (Payload : Comms_Payload)
    (h4 : PWMs.length = 4) (h : Get_PWMs_From_Payload PWMs Payload = some (true, Q)) :
    ∃ a b c d, Q = [some a, some b, some c, some d] ∧ a ≤ 100 ∧ b ≤ 100 ∧ c ≤ 100 ∧
      d ≤ 100 := by
  unfold Get_PWMs_From_Payload at h
  split at h
  · simp at h
  dsimp only at h
  obtain ⟨e1, _, e3⟩ := loop_true_cells _ _ _ _ _ _ h
  rw [h4] at e1 e3
  obtain ⟨a, ha, ha'⟩ := e3 0 (by omega) (by omega) (by omega)
  obtain ⟨b, hb, hb'⟩ := e3 1 (by omega) (by omega) (by omega)
  obtain ⟨c, hc, hc'⟩ := e3 2 (by omega) (by omega) (by omega)
  obtain ⟨d, hd, hd'⟩ := e3 3 (by omega) (by omega) (by omega)
  refine ⟨a, b, c, d, ?_, ha, hb, hc, hd⟩
  match Q, e1, ha', hb', hc', hd' with
  | [q0, q1, q2, q3], _, ha', hb', hc', hd' =>
    simp only [List.getElem?_cons_zero, List.getElem?_cons_succ, Option.some.injEq] at ha' hb' hc' hd'
    rw [ha', hb', hc', hd']

/-- The calls that `Load_Buf_With_Status` makes are the four readings. -/
theorem Load_Buf_With_Status_calls (Percent : PWM_PIN → Nat) (P P1 : Comms_Payload)
    (calls : List Call) (h : Load_Buf_With_Status Percent P = some (P1, calls)) :
    calls = [Call.IO_Get_PWM_Percent ENA_L, Call.IO_Get_PWM_Percent ENA_R,
       Call.IO_Get_PWM_Percent PWM_L, Call.IO_Get_PWM_Percent PWM_R] := by
  unfold Load_Buf_With_Status at h
  iterate 9
    try dsimp only at h
    split at h
    · cases h
  simp only [Option.some.injEq, Prod.mk.injEq] at h
  exact h.2.symm

/-- C25: whenever `Get_PWMs_From_Payload` returns true on an array of four
cells, each of `PWMs[0..3]` has been written and holds a value up to 100; and
for every command byte and payload, every value in a call of
`IO_Set_PWM_Percent` that `Command_Execute` makes is at most 100. -/
theorem set_values_in_range (Percent : PWM_PIN → Nat) (str : List Nat) (p : Comms_Payload)
    (R : Reboot_Request_Type) (Cmd : Nat) (Payload : Comms_Payload) :
    (∀ PWMs Q, PWMs.length = 4 → Get_PWMs_From_Payload PWMs Payload = some (true, Q) →
      ∃ a b c d, Q = [some a, some b, some c, some d] ∧ a ≤ 100 ∧ b ≤ 100 ∧ c ≤ 100 ∧
        d ≤ 100) ∧
    (∀ r, Command_Execute Percent str p R Cmd Payload = some r →
      ∀ v pin, Call.IO_Set_PWM_Percent v pin ∈ r.calls → v ≤ 100) := by
  refine ⟨fun PWMs Q h4 h => Get_PWMs_true_cells PWMs Q Payload h4 h, ?_⟩
  intro r h v pin hv
  unfold Command_Execute at h
  split at h
  · split at h
    · cases h
    split at h
    · cases h
    split at h
    · cases h
    simp only [Option.some.injEq] at h
    subst h
    simp at hv
  split at h
  · split at h
    · cases h
    · rename_i PWMs hG
      obtain ⟨a, b, c, d, hQ, ha, hb, hc, hd⟩ := Get_PWMs_true_cells [none, none, none, none] PWMs Payload rfl hG
      subst hQ
      dsimp only at h
      split at h
      · cases h
      simp only [Option.some.injEq] at h
      subst h
      simp only [List.mem_cons, Call.IO_Set_PWM_Percent.injEq, List.mem_singleton,
        List.not_mem_nil, or_false] at hv
      rcases hv with hv | hv | hv | hv <;> omega
    · split at h
      · cases h
      simp only [Option.some.injEq] at h
      subst h
      simp at hv
  split at h
  · split at h
    · cases h
    rename_i p1 calls hL
    simp only [Option.some.injEq] at h
    subst h
    rw [Load_Buf_With_Status_calls _ _ _ _ hL] at hv
    simp at hv
  split at h
  · split at h
    · cases h
    split at h
    · split at h
      · cases h
      simp only [Option.some.injEq] at h
      subst h
      simp at hv
    · split at h
      · cases h
      simp only [Option.some.injEq] at h
      subst h
      simp at hv
  · split at h
    · cases h
    simp only [Option.some.injEq] at h
    subst h
    simp at hv

/-- C25, at an instance: the payload `100,0,50,7`. -/
theorem set_values_in_range_witness :
    Get_PWMs_From_Payload [none, none, none, none] (payloadOf (bytesOf "100,0,50,7")) =
      some (true, [some 100, some 0, some 50, some 7]) ∧
    (∃ a b c d, [some 100, some 0, some 50, some 7] = [some a, some b, some c, some d] ∧
      a ≤ 100 ∧ b ≤ 100 ∧ c ≤ 100 ∧ d ≤ 100) ∧
    (∃ r, Command_Execute (fun _ => 9) Firmware_Version_Get (payloadOf []) REBOOT_REQUEST_NONE
        COMMAND_SET_OUTPUTS (payloadOf (bytesOf "100,0,50,7")) = some r ∧
      Call.IO_Set_PWM_Percent 100 ENA_L ∈ r.calls ∧ 100 ≤ 100) :=
  ⟨by decide,
   (set_values_in_range (fun _ => 9) Firmware_Version_Get (payloadOf []) REBOOT_REQUEST_NONE
      COMMAND_SET_OUTPUTS (payloadOf (bytesOf "100,0,50,7"))).1 [none, none, none, none]
      [some 100, some 0, some 50, some 7] rfl (by decide),
   ⟨_, rfl, by decide,
    (set_values_in_range (fun _ => 9) Firmware_Version_Get (payloadOf []) REBOOT_REQUEST_NONE
      COMMAND_SET_OUTPUTS (payloadOf (bytesOf "100,0,50,7"))).2 _ rfl 100 ENA_L (by decide)⟩⟩

/-! ## What the commands read of the payload -/

/-- `Get_PWMs_From_Payload` reads only `Len` and the first `Len` bytes of the
payload buffer. -/
theorem Get_PWMs_From_Payload_prefix (PWMs : List (Option Nat)) (P Q : Comms_Payload)
    (hL : P.Len = Q.Len) (hB : P.Buf.take P.Len = Q.Buf.take Q.Len) :
    Get_PWMs_From_Payload PWMs P = Get_PWMs_From_Payload PWMs Q := by
  unfold Get_PWMs_From_Payload
  dsimp only
  rw [cstring_StrPayload, cstring_StrPayload, hB, hL]

/-- C26, at the failing input: a Reboot command whose payload is empty
(`Len = 0`) is acknowledged and requests the reboot when `Buf[0]` holds `N`,
and is answered `RESP_INV_PAYLOAD` without a request when `Buf[0]` holds 0; on
the channel, the frame `{R}` after the frame `{XN}` is acknowledged and leaves
the reboot requested. For every command other than Reboot the result is the
same for two payloads with equal `Len` and equal first `Len` bytes. -/
theorem reboot_reads_beyond_Len :
    (∃ r1 r2,
      Command_Execute (fun _ => 0) Firmware_Version_Get (payloadOf []) REBOOT_REQUEST_NONE
        COMMAND_REBOOT ⟨0, 78 :: List.replicate 29 0⟩ = some r1 ∧
      Command_Execute (fun _ => 0) Firmware_Version_Get (payloadOf []) REBOOT_REQUEST_NONE
        COMMAND_REBOOT ⟨0, List.replicate 30 0⟩ = some r2 ∧
      r1.p.Buf[0]? = some RESP_ACK ∧ r1.calls = [Call.Reboot_Request REBOOT_REQUEST_NORMAL] ∧
      r2.p.Buf[0]? = some RESP_INV_PAYLOAD ∧ r2.calls = []) ∧
    (∃ c0 T c1 out, Comms_Controller_Initialise (Controller_reset (fun _ => 0)) 1 = some (c0, T) ∧
      Comms_Controller_Bytes_Received c0 (bytesOf "\x7bXN\x7d\x7bR\x7d") = some (c1, out) ∧
      out = [Trace.Command_Execute 88 ⟨1, 78 :: List.replicate 29 0⟩,
             Trace.CDC_Transmit_FS (bytesOf "\x7bXC\x7d\n\r"),
             Trace.Command_Execute COMMAND_REBOOT ⟨0, 78 :: List.replicate 29 0⟩,
             Trace.CDC_Transmit_FS (bytesOf "\x7bRA\x7d\n\r")] ∧
      c1.R = REBOOT_REQUEST_NORMAL) ∧
    (∀ (Percent : PWM_PIN → Nat) (str : List Nat) (p : Comms_Payload) (R : Reboot_Request_Type)
      (Cmd : Nat) (P Q : Comms_Payload), Cmd ≠ COMMAND_REBOOT → P.Len = Q.Len →
      P.Buf.take P.Len = Q.Buf.take Q.Len →
      Command_Execute Percent str p R Cmd P = Command_Execute Percent str p R Cmd Q) := by
  refine ⟨⟨_, _, rfl, rfl, by decide, by decide, by decide, by decide⟩, ?_, ?_⟩
  · have h0 : Comms_Controller_Initialise (Controller_reset (fun _ => 0)) 1 =
        some ({ Controller_reset (fun _ => 0) with
                  RX := { (Controller_reset (fun _ => 0)).RX with
                            Expect := EXPECT_SOP, Packet_Ready := true } }, 500) := by
      unfold Comms_Controller_Initialise
      rw [Comms_RX_Initialise_one]
    refine ⟨_, _, _, _, h0, rfl, by decide, by decide⟩
  · intro Percent str p R Cmd P Q hR hL hB
    unfold Command_Execute
    rw [if_neg hR, if_neg hR, Get_PWMs_From_Payload_prefix _ P Q hL hB]

/-! ## Completeness of the SetOutputs parse -/

/-- C27: for every four values up to 100, the payload made of their decimal
renderings joined by three commas has a length from 7 to 15, and
`Get_PWMs_From_Payload` on it returns true with the four values stored in
`PWMs`, in order. -/
theorem parser_complete (a b c d : Nat) (ha : a ≤ 100) (hb : b ≤ 100) (hc : c ≤ 100)
    (hd : d ≤ 100) :
    7 ≤ (payloadOf (dec a ++ 44 :: (dec b ++ 44 :: (dec c ++ 44 :: dec d)))).Len ∧
    (payloadOf (dec a ++ 44 :: (dec b ++ 44 :: (dec c ++ 44 :: dec d)))).Len ≤ 15 ∧
    Get_PWMs_From_Payload [none, none, none, none]
        (payloadOf (dec a ++ 44 :: (dec b ++ 44 :: (dec c ++ 44 :: dec d)))) =
      some (true, [some a, some b, some c, some d]) := by
  obtain ⟨l1, l2, hs⟩ := split_four_dec a b c d (by omega) (by omega) (by omega) (by omega)
  obtain ⟨a1, a2, a3, _⟩ := dec_percent a (by omega)
  obtain ⟨b1, b2, b3, _⟩ := dec_percent b (by omega)
  obtain ⟨c1, c2, c3, _⟩ := dec_percent c (by omega)
  obtain ⟨d1, d2, d3, _⟩ := dec_percent d (by omega)
  have hL : (payloadOf (dec a ++ 44 :: (dec b ++ 44 :: (dec c ++ 44 :: dec d)))).Len =
      (dec a ++ 44 :: (dec b ++ 44 :: (dec c ++ 44 :: dec d))).length := rfl
  refine ⟨by rw [hL]; exact l1, by rw [hL]; exact l2, ?_⟩
  have h := Get_PWMs_From_Payload_accepts
    (payloadOf (dec a ++ 44 :: (dec b ++ 44 :: (dec c ++ 44 :: dec d))))
    (dec a) (dec b) (dec c) (dec d) [] ⟨by rw [hL]; exact l1, by rw [hL]; exact l2⟩
    (by rw [payloadOf_bytes]; exact hs) ⟨a1, a2⟩ ⟨b1, b2⟩ ⟨c1, c2⟩ ⟨d1, d2⟩
  rw [h, a3, b3, c3, d3]

/-- C27, at an instance: the values 100, 0, 50 and 7 give the payload
`100,0,50,7`. -/
theorem parser_complete_witness :
    dec 100 ++ 44 :: (dec 0 ++ 44 :: (dec 50 ++ 44 :: dec 7)) = bytesOf "100,0,50,7" ∧
    7 ≤ (payloadOf (dec 100 ++ 44 :: (dec 0 ++ 44 :: (dec 50 ++ 44 :: dec 7)))).Len ∧
    (payloadOf (dec 100 ++ 44 :: (dec 0 ++ 44 :: (dec 50 ++ 44 :: dec 7)))).Len ≤ 15 ∧
    Get_PWMs_From_Payload [none, none, none, none]
        (payloadOf (dec 100 ++ 44 :: (dec 0 ++ 44 :: (dec 50 ++ 44 :: dec 7)))) =
      some (true, [some 100, some 0, some 50, some 7]) :=
  ⟨by decide, parser_complete 100 0 50 7 (by decide) (by decide) (by decide) (by decide)⟩

/-! ## The reply stays within the static buffer -/

/-- The readings enter `Load_Buf_With_Status` as values of `uint8_t`. -/
theorem Load_Buf_With_Status_mod (Percent : PWM_PIN → Nat) (P : Comms_Payload) :
    Load_Buf_With_Status Percent P = Load_Buf_With_Status (fun pin => Percent pin % 256) P := by
  simp only [Load_Buf_With_Status, Nat.mod_mod]

/-- On a static reply buffer of `PAYLOAD_BUF_SIZE` cells whose last cell is
zero, `Command_Execute` makes every store inside the buffer and returns a reply
with `Len` up to `PAYLOAD_BUF_SIZE`; the one call that is not defined is a
SetOutputs whose parse reads through the null token, before anything is
stored. -/
theorem Command_Execute_defined (Percent : PWM_PIN → Nat) (str : List Nat)
    (p : Comms_Payload) (R : Reboot_Request_Type) (Cmd : Nat) (Payload : Comms_Payload)
    (hlen : p.Buf.length = PAYLOAD_BUF_SIZE) (hlast : p.Buf.getLast? = some 0)
    (h0 : 0 ∉ str) (hPay : Payload.Buf.length = PAYLOAD_BUF_SIZE) :
    (∃ r, Command_Execute Percent str p R Cmd Payload = some r ∧
      r.p.Len ≤ PAYLOAD_BUF_SIZE) ∨
    (Cmd = COMMAND_SET_OUTPUTS ∧
      Get_PWMs_From_Payload [none, none, none, none] Payload = none) := by
  by_cases hF : Cmd = COMMAND_FW_VER
  · subst hF
    left
    refine ⟨_, Command_Execute_fw Percent str p R Payload hlen hlast h0, ?_⟩
    show 1 + min str.length 28 ≤ 30
    omega
  by_cases hO : Cmd = COMMAND_SET_OUTPUTS
  · subst hO
    cases hG : Get_PWMs_From_Payload [none, none, none, none] Payload with
    | none => exact Or.inr ⟨rfl, rfl⟩
    | some res =>
      left
      obtain ⟨ok, Q⟩ := res
      cases ok with
      | true =>
        obtain ⟨a, b, c, d, hQ, _⟩ := Get_PWMs_true_cells [none, none, none, none] Q Payload rfl hG
        subst hQ
        have hCE : Command_Execute Percent str p R COMMAND_SET_OUTPUTS Payload =
            some { p := { Len := 1, Buf := p.Buf.set 0 RESP_ACK }, R := R,
                   calls := [Call.IO_Set_PWM_Percent a ENA_L, Call.IO_Set_PWM_Percent b ENA_R,
                             Call.IO_Set_PWM_Percent c PWM_L,
                             Call.IO_Set_PWM_Percent d PWM_R] } := by
          unfold Command_Execute
          rw [if_neg (by decide), if_pos rfl, hG]
          dsimp only
          rw [store_zero _ _ hlen]
        exact ⟨_, hCE, by show 1 ≤ 30; omega⟩
      | false =>
        have hCE : Command_Execute Percent str p R COMMAND_SET_OUTPUTS Payload =
            some { p := { Len := 1, Buf := p.Buf.set 0 RESP_INV_PAYLOAD }, R := R,
                   calls := [] } := by
          unfold Command_Execute
          rw [if_neg (by decide), if_pos rfl, hG]
          dsimp only
          rw [store_zero _ _ hlen]
        exact ⟨_, hCE, by show 1 ≤ 30; omega⟩
  by_cases hS : Cmd = COMMAND_STATUS
  · subst hS
    left
    obtain ⟨rest, hL⟩ := Load_Buf_With_Status_eq (fun pin => Percent pin % 256) p hlen
      (fun pin => Nat.mod_lt _ (by decide))
    rw [← Load_Buf_With_Status_mod] at hL
    have a := (dec_small _ (Nat.mod_lt (Percent ENA_L) (by decide : 0 < 256))).2
    have b := (dec_small _ (Nat.mod_lt (Percent ENA_R) (by decide : 0 < 256))).2
    have c := (dec_small _ (Nat.mod_lt (Percent PWM_L) (by decide : 0 < 256))).2
    have d := (dec_small _ (Nat.mod_lt (Percent PWM_R) (by decide : 0 < 256))).2
    obtain ⟨P1, calls, hP1, hLen1⟩ : ∃ P1 calls,
        Load_Buf_With_Status Percent p = some (P1, calls) ∧ P1.Len ≤ 30 := by
      refine ⟨_, _, hL, ?_⟩
      simp only [List.length_append, List.length_cons, List.length_nil]
      omega
    have hCE : Command_Execute Percent str p R COMMAND_STATUS Payload =
        some { p := P1, R := R, calls := calls } := by
      unfold Command_Execute
      rw [if_neg (by decide), if_neg (by decide), if_pos rfl, hP1]
    exact ⟨_, hCE, hLen1⟩
  by_cases hR : Cmd = COMMAND_REBOOT
  · subst hR
    left
    obtain ⟨b, tl, hb⟩ : ∃ b tl, Payload.Buf = b :: tl := by
      cases hq : Payload.Buf with
      | nil => rw [hq] at hPay; simp at hPay
      | cons b tl => exact ⟨b, tl, rfl⟩
    have hload : load Payload.Buf 0 = some b := by rw [hb]; simp [load]
    by_cases hN : b = 78
    · have hCE : Command_Execute Percent str p R COMMAND_REBOOT Payload =
          some { p := { Len := 1, Buf := p.Buf.set 0 RESP_ACK },
                 R := Reboot_Request REBOOT_REQUEST_NORMAL R,
                 calls := [Call.Reboot_Request REBOOT_REQUEST_NORMAL] } := by
        unfold Command_Execute
        rw [if_neg (by decide), if_neg (by decide), if_neg (by decide), if_pos rfl, hload]
        dsimp only
        rw [if_pos hN, store_zero _ _ hlen]
      exact ⟨_, hCE, by show 1 ≤ 30; omega⟩
    · have hCE : Command_Execute Percent str p R COMMAND_REBOOT Payload =
          some { p := { Len := 1, Buf := p.Buf.set 0 RESP_INV_PAYLOAD }, R := R,
                 calls := [] } := by
        unfold Command_Execute
        rw [if_neg (by decide), if_neg (by decide), if_neg (by decide), if_pos rfl, hload]
        dsimp only
        rw [if_neg hN, store_zero _ _ hlen]
      exact ⟨_, hCE, by show 1 ≤ 30; omega⟩
  · left
    have hCE : Command_Execute Percent str p R Cmd Payload =
        some { p := { Len := 1, Buf := p.Buf.set 0 RESP_INV_COMMAND }, R := R,
               calls := [] } := by
      unfold Command_Execute
      rw [if_neg hF, if_neg hO, if_neg hS, if_neg hR, store_zero _ _ hlen]
    exact ⟨_, hCE, by show 1 ≤ 30; omega⟩

/-- C28: after any sequence of `Command_Execute` calls on the static reply
buffer (zero at power-on), with any commands, payloads, readings and version
string, the next call makes every store into the buffer at an index below
`PAYLOAD_BUF_SIZE` (a store outside is not defined in the model, and the call
returns), the buffer keeps its `PAYLOAD_BUF_SIZE` cells, and the reply has
`Len` up to `PAYLOAD_BUF_SIZE`, so that `Send_Packet` leaves `Len` as it is and
sends the whole reply. The one call that does not return is a SetOutputs whose
parse reads through the null token, before anything is stored. -/
theorem reply_within_buffer (str : List Nat) (prior : List Command_Input)
    (R0 R1 : Reboot_Request_Type) (p1 : Comms_Payload) (Percent : PWM_PIN → Nat) (Cmd : Nat)
    (Payload : Comms_Payload) (SBuf : List Nat) (h0 : 0 ∉ str)
    (hPay : Payload.Buf.length = PAYLOAD_BUF_SIZE)
    (hS : SBuf.length = PAYLOAD_BUF_SIZE + 5)
    (hseq : Command_Execute_seq str ⟨0, List.replicate PAYLOAD_BUF_SIZE 0⟩ R0 prior =
      some (p1, R1)) :
    (∃ r s, Command_Execute Percent str p1 R1 Cmd Payload = some r ∧
      r.p.Len ≤ PAYLOAD_BUF_SIZE ∧ r.p.Buf.length = PAYLOAD_BUF_SIZE ∧
      Send_Packet SBuf Cmd r.p = some s ∧ s.Dat = r.p ∧
      s.sent = [[SOP_BYTE, Cmd] ++ r.p.Buf.take r.p.Len ++ [EOP_BYTE, 10, 13]]) ∨
    (Cmd = COMMAND_SET_OUTPUTS ∧
      Get_PWMs_From_Payload [none, none, none, none] Payload = none) := by
  obtain ⟨hlen, hlast⟩ := Command_Execute_seq_invariant str prior _ R0 p1 R1 hseq
    (by decide) (by decide)
  rcases Command_Execute_defined Percent str p1 R1 Cmd Payload hlen hlast h0 hPay with
    ⟨r, hr, hL⟩ | h
  · left
    obtain ⟨hrl, _⟩ := Command_Execute_invariant _ _ _ _ _ _ r hr hlen hlast
    have hsend := Send_Packet_eq SBuf Cmd r.p hS hrl
    rw [Nat.min_eq_left hL] at hsend
    exact ⟨r, _, hr, hL, hrl, hsend, rfl, rfl⟩
  · exact Or.inr h

/-- C28, at an instance: a Status command with all readings at 255, after a
firmware version command; the reply `A255,255,255,255,` has `Len = 17`. -/
theorem reply_within_buffer_witness :
    (∃ r s, Command_Execute (fun _ => 255) Firmware_Version_Get
        ⟨17, bytesOf "AMCU_7960_USBv0.1" ++ List.replicate 13 0⟩ REBOOT_REQUEST_NONE
        COMMAND_STATUS (payloadOf []) = some r ∧
      r.p.Len ≤ PAYLOAD_BUF_SIZE ∧ r.p.Buf.length = PAYLOAD_BUF_SIZE ∧
      Send_Packet (List.replicate 35 0) COMMAND_STATUS r.p = some s ∧ s.Dat = r.p ∧
      s.sent = [[SOP_BYTE, COMMAND_STATUS] ++ r.p.Buf.take r.p.Len ++ [EOP_BYTE, 10, 13]]) ∨
    (COMMAND_STATUS = COMMAND_SET_OUTPUTS ∧
      Get_PWMs_From_Payload [none, none, none, none] (payloadOf []) = none) :=
  reply_within_buffer Firmware_Version_Get [⟨fun _ => 0, COMMAND_FW_VER, payloadOf []⟩]
    REBOOT_REQUEST_NONE REBOOT_REQUEST_NONE
    ⟨17, bytesOf "AMCU_7960_USBv0.1" ++ List.replicate 13 0⟩ (fun _ => 255) COMMAND_STATUS
    (payloadOf []) (List.replicate 35 0) (by decide) (by decide) (by decide) (by decide)

/-! ## The check of the command -/

/-- C30, at the failing input: `Is_Command_Valid` returns false for
`COMMAND_REBOOT`, which is an element of `Active_Commands` and which
`Command_Execute` accepts; it returns true exactly for the first three
elements of the array. -/
theorem Is_Command_Valid_misses_reboot :
    Is_Command_Valid COMMAND_REBOOT = false ∧ COMMAND_REBOOT ∈ Active_Commands ∧
    (∃ r, Command_Execute (fun _ => 0) Firmware_Version_Get (payloadOf []) REBOOT_REQUEST_NONE
        COMMAND_REBOOT (payloadOf [78]) = some r ∧ r.p.Buf[0]? = some RESP_ACK) ∧
    ∀ Cmd, Is_Command_Valid Cmd = true ↔
      (Cmd = COMMAND_FW_VER ∨ Cmd = COMMAND_STATUS ∨ Cmd = COMMAND_SET_OUTPUTS) := by
  refine ⟨by decide, by decide, ⟨_, rfl, by decide⟩, ?_⟩
  intro Cmd
  simp only [Is_Command_Valid, sizeof_Active_Commands, Active_Commands, List.length_cons,
    List.length_nil, Is_Command_Valid_loop, List.getD_cons_zero, List.getD_cons_succ]
  simp only [ite_eq_left_iff, Bool.false_eq_true, imp_false, not_not,
    Bool.if_true_left, Bool.or_eq_true, decide_eq_true_eq, Bool.or_false, Bool.if_false_right,
    Bool.and_true, COMMAND_FW_VER, COMMAND_STATUS, COMMAND_SET_OUTPUTS]
  omega

end MCU7960
